import Mathlib

/-!
# awm: workspaces, focus chain and tiling

A shallow embedding of `src/src/Workspace.cpp` and of the parts of
`src/src/Toplevel.cpp` it calls, over an explicit model of the intrusive
`wl_list` nodes the C++ code links its objects with.

* Every `wl_list` node is an address (`Node`): the head of the server's list of
  toplevels, the head of a workspace's list, or the `link` member of a toplevel.
  A toplevel has ONE `link` member (`include/Toplevel.h`), used both by
  `Workspace` and by `Toplevel::focus`.
* `next`/`prev` hold the two pointers of a node, `none` being `NULL`.
* Every operation returns an `Option`: `none` stands for undefined behaviour
  (a `NULL` pointer is dereferenced, or a method is called on the result of
  `wl_container_of` applied to a list head) or for a loop that did not finish
  within the given fuel.
-/

namespace Awm

/-- Address of a `wl_list` node. -/
inductive Node where
  /-- The node `&server->toplevels` -/
  | srv : Node
  /-- The node `&workspace->toplevels` of workspace number `w` -/
  | ws (w : Nat) : Node
  /-- The node `&toplevel->link` of toplevel number `t` -/
  | link (t : Nat) : Node
deriving DecidableEq, Repr

/-- A `wlr_surface`: the surface of a toplevel, or any other surface
(layer-shell surface, popup). -/
inductive Surface where
  | toplevel (t : Nat) : Surface
  | other (n : Nat) : Surface
deriving DecidableEq, Repr

/-- The `enum CursorMode` (`CursorMode.h` is not among the sources; the names are
those used in `Toplevel.cpp`). -/
inductive CursorMode where
  | CURSORMODE_PASSTHROUGH : CursorMode
  | CURSORMODE_MOVE : CursorMode
  | CURSORMODE_RESIZE : CursorMode
deriving DecidableEq, Repr

/-- The helper programs the key bindings start with `fork` and `execl`. -/
inductive Spawn where
  /-- the launcher, `rofi -show drun` -/
  | rofi : Spawn
  /-- the screenshot pipeline, `grim -g "$(slurp)" - | swappy -f -` -/
  | grim : Spawn
deriving DecidableEq, Repr

/-- The `struct wlr_box`: four `int`s. -/
structure Box where
  x : Int
  y : Int
  width : Int
  height : Int
deriving DecidableEq, Repr

/-- The part of the compositor's memory that `Workspace.cpp` and the listeners
of `Toplevel.cpp` read and write. -/
structure State where
  /-- Field `wl_list::next` of every node, `none` = `NULL` -/
  next : Node → Option Node
  /-- Field `wl_list::prev` of every node, `none` = `NULL` -/
  prev : Node → Option Node
  /-- Field `Workspace::active_toplevel` of every workspace, `none` = `nullptr` -/
  active_toplevel : Nat → Option Nat
  /-- whether `Toplevel::xdg_toplevel` is non-`NULL` -/
  xdg_toplevel : Nat → Bool
  /-- Field `seat->keyboard_state.focused_surface`, `none` = `NULL` -/
  focused_surface : Option Surface
  /-- whether `wlr_seat_get_keyboard(seat)` is non-`NULL` -/
  keyboard : Bool
  /-- visibility flag of every toplevel, as set by `Toplevel::set_hidden` -/
  hidden : Nat → Bool
  /-- the geometry last given to a toplevel by `Toplevel::set_position_size` -/
  geometry : Nat → Option Box
  /-- Field `server->grabbed_toplevel`, `none` = `NULL` -/
  grabbed_toplevel : Option Nat
  /-- Field `server->cursor_mode` -/
  cursor_mode : CursorMode
  /-- Fields `server->grab_x` and `server->grab_y`: the grab anchor. A `double`
  is modelled by an exact rational. -/
  grab_x : ℚ
  /-- Field `server->grab_y` -/
  grab_y : ℚ
  /-- Field `server->grab_geobox`: the saved geometry box of a resize -/
  grab_geobox : Box
  /-- Field `server->resize_edges`: the edge mask of a resize -/
  resize_edges : Nat
  /-- Fields `server->cursor->x`: the pointer position -/
  cursor_x : ℚ
  /-- Field `server->cursor->y` -/
  cursor_y : ℚ
  /-- Field `scene_tree->node.x` of every toplevel: the window origin -/
  node_x : Nat → Int
  /-- Field `scene_tree->node.y` of every toplevel -/
  node_y : Nat → Int
  /-- Field `xdg_toplevel->base->geometry` of every toplevel -/
  xdg_geometry : Nat → Box
  /-- whether the eight listeners of a toplevel are hooked to their signals -/
  listening : Nat → Bool
  /-- whether `wl_display_terminate` has been called -/
  terminated : Bool
  /-- the answer of `server->output_at(cursor->x, cursor->y)`, `none` = `NULL` -/
  pointer_output : Option Nat
  /-- the workspaces of every output, in order -/
  output_workspaces : Nat → List Nat
  /-- the index of the visible workspace of every output -/
  output_visible : Nat → Nat
  /-- the box `wlr_output_layout_get_box` gives for every output -/
  output_box : Nat → Box
  /-- the helper processes started by `fork` and `execl`, last first -/
  spawned : List Spawn

/-- Pointwise update of a function. -/
def upd {α β : Type} [DecidableEq α] (f : α → β) (a : α) (b : β) : α → β :=
  fun x => if x = a then b else f x

/-- Write `node->next = v`. -/
def State.setNext (s : State) (node : Node) (v : Option Node) : State :=
  { s with next := upd s.next node v }

/-- Write `node->prev = v`. -/
def State.setPrev (s : State) (node : Node) (v : Option Node) : State :=
  { s with prev := upd s.prev node v }

/-! ## libwayland's `wl_list` (wayland-util.c) -/

/-- Function `wl_list_init`: `list->prev = list; list->next = list;` -/
def wl_list_init (s : State) (list : Node) : State :=
  (s.setPrev list (some list)).setNext list (some list)

/-- Function `wl_list_insert(list, elm)`:
`elm->prev = list; elm->next = list->next; list->next = elm; elm->next->prev = elm;`
The element is put right after `list`, that is at the front when `list` is the
head. -/
def wl_list_insert (s : State) (list elm : Node) : Option State :=
  let s1 := s.setPrev elm (some list)
  let s2 := s1.setNext elm (s1.next list)
  let s3 := s2.setNext list (some elm)
  match s3.next elm with
  | none => none
  | some n => some (s3.setPrev n (some elm))

/-- Function `wl_list_remove(elm)`:
`elm->prev->next = elm->next; elm->next->prev = elm->prev; elm->next = NULL; elm->prev = NULL;` -/
def wl_list_remove (s : State) (elm : Node) : Option State :=
  match s.prev elm with
  | none => none
  | some p =>
    let s1 := s.setNext p (s.next elm)
    match s1.next elm with
    | none => none
    | some n =>
      let s2 := s1.setPrev n (s1.prev elm)
      some ((s2.setNext elm none).setPrev elm none)

/-- The `while (e != list)` loop of `wl_list_length`. -/
def wl_list_length_loop (s : State) (list : Node) : Nat → Node → Nat → Option Nat
  | 0, _, _ => none
  | fuel + 1, e, count =>
    if e = list then some count
    else
      match s.next e with
      | none => none
      | some e2 => wl_list_length_loop s list fuel e2 (count + 1)

/-- Function `wl_list_length(list)`: `e = list->next; while (e != list) { e = e->next; count++; }` -/
def wl_list_length (fuel : Nat) (s : State) (list : Node) : Option Nat :=
  match s.next list with
  | none => none
  | some e => wl_list_length_loop s list fuel e 0

/-- Function `wl_list_empty(list)`: `list->next == list` -/
def wl_list_empty (s : State) (list : Node) : Bool :=
  decide (s.next list = some list)

/-! ## `Toplevel.cpp` -/

/-- Method `Toplevel::focus()` (Toplevel.cpp 171-211). The activation requests and
`wlr_scene_node_raise_to_top` go to wlroots and are not part of the state;
`wlr_seat_keyboard_notify_enter` makes the surface the seat's focused surface. -/
def Toplevel.focus (s : State) (t : Nat) : Option State :=
  if s.xdg_toplevel t = false then some s
  else if s.focused_surface = some (Surface.toplevel t) then some s
  else
    match wl_list_remove s (Node.link t) with
    | none => none
    | some s1 =>
      match wl_list_insert s1 Node.srv (Node.link t) with
      | none => none
      | some s2 =>
        if s2.keyboard then some { s2 with focused_surface := some (Surface.toplevel t) }
        else some s2

/-- The `map` listener (Toplevel.cpp 17-24). -/
def Toplevel.map (s : State) (t : Nat) : Option State :=
  match wl_list_insert s Node.srv (Node.link t) with
  | none => none
  | some s1 => Toplevel.focus s1 t

/-- Modelled from the spec: `Server::reset_cursor_mode` is not among the sources;
the grab goes back to Idle and the grabbed-window reference is dropped. -/
def Server.reset_cursor_mode (s : State) : State :=
  { s with cursor_mode := CursorMode.CURSORMODE_PASSTHROUGH, grabbed_toplevel := none }

/-- The `unmap` listener (Toplevel.cpp 28-38). -/
def Toplevel.unmap (s : State) (t : Nat) : Option State :=
  let s1 := if s.grabbed_toplevel = some t then Server.reset_cursor_mode s else s
  wl_list_remove s1 (Node.link t)

/-- Modelled from the spec: `Toplevel::set_hidden` is not among the sources; it
sets the visibility flag of the window. -/
def Toplevel.set_hidden (s : State) (t : Nat) (hidden : Bool) : State :=
  { s with hidden := upd s.hidden t hidden }

/-- Modelled from the spec: `Toplevel::set_position_size` is not among the
sources; it gives the window the position and the size. -/
def Toplevel.set_position_size (s : State) (t : Nat) (x y width height : Int) : State :=
  { s with geometry := upd s.geometry t (some ⟨x, y, width, height⟩) }

/-! ## `Workspace.cpp` -/

/-- Method `Workspace::add_toplevel` (Workspace.cpp 11-15). -/
def Workspace.add_toplevel (s : State) (this : Nat) (toplevel : Nat) : Option State :=
  match wl_list_insert s (Node.ws this) (Node.link toplevel) with
  | none => none
  | some s1 =>
    Toplevel.focus { s1 with active_toplevel := upd s1.active_toplevel this (some toplevel) }
      toplevel

/-- The `wl_list_for_each_safe` loop of `Workspace::contains`: `pos` is the
node of `current`, `tmp` the node read ahead. -/
def Workspace.contains_loop (s : State) (head : Node) (toplevel : Option Nat) :
    Nat → Node → Node → Option Bool
  | 0, _, _ => none
  | fuel + 1, pos, tmp =>
    if pos = head then some false
    else if toplevel.map Node.link = some pos then some true
    else
      match s.next tmp with
      | none => none
      | some tmp2 => Workspace.contains_loop s head toplevel fuel tmp tmp2

/-- Method `Workspace::contains` (Workspace.cpp 18-27); `toplevel = none` is `nullptr`. -/
def Workspace.contains (fuel : Nat) (s : State) (this : Nat) (toplevel : Option Nat) :
    Option Bool :=
  if wl_list_empty s (Node.ws this) then some false
  else
    match s.next (Node.ws this) with
    | none => none
    | some pos =>
      match s.next pos with
      | none => none
      | some tmp => Workspace.contains_loop s (Node.ws this) toplevel fuel pos tmp

/-- Method `Workspace::move_to(Toplevel*, Workspace*)` (Workspace.cpp 30-42): the
returned `bool` and the state afterwards. -/
def Workspace.move_to (fuel : Nat) (s : State) (this : Nat) (toplevel : Option Nat)
    (workspace : Nat) : Option (Bool × State) :=
  if workspace = this then some (false, s)
  else
    match Workspace.contains fuel s this toplevel with
    | none => none
    | some false => some (false, s)
    | some true =>
      match toplevel with
      | none => none
      | some t =>
        match wl_list_remove s (Node.link t) with
        | none => none
        | some s1 =>
          match Workspace.add_toplevel s1 workspace t with
          | none => none
          | some s2 => some (true, s2)

/-- The `wl_list_for_each_safe` loop of `Workspace::set_hidden`. -/
def Workspace.set_hidden_loop (head : Node) (hidden : Bool) :
    Nat → State → Node → Node → Option State
  | 0, _, _, _ => none
  | fuel + 1, s, pos, tmp =>
    if pos = head then some s
    else
      match pos with
      | Node.link t =>
        let s1 := Toplevel.set_hidden s t hidden
        match s1.next tmp with
        | none => none
        | some tmp2 => Workspace.set_hidden_loop head hidden fuel s1 tmp tmp2
      | _ => none

/-- Method `Workspace::set_hidden` (Workspace.cpp 71-75). -/
def Workspace.set_hidden (fuel : Nat) (s : State) (this : Nat) (hidden : Bool) :
    Option State :=
  match s.next (Node.ws this) with
  | none => none
  | some pos =>
    match s.next pos with
    | none => none
    | some tmp => Workspace.set_hidden_loop (Node.ws this) hidden fuel s pos tmp

/-- Result of `wl_container_of(node, toplevel, link)` followed by a member call on the
result: defined only when the node is the `link` of a toplevel. -/
def toplevel_of : Option Node → Option Nat
  | some (Node.link t) => some t
  | _ => none

/-- Method `Workspace::focus` (Workspace.cpp 78-86). -/
def Workspace.focus (fuel : Nat) (s : State) (this : Nat) : Option State :=
  match Workspace.set_hidden fuel s this false with
  | none => none
  | some s1 =>
    if wl_list_empty s1 (Node.ws this) then some s1
    else
      match toplevel_of (s1.prev (Node.ws this)) with
      | none => none
      | some toplevel =>
        Toplevel.focus { s1 with active_toplevel := upd s1.active_toplevel this (some toplevel) }
          toplevel

/-- Method `Workspace::focus_next` (Workspace.cpp 89-107). -/
def Workspace.focus_next (fuel : Nat) (s : State) (this : Nat) : Option State :=
  match wl_list_length fuel s (Node.ws this) with
  | none => none
  | some len =>
    if len < 2 ∨ wl_list_empty s (Node.ws this) = true then some s
    else
      match s.active_toplevel this with
      | none =>
        match toplevel_of (s.next (Node.ws this)) with
        | none => none
        | some t =>
          Toplevel.focus { s with active_toplevel := upd s.active_toplevel this (some t) } t
      | some a =>
        match s.next (Node.link a) with
        | none => none
        | some next =>
          let next2 := if next = Node.ws this then s.next (Node.ws this) else some next
          match toplevel_of next2 with
          | none => none
          | some t =>
            Toplevel.focus { s with active_toplevel := upd s.active_toplevel this (some t) } t

/-- Method `Workspace::focus_prev` (Workspace.cpp 110-127). -/
def Workspace.focus_prev (fuel : Nat) (s : State) (this : Nat) : Option State :=
  match wl_list_length fuel s (Node.ws this) with
  | none => none
  | some len =>
    if len < 2 ∨ wl_list_empty s (Node.ws this) = true then some s
    else
      match s.active_toplevel this with
      | none =>
        match toplevel_of (s.prev (Node.ws this)) with
        | none => none
        | some t =>
          Toplevel.focus { s with active_toplevel := upd s.active_toplevel this (some t) } t
      | some a =>
        match s.prev (Node.link a) with
        | none => none
        | some prev =>
          let prev2 := if prev = Node.ws this then s.prev (Node.ws this) else some prev
          match toplevel_of prev2 with
          | none => none
          | some t =>
            Toplevel.focus { s with active_toplevel := upd s.active_toplevel this (some t) } t

/-- Linear search for the integer part of a square root: the last `r` with
`r * r ≤ n`. -/
def isqrt_loop (n : Nat) : Nat → Nat → Nat
  | 0, r => r
  | fuel + 1, r => if (r + 1) * (r + 1) ≤ n then isqrt_loop n fuel (r + 1) else r

/-- The integer part of the square root of `n` (equal to `Nat.sqrt n`, see
`isqrt_eq_sqrt`). -/
def isqrt (n : Nat) : Nat := isqrt_loop n n 0

/-- The value of `std::round(std::sqrt(n))` for a window count `n`: the integer
nearest to the square root. With `r` the integer part of the root, the fraction
is at least one half exactly when `n > r * r + r`. (The square root of an
integer is never exactly half-way between two integers, and for an `int` the
distance to the half-way point is far above the precision of a `double`.) -/
def round_sqrt (n : Nat) : Nat :=
  if n - isqrt n * isqrt n ≤ isqrt n then isqrt n else isqrt n + 1

/-- The rectangle `Workspace::tile` computes for the window visited at step `i`
(Workspace.cpp 150-153): `row = i / cols; col = i % cols;
x = box.x + col * width; y = box.y + row * height`. -/
def tile_cell (box : Box) (cols : Nat) (width height : Int) (i : Nat) : Box :=
  ⟨box.x + ((i % cols : Nat) : Int) * width, box.y + ((i / cols : Nat) : Int) * height,
    width, height⟩

/-- The `wl_list_for_each_safe` loop of `Workspace::tile`. -/
def Workspace.tile_loop (head : Node) (box : Box) (cols : Nat) (width height : Int) :
    Nat → State → Node → Node → Nat → Option State
  | 0, _, _, _, _ => none
  | fuel + 1, s, pos, tmp, i =>
    if pos = head then some s
    else
      match pos with
      | Node.link t =>
        let c := tile_cell box cols width height i
        let s1 := Toplevel.set_position_size s t c.x c.y c.width c.height
        match s1.next tmp with
        | none => none
        | some tmp2 => Workspace.tile_loop head box cols width height fuel s1 tmp tmp2 (i + 1)
      | _ => none

/-- Method `Workspace::tile` (Workspace.cpp 131-158). `box` is what
`wlr_output_layout_get_box` returns for the workspace's output. The counts are
non-negative `int`s, on which `/` and `%` are the natural-number operations;
`box.width / cols` and `box.height / rows` truncate toward zero. Signed
overflow is undefined in C++; the integers here are unbounded, and
`tile_no_overflow` shows that for a box within the range of `int` no
intermediate value leaves that range. -/
def Workspace.tile (fuel : Nat) (s : State) (this : Nat) (box : Box) : Option State :=
  if wl_list_empty s (Node.ws this) then some s
  else
    match wl_list_length fuel s (Node.ws this) with
    | none => none
    | some toplevel_count =>
      let cols := round_sqrt toplevel_count
      let rows := (toplevel_count + cols - 1) / cols
      let width := Int.tdiv box.width (cols : Int)
      let height := Int.tdiv box.height (rows : Int)
      match s.next (Node.ws this) with
      | none => none
      | some pos =>
        match s.next pos with
        | none => none
        | some tmp =>
          Workspace.tile_loop (Node.ws this) box cols width height fuel s pos tmp 0

/-! ## States and runs -/

/-- The memory after the constructors have run: every list head initialised by
`wl_list_init` and empty, no toplevel linked, no active window, no keyboard
focus, a keyboard attached. -/
def State.init : State where
  next := fun n => match n with
    | Node.link _ => none
    | h => some h
  prev := fun n => match n with
    | Node.link _ => none
    | h => some h
  active_toplevel := fun _ => none
  xdg_toplevel := fun _ => true
  focused_surface := none
  keyboard := true
  hidden := fun _ => false
  geometry := fun _ => none
  grabbed_toplevel := none
  cursor_mode := CursorMode.CURSORMODE_PASSTHROUGH
  grab_x := 0
  grab_y := 0
  grab_geobox := ⟨0, 0, 0, 0⟩
  resize_edges := 0
  cursor_x := 0
  cursor_y := 0
  node_x := fun _ => 0
  node_y := fun _ => 0
  xdg_geometry := fun _ => ⟨0, 0, 0, 0⟩
  listening := fun _ => true
  terminated := false
  pointer_output := none
  output_workspaces := fun _ => []
  output_visible := fun _ => 0
  output_box := fun _ => ⟨0, 0, 0, 0⟩
  spawned := []

/-- The operations of the workspace layer. -/
inductive Op where
  | add_toplevel (ws t : Nat) : Op
  | move_to (ws t target : Nat) : Op
  | focus (ws : Nat) : Op
  | focus_next (ws : Nat) : Op
  | focus_prev (ws : Nat) : Op
  | unmap (t : Nat) : Op
deriving DecidableEq, Repr

/-- One operation. -/
def step (fuel : Nat) (s : State) : Op → Option State
  | Op.add_toplevel ws t => Workspace.add_toplevel s ws t
  | Op.move_to ws t target => (Workspace.move_to fuel s ws (some t) target).map Prod.snd
  | Op.focus ws => Workspace.focus fuel s ws
  | Op.focus_next ws => Workspace.focus_next fuel s ws
  | Op.focus_prev ws => Workspace.focus_prev fuel s ws
  | Op.unmap t => Toplevel.unmap s t

/-- A sequence of operations, left to right. -/
def run (fuel : Nat) : List Op → State → Option State
  | [], s => some s
  | op :: ops, s =>
    match step fuel s op with
    | none => none
    | some s1 => run fuel ops s1

/-- The platform hands the keyboard focus to a surface. -/
def State.with_focus (s : State) (f : Option Surface) : State :=
  { s with focused_surface := f }

/-- The members of the list at `head` in link order, read off the `next`
pointers; `none` when the walk does not come back to `head` within the fuel or
meets a node that is not a toplevel's link. -/
def members_loop (s : State) (head : Node) : Nat → Node → Option (List Nat)
  | 0, _ => none
  | fuel + 1, pos =>
    if pos = head then some []
    else
      match pos with
      | Node.link t =>
        match s.next pos with
        | none => none
        | some n => (members_loop s head fuel n).map (fun l => t :: l)
      | _ => none

/-- The member sequence of a list in link order. -/
def members (fuel : Nat) (s : State) (head : Node) : Option (List Nat) :=
  match s.next head with
  | none => none
  | some pos => members_loop s head fuel pos

/-! ## Well-formed lists -/

/-- Following the pointer field `f` from node `p` runs through the links of the
toplevels of `l`, in order, and then reaches `head`. -/
def Chain (f : Node → Option Node) (head : Node) : Node → List Nat → Prop
  | p, [] => f p = some head
  | p, t :: ts => f p = some (Node.link t) ∧ Chain f head (Node.link t) ts

/-- A decision procedure for `Chain`. -/
def Chain.dec (f : Node → Option Node) (head : Node) :
    (p : Node) → (l : List Nat) → Decidable (Chain f head p l)
  | p, [] => inferInstanceAs (Decidable (f p = some head))
  | p, t :: ts =>
    have := Chain.dec f head (Node.link t) ts
    inferInstanceAs (Decidable (f p = some (Node.link t) ∧ Chain f head (Node.link t) ts))

instance (f : Node → Option Node) (head p : Node) (l : List Nat) :
    Decidable (Chain f head p l) := Chain.dec f head p l

/-- The list at `head` is a well-formed circular doubly-linked list whose
members are, in link order (front first), the toplevels of `l`. -/
def IsList (s : State) (head : Node) (l : List Nat) : Prop :=
  Chain s.next head head l ∧ Chain s.prev head head l.reverse

instance (s : State) (head : Node) (l : List Nat) : Decidable (IsList s head l) :=
  inferInstanceAs (Decidable (_ ∧ _))

/-- The geometry table after the loop of `Workspace::tile` has visited the
windows of `l`, the first of them at step `i`. -/
def tile_geometry (box : Box) (cols : Nat) (width height : Int) :
    (Nat → Option Box) → List Nat → Nat → (Nat → Option Box)
  | g, [], _ => g
  | g, t :: ts, i =>
    tile_geometry box cols width height (upd g t (some (tile_cell box cols width height i)))
      ts (i + 1)

/-- The visibility table after the loop of `Workspace::set_hidden` has visited
the windows of `l`. -/
def hidden_after (hidden : Bool) : (Nat → Bool) → List Nat → (Nat → Bool)
  | h, [] => h
  | h, t :: ts => hidden_after hidden (upd h t hidden) ts

/-- The pixel `(px, py)` lies in the rectangle `b`. -/
def Box.covers (b : Box) (px py : Int) : Prop :=
  b.x ≤ px ∧ px < b.x + b.width ∧ b.y ≤ py ∧ py < b.y + b.height

instance (b : Box) (px py : Int) : Decidable (b.covers px py) :=
  inferInstanceAs (Decidable (_ ∧ _ ∧ _ ∧ _))

/-- The rectangle `b` lies inside the rectangle `outer`. -/
def Box.inside (b outer : Box) : Prop :=
  outer.x ≤ b.x ∧ b.x + b.width ≤ outer.x + outer.width ∧
    outer.y ≤ b.y ∧ b.y + b.height ≤ outer.y + outer.height

instance (b outer : Box) : Decidable (b.inside outer) :=
  inferInstanceAs (Decidable (_ ∧ _ ∧ _ ∧ _))

/-- Method `Workspace::add_toplevel` of a window that holds the keyboard focus at that
moment (so that `Toplevel::focus` returns at once). -/
def add_focused (s : State) (ws t : Nat) : Option State :=
  Workspace.add_toplevel (s.with_focus (some (Surface.toplevel t))) ws t

/-- Windows added one after the other, each holding the keyboard focus when it
is added. -/
def add_all (ws : Nat) : List Nat → State → Option State
  | [], s => some s
  | t :: ts, s =>
    match add_focused s ws t with
    | none => none
    | some s1 => add_all ws ts s1

/-- The function `f` applied `n` times. -/
def iterate (f : State → Option State) : Nat → State → Option State
  | 0, s => some s
  | n + 1, s =>
    match f s with
    | none => none
    | some s1 => iterate f n s1

/-- The value fits a 32-bit `int`. -/
def in_int_range (z : Int) : Prop := -2147483648 ≤ z ∧ z ≤ 2147483647

/-- The local `cols` of `Workspace::tile` for `n` windows. -/
def grid_cols (n : Nat) : Nat := round_sqrt n

/-- The local `rows` of `Workspace::tile` for `n` windows. -/
def grid_rows (n : Nat) : Nat := (n + grid_cols n - 1) / grid_cols n

/-- The local `width` of `Workspace::tile`: `box.width / cols`. -/
def cell_width (box : Box) (n : Nat) : Int := Int.tdiv box.width (grid_cols n : Int)

/-- The local `height` of `Workspace::tile`: `box.height / rows`. -/
def cell_height (box : Box) (n : Nat) : Int := Int.tdiv box.height (grid_rows n : Int)

/-- The memory after `Workspace::tile` has given the windows of `l`, in link
order, their cells: `cols`, `rows`, `width` and `height` as computed in
`Workspace::tile` from the window count. -/
def tile_state (s : State) (box : Box) (l : List Nat) : State :=
  { s with
    geometry :=
      tile_geometry box (round_sqrt l.length) (Int.tdiv box.width (round_sqrt l.length : Int))
        (Int.tdiv box.height
          (((l.length + round_sqrt l.length - 1) / round_sqrt l.length : Nat) : Int))
        s.geometry l 0 }

/-- Windows 1, 2, 3 (A, B, C) added in that order to workspace 0 of the initial
state, each holding the keyboard focus when added; the focus ends on C. -/
def state_ABC : State := (add_all 0 [1, 2, 3] State.init).getD State.init

/-- Windows 1, 2 (A, B) added in that order to workspace 0. -/
def state_AB : State := (add_all 0 [1, 2] State.init).getD State.init

/-- The state `state_ABC` with A, the last window in link order, active. -/
def state_ABC_active_A : State :=
  { state_ABC with active_toplevel := upd state_ABC.active_toplevel 0 (some 1) }

/-- Windows 0, 1, 2, 3, 4 added in that order to workspace 0. -/
def state_five : State := (add_all 0 [0, 1, 2, 3, 4] State.init).getD State.init

/-! ## The rest of `Toplevel.cpp` -/

/-- The destroy listener (Toplevel.cpp 56-60): `delete toplevel`, which runs
`Toplevel::~Toplevel` (Toplevel.cpp 160-169). The destructor takes the eight
listeners of the toplevel off their signals (`wl_list_remove` on `map.link`,
`unmap.link`, `commit.link`, `destroy.link`, `request_move.link`,
`request_resize.link`, `request_maximize.link`, `request_fullscreen.link`) and
does nothing else: it touches neither `link` nor any field of the server. -/
def Toplevel.destroy (s : State) (t : Nat) : State :=
  { s with listening := upd s.listening t false }

/-- The value of `WLR_EDGE_BOTTOM` (`wlr_edges`, wlroots). -/
def WLR_EDGE_BOTTOM : Nat := 2

/-- The value of `WLR_EDGE_RIGHT` (`wlr_edges`, wlroots). -/
def WLR_EDGE_RIGHT : Nat := 8

/-- Method `Toplevel::begin_interactive` (Toplevel.cpp 213-239). The branch
taken for any mode other than `CURSORMODE_MOVE` dereferences `xdg_toplevel`.
The border point is computed in `int`s and then converted to `double`; signed
overflow is undefined in C++ and the integers here are unbounded. The
subtraction of `double`s is the exact subtraction of rationals: its rounding
is not modelled. -/
def Toplevel.begin_interactive (s : State) (t : Nat) (mode : CursorMode) (edges : Nat) :
    Option State :=
  let s1 := { s with grabbed_toplevel := some t, cursor_mode := mode }
  if mode = CursorMode.CURSORMODE_MOVE then
    some { s1 with
      grab_x := s1.cursor_x - (s1.node_x t : ℚ)
      grab_y := s1.cursor_y - (s1.node_y t : ℚ) }
  else if s1.xdg_toplevel t = false then none
  else
    let geo_box := s1.xdg_geometry t
    let border_x : Int := (s1.node_x t + geo_box.x) +
      (if Nat.land edges WLR_EDGE_RIGHT ≠ 0 then geo_box.width else 0)
    let border_y : Int := (s1.node_y t + geo_box.y) +
      (if Nat.land edges WLR_EDGE_BOTTOM ≠ 0 then geo_box.height else 0)
    some { s1 with
      grab_x := s1.cursor_x - (border_x : ℚ)
      grab_y := s1.cursor_y - (border_y : ℚ)
      grab_geobox :=
        ⟨geo_box.x + s1.node_x t, geo_box.y + s1.node_y t, geo_box.width, geo_box.height⟩
      resize_edges := edges }

/-! ## The rest of `Workspace.cpp` -/

/-- The `wl_list_for_each_safe` loop of `Workspace::get_toplevel`: the local
`current` stays 0 and it is the parameter `n`, a `uint32_t`, that is
incremented. The outer `none` is undefined behaviour or lack of fuel, the inner
`none` is `nullptr`. -/
def Workspace.get_toplevel_loop (s : State) (head : Node) :
    Nat → Node → Node → Nat → Option (Option Nat)
  | 0, _, _, _ => none
  | fuel + 1, pos, tmp, n =>
    if pos = head then some none
    else if 0 = n then
      match pos with
      | Node.link t => some (some t)
      | _ => none
    else
      match s.next tmp with
      | none => none
      | some tmp2 => Workspace.get_toplevel_loop s head fuel tmp tmp2 ((n + 1) % 4294967296)

/-- Method `Workspace::get_toplevel` (Workspace.cpp 45-55). -/
def Workspace.get_toplevel (fuel : Nat) (s : State) (this : Nat) (n : Nat) :
    Option (Option Nat) :=
  match s.next (Node.ws this) with
  | none => none
  | some pos =>
    match s.next pos with
    | none => none
    | some tmp => Workspace.get_toplevel_loop s (Node.ws this) fuel pos tmp n

/-- Method `Workspace::move_to(uint32_t, Workspace*)` (Workspace.cpp 58-68). -/
def Workspace.move_to_nth (fuel : Nat) (s : State) (this : Nat) (n : Nat) (workspace : Nat) :
    Option (Bool × State) :=
  if wl_list_empty s (Node.ws this) then some (false, s)
  else
    match Workspace.get_toplevel fuel s this n with
    | none => none
    | some none => some (false, s)
    | some (some toplevel) => Workspace.move_to fuel s this (some toplevel) workspace

/-! ## Outputs -/

/-- Modelled from the spec: `Output::get_workspace` is not among the sources; an
output owns an ordered set of workspaces and the result is the one at the
given position, `nullptr` when there is none. -/
def Output.get_workspace (s : State) (output : Nat) (n : Nat) : Option Nat :=
  (s.output_workspaces output).get? n

/-- Modelled from the spec: `Output::get_active` is not among the sources; the
result is the workspace at the index of the currently visible workspace. -/
def Output.get_active (s : State) (output : Nat) : Option Nat :=
  Output.get_workspace s output (s.output_visible output)

/-- Modelled from the spec: `Output::set_workspace` is not among the sources.
Selecting a visible index that the output does not have fails; otherwise the
previously visible workspace's windows, if there is one, are hidden, the index
is switched, and the newly visible workspace is focused (`Workspace::focus`,
"called when a workspace becomes visible"). -/
def Output.set_workspace (fuel : Nat) (s : State) (output : Nat) (n : Nat) :
    Option (Bool × State) :=
  match Output.get_workspace s output n with
  | none => some (false, s)
  | some requested =>
    let hidden :=
      match Output.get_active s output with
      | none => some s
      | some previous => Workspace.set_hidden fuel s previous true
    match hidden with
    | none => none
    | some s1 =>
      match Workspace.focus fuel
          { s1 with output_visible := upd s1.output_visible output n } requested with
      | none => none
      | some s2 => some (true, s2)

/-! ## `Keyboard.cpp` -/

/-- The keysym `XKB_KEY_Escape` (xkbcommon-keysyms.h). -/
def XKB_KEY_Escape : Nat := 0xff1b

/-- The keysym `XKB_KEY_1`; the digits up to `XKB_KEY_9 = 0x39` follow it. -/
def XKB_KEY_1 : Nat := 0x31

/-- The keysym `XKB_KEY_9`. -/
def XKB_KEY_9 : Nat := 0x39

/-- The keysym `XKB_KEY_Left`. -/
def XKB_KEY_Left : Nat := 0xff51

/-- The keysym `XKB_KEY_Right`. -/
def XKB_KEY_Right : Nat := 0xff53

/-- The keysym `XKB_KEY_o`. -/
def XKB_KEY_o : Nat := 0x6f

/-- The keysym `XKB_KEY_p`. -/
def XKB_KEY_p : Nat := 0x70

/-- The keysym `XKB_KEY_t`. -/
def XKB_KEY_t : Nat := 0x74

/-- The keysym `XKB_KEY_space`. -/
def XKB_KEY_space : Nat := 0x20

/-- The keysym `XKB_KEY_c`. -/
def XKB_KEY_c : Nat := 0x63

/-- The modifier bit `WLR_MODIFIER_SHIFT` (wlr_keyboard.h). -/
def WLR_MODIFIER_SHIFT : Nat := 1

/-- The modifier bit `WLR_MODIFIER_ALT` (wlr_keyboard.h). -/
def WLR_MODIFIER_ALT : Nat := 8

/-- The value of `WL_KEYBOARD_KEY_STATE_PRESSED` (wayland protocol). -/
def WL_KEYBOARD_KEY_STATE_PRESSED : Nat := 1

/-- Method `Keyboard::handle_keybinding` (Keyboard.cpp 3-57): the returned `bool`
and the memory afterwards. The `switch` is written as a chain of tests on the
pairwise different keysyms. -/
def Keyboard.handle_keybinding (fuel : Nat) (s : State) (sym : Nat) : Option (Bool × State) :=
  if sym = XKB_KEY_Escape then some (true, { s with terminated := true })
  else
    match s.pointer_output with
    | none => some (false, s)
    | some output =>
      if XKB_KEY_1 ≤ sym ∧ sym ≤ XKB_KEY_9 then
        Output.set_workspace fuel s output (sym - XKB_KEY_1)
      else if sym = XKB_KEY_Left then some (true, s)
      else if sym = XKB_KEY_Right then some (true, s)
      else if sym = XKB_KEY_o then
        match Output.get_active s output with
        | none => none
        | some active => (Workspace.focus_prev fuel s active).map (fun s1 => (true, s1))
      else if sym = XKB_KEY_p then
        match Output.get_active s output with
        | none => none
        | some active => (Workspace.focus_next fuel s active).map (fun s1 => (true, s1))
      else if sym = XKB_KEY_t then
        match Output.get_active s output with
        | none => none
        | some active =>
          (Workspace.tile fuel s active (s.output_box output)).map (fun s1 => (true, s1))
      else if sym = XKB_KEY_space then some (true, { s with spawned := Spawn.rofi :: s.spawned })
      else if sym = XKB_KEY_c then some (true, { s with spawned := Spawn.grim :: s.spawned })
      else some (false, s)

/-- Method `Keyboard::handle_shift_keybinding` (Keyboard.cpp 59-82): the returned
`bool` and the memory afterwards. The result of `move_to` is dropped. -/
def Keyboard.handle_shift_keybinding (fuel : Nat) (s : State) (keycode : Nat) (sym : Nat) :
    Option (Bool × State) :=
  match s.pointer_output with
  | none => some (false, s)
  | some output =>
    if 1 < keycode ∧ keycode < 11 then
      match Output.get_workspace s output (keycode - 2) with
      | none => some (false, s)
      | some target =>
        match Output.get_active s output with
        | none => none
        | some current =>
          match Workspace.move_to fuel s current (s.active_toplevel current) target with
          | none => none
          | some r => some (true, r.2)
    else
      match sym with
      | _ => some (false, s)

/-- A `wlr_keyboard_key_event` together with what the keyboard state gives for
it: the keysyms of `xkb_state_key_get_syms` and the modifier mask of
`wlr_keyboard_get_modifiers`. -/
structure KeyEvent where
  time_msec : Nat
  keycode : Nat
  state : Nat
  syms : List Nat
  modifiers : Nat
deriving DecidableEq, Repr

/-- The loop `for (i = 0; i < nsyms; i++) handled = handler(syms[i]);` of the
key listener. -/
def Keyboard.run_handlers (handler : State → Nat → Option (Bool × State)) :
    List Nat → Bool → State → Option (Bool × State)
  | [], handled, s => some (handled, s)
  | sym :: syms, _, s =>
    match handler s sym with
    | none => none
    | some r => Keyboard.run_handlers handler syms r.1 r.2

/-- The first part of the key listener (Keyboard.cpp 135-149): the local
`handled` and the memory when the handlers have run. -/
def Keyboard.dispatch (fuel : Nat) (s : State) (event : KeyEvent) : Option (Bool × State) :=
  if event.state = WL_KEYBOARD_KEY_STATE_PRESSED then
    if Nat.land event.modifiers WLR_MODIFIER_ALT ≠ 0 then
      if Nat.land event.modifiers WLR_MODIFIER_SHIFT ≠ 0 then
        Keyboard.run_handlers
          (fun s1 sym => Keyboard.handle_shift_keybinding fuel s1 event.keycode sym)
          event.syms false s
      else
        Keyboard.run_handlers (fun s1 sym => Keyboard.handle_keybinding fuel s1 sym)
          event.syms false s
    else some (false, s)
  else some (false, s)

/-- The outcome of the key listener: the memory afterwards, the local `handled`,
and the arguments `(time_msec, keycode, state)` of the call of
`wlr_seat_keyboard_notify_key` that forwards the event to the client, if there
is one. -/
structure KeyOutcome where
  state : State
  handled : Bool
  notify_key : Option (Nat × Nat × Nat)

/-- The key listener (Keyboard.cpp 121-157). When the event is not handled,
`wlr_seat_set_keyboard` makes this keyboard the keyboard of the seat and the
raw event is forwarded. -/
def Keyboard.key (fuel : Nat) (s : State) (event : KeyEvent) : Option KeyOutcome :=
  match Keyboard.dispatch fuel s event with
  | none => none
  | some (handled, s1) =>
    if handled = false then
      some ⟨{ s1 with keyboard := true }, handled,
        some (event.time_msec, event.keycode, event.state)⟩
    else some ⟨s1, handled, none⟩

/-- Workspace 0 holding C, B, A (focus on C) on output 0, which owns the
workspaces 0..8, shows workspace 0 and is under the pointer. -/
def state_out : State :=
  { state_ABC with
    pointer_output := some 0
    output_workspaces := fun _ => [0, 1, 2, 3, 4, 5, 6, 7, 8]
    output_visible := fun _ => 0
    output_box := fun _ => ⟨0, 0, 1920, 1080⟩ }

/-- The node a chain over `l` starts with: the link of the first member, or
`head` when there is none. -/
def first_node (head : Node) : List Nat → Node
  | [] => head
  | a :: _ => Node.link a

/-- The state `state_ABC` after a move request of C: an active Moving grab on
window 3. -/
def state_moving : State :=
  (Toplevel.begin_interactive state_ABC 3 CursorMode.CURSORMODE_MOVE 0).getD state_ABC

/-- The state `state_ABC` after a resize request of C by its right and bottom
edges: an active Resizing grab on window 3. -/
def state_resizing : State :=
  (Toplevel.begin_interactive state_ABC 3 CursorMode.CURSORMODE_RESIZE 10).getD state_ABC

/-- The initial state after a move request of window 1, which has not been
mapped: an active Moving grab on it. -/
def state_moving_unmapped : State :=
  (Toplevel.begin_interactive State.init 1 CursorMode.CURSORMODE_MOVE 0).getD State.init

/-- The keysyms handed one after the other to a handler, each call on the memory
the call before it left, the returned `bool`s set aside: the memory when all
the calls have returned. -/
def Keyboard.run_in_order (handler : State → Nat → Option (Bool × State)) :
    List Nat → State → Option State
  | [], s => some s
  | sym :: syms, s =>
    match handler s sym with
    | none => none
    | some r => Keyboard.run_in_order handler syms r.2

/-- The state `state_ABC` with the pointer at (500.5, 300), window C at the
origin (100, 50) and with the geometry box (10, 20, 640, 480). -/
def state_pointer : State :=
  { state_ABC with
    cursor_x := 1001 / 2
    cursor_y := 300
    node_x := upd state_ABC.node_x 3 100
    node_y := upd state_ABC.node_y 3 50
    xdg_geometry := upd state_ABC.xdg_geometry 3 ⟨10, 20, 640, 480⟩ }

/-- The state `state_out` with A, which does not hold the keyboard focus, the
active window of workspace 0. -/
def state_out_active_A : State :=
  { state_out with active_toplevel := upd state_out.active_toplevel 0 (some 1) }

/-! # Lemmas -/

/-- An updated function at the updated point. -/
theorem upd_same {α β : Type} [DecidableEq α] (f : α → β) (a : α) (b : β) :
    upd f a b a = b := by
  simp [upd]

/-- An updated function away from the updated point. -/
theorem upd_other {α β : Type} [DecidableEq α] (f : α → β) (a x : α) (b : β) (h : x ≠ a) :
    upd f a b x = f x := by
  simp [upd, h]

/-- Every member of a chain has a non-`NULL` pointer. -/
theorem Chain.isSome_of_mem {f : Node → Option Node} {head : Node} :
    ∀ {l : List Nat} {p : Node}, Chain f head p l → ∀ t ∈ l, (f (Node.link t)).isSome
  | [], _, _, t, ht => by simp at ht
  | a :: [], _, h, t, ht => by
    have h2 : f (Node.link a) = some head := h.2
    simp at ht
    subst ht
    simp [h2]
  | a :: b :: ts, _, h, t, ht => by
    have h2 : Chain f head (Node.link a) (b :: ts) := h.2
    rcases List.mem_cons.1 ht with rfl | ht2
    · have h3 : f (Node.link t) = some (Node.link b) := h2.1
      simp [h3]
    · exact Chain.isSome_of_mem h2 t ht2

/-- The start of a chain has a non-`NULL` pointer. -/
theorem Chain.isSome_start {f : Node → Option Node} {head p : Node} {l : List Nat}
    (h : Chain f head p l) : (f p).isSome := by
  cases l with
  | nil =>
    have h2 : f p = some head := h
    simp [h2]
  | cons a ts =>
    have h2 : f p = some (Node.link a) := h.1
    simp [h2]

/-- The pointer of the member at position `i` of a chain leads to the member at
position `i + 1`, or to `head` after the last one. -/
theorem Chain.get_succ {f : Node → Option Node} {head : Node} :
    ∀ {l : List Nat} {p : Node}, Chain f head p l → ∀ (i : Nat) (hi : i < l.length),
      f (Node.link (l.get ⟨i, hi⟩)) =
        some (if h : i + 1 < l.length then Node.link (l.get ⟨i + 1, h⟩) else head)
  | [], _, _, i, hi => by simp at hi
  | a :: [], _, h, i, hi => by
    have h2 : f (Node.link a) = some head := h.2
    have : i = 0 := by simpa using hi
    subst this
    simp [h2]
  | a :: b :: ts, _, h, i, hi => by
    have h2 : Chain f head (Node.link a) (b :: ts) := h.2
    cases i with
    | zero =>
      have h3 : f (Node.link a) = some (Node.link b) := h2.1
      simp [h3]
    | succ j =>
      have hj : j < (b :: ts).length := by simpa using hi
      have := Chain.get_succ h2 j hj
      simpa using this

/-- The loop of `wl_list_length` over a chain counts its members. -/
theorem wl_list_length_loop_chain (s : State) (head : Node) (hh : ∀ t, Node.link t ≠ head) :
    ∀ (l : List Nat) (t c fuel : Nat), Chain s.next head (Node.link t) l →
      l.length + 1 < fuel →
      wl_list_length_loop s head fuel (Node.link t) c = some (c + l.length + 1)
  | [], t, c, fuel, h, hf => by
    have h2 : s.next (Node.link t) = some head := h
    obtain ⟨k, rfl⟩ : ∃ k, fuel = k + 2 := ⟨fuel - 2, by simp at hf; omega⟩
    simp [wl_list_length_loop, hh t, h2]
  | a :: ts, t, c, fuel, h, hf => by
    have h2 : s.next (Node.link t) = some (Node.link a) := h.1
    obtain ⟨k, rfl⟩ : ∃ k, fuel = k + 1 := ⟨fuel - 1, by simp at hf; omega⟩
    have ih := wl_list_length_loop_chain s head hh ts a (c + 1) k h.2 (by simp at hf; omega)
    simp [wl_list_length_loop, hh t, h2, ih]
    omega

/-- Function `wl_list_length` of a well-formed list is the number of its members. -/
theorem wl_list_length_isList (s : State) (w : Nat) (l : List Nat) (fuel : Nat)
    (h : Chain s.next (Node.ws w) (Node.ws w) l) (hf : l.length < fuel) :
    wl_list_length fuel s (Node.ws w) = some l.length := by
  cases l with
  | nil =>
    have h2 : s.next (Node.ws w) = some (Node.ws w) := h
    obtain ⟨k, rfl⟩ : ∃ k, fuel = k + 1 := ⟨fuel - 1, by simp at hf; omega⟩
    simp [wl_list_length, h2, wl_list_length_loop]
  | cons a ts =>
    have h2 : s.next (Node.ws w) = some (Node.link a) := h.1
    have := wl_list_length_loop_chain s (Node.ws w) (by intro t; simp) ts a 0 fuel h.2
      (by simpa using hf)
    simp [wl_list_length, h2, this]

/-- Function `wl_list_empty` of a well-formed list. -/
theorem wl_list_empty_isList (s : State) (w : Nat) (l : List Nat)
    (h : Chain s.next (Node.ws w) (Node.ws w) l) :
    wl_list_empty s (Node.ws w) = decide (l = []) := by
  cases l with
  | nil =>
    have h2 : s.next (Node.ws w) = some (Node.ws w) := h
    simp [wl_list_empty, h2]
  | cons a ts =>
    have h2 : s.next (Node.ws w) = some (Node.link a) := h.1
    simp [wl_list_empty, h2]

/-- The loop of `Workspace::contains` over a chain is the membership test. -/
theorem contains_loop_chain (s : State) (head : Node) (hh : ∀ t, Node.link t ≠ head)
    (x : Option Nat) (hhead : (s.next head).isSome) :
    ∀ (l : List Nat) (t : Nat) (tmp : Node) (fuel : Nat),
      Chain s.next head (Node.link t) l → s.next (Node.link t) = some tmp →
      l.length + 1 < fuel →
      Workspace.contains_loop s head x fuel (Node.link t) tmp =
        some (decide (x ∈ (t :: l).map some))
  | [], t, tmp, fuel, h, htmp, hf => by
    have h2 : s.next (Node.link t) = some head := h
    obtain ⟨k, rfl⟩ : ∃ k, fuel = k + 2 := ⟨fuel - 2, by simp at hf; omega⟩
    obtain ⟨e, he⟩ := Option.isSome_iff_exists.1 hhead
    have ht : tmp = head := by rw [h2] at htmp; exact (Option.some.inj htmp).symm
    subst ht
    cases x with
    | none => simp [Workspace.contains_loop, hh t, he]
    | some y =>
      by_cases hy : y = t
      · subst hy; simp [Workspace.contains_loop, hh y]
      · have hy2 : t ≠ y := fun h => hy h.symm
        simp [Workspace.contains_loop, hh t, he, hy, hy2]
  | a :: ts, t, tmp, fuel, h, htmp, hf => by
    have h2 : s.next (Node.link t) = some (Node.link a) := h.1
    obtain ⟨k, rfl⟩ : ∃ k, fuel = k + 1 := ⟨fuel - 1, by simp at hf; omega⟩
    have ht : tmp = Node.link a := by rw [h2] at htmp; exact (Option.some.inj htmp).symm
    subst ht
    obtain ⟨e, he⟩ := Option.isSome_iff_exists.1 (Chain.isSome_start h.2)
    have ih := contains_loop_chain s head hh x hhead ts a e k h.2 he (by simp at hf; omega)
    cases x with
    | none =>
      simp [Workspace.contains_loop, hh t, he, ih]
    | some y =>
      by_cases hy : y = t
      · subst hy; simp [Workspace.contains_loop, hh y]
      · have hy2 : t ≠ y := fun h => hy h.symm
        simp [Workspace.contains_loop, hh t, he, ih, hy, hy2]

/-- Method `Workspace::contains` on a well-formed list is the membership test. -/
theorem contains_isList (s : State) (w : Nat) (l : List Nat) (x : Option Nat) (fuel : Nat)
    (h : Chain s.next (Node.ws w) (Node.ws w) l) (hf : l.length < fuel) :
    Workspace.contains fuel s w x = some (decide (x ∈ l.map some)) := by
  cases l with
  | nil =>
    have h2 : s.next (Node.ws w) = some (Node.ws w) := h
    simp [Workspace.contains, wl_list_empty, h2]
  | cons a ts =>
    have h2 : s.next (Node.ws w) = some (Node.link a) := h.1
    obtain ⟨e, he⟩ := Option.isSome_iff_exists.1 (Chain.isSome_start h.2)
    have := contains_loop_chain s (Node.ws w) (by intro t; simp) x (by simp [h2]) ts a e fuel
      h.2 he (by simpa using hf)
    simp only [Workspace.contains, wl_list_empty, h2, he, this]
    simp

/-- No window occurs twice in a chain, and a chain is determined by its start. -/
theorem Chain.unique {f : Node → Option Node} {head : Node} (hh : ∀ t, Node.link t ≠ head) :
    ∀ {l l2 : List Nat} {p : Node}, Chain f head p l → Chain f head p l2 → l = l2
  | [], [], _, _, _ => rfl
  | [], b :: _, _, h1, h2 => by
    have e1 : f _ = some head := h1
    have e2 : f _ = some (Node.link b) := h2.1
    rw [e1] at e2
    exact absurd (Option.some.inj e2).symm (hh b)
  | a :: _, [], _, h1, h2 => by
    have e1 : f _ = some (Node.link a) := h1.1
    have e2 : f _ = some head := h2
    rw [e1] at e2
    exact absurd (Option.some.inj e2) (hh a)
  | a :: ts, b :: ts2, _, h1, h2 => by
    have e1 : f _ = some (Node.link a) := h1.1
    have e2 : f _ = some (Node.link b) := h2.1
    rw [e1] at e2
    have hab : a = b := by simpa using e2
    subst hab
    rw [Chain.unique hh h1.2 h2.2]

/-- The part of a chain after one of its members is a chain from that member. -/
theorem Chain.suffix {f : Node → Option Node} {head : Node} :
    ∀ {l1 : List Nat} {p : Node} {t : Nat} {l2 : List Nat},
      Chain f head p (l1 ++ t :: l2) → Chain f head (Node.link t) l2
  | [], _, _, _, h => h.2
  | _ :: ts, _, _, _, h => @Chain.suffix f head ts _ _ _ h.2

/-- The members of a chain are pairwise distinct. -/
theorem Chain.nodup {f : Node → Option Node} {head : Node} (hh : ∀ t, Node.link t ≠ head) :
    ∀ {l : List Nat} {p : Node}, Chain f head p l → l.Nodup
  | [], _, _ => List.nodup_nil
  | a :: ts, _, h => by
    refine List.nodup_cons.2 ⟨?_, Chain.nodup hh h.2⟩
    intro hmem
    obtain ⟨l1, l2, hsplit⟩ := List.append_of_mem hmem
    have h2 : Chain f head (Node.link a) ts := h.2
    have h3 : Chain f head (Node.link a) l2 := by
      rw [hsplit] at h2
      exact Chain.suffix h2
    have := Chain.unique hh h2 h3
    have hlen := congrArg List.length hsplit
    rw [this] at hlen
    simp at hlen
    omega

/-- The members of a well-formed list have non-`NULL` pointers. -/
theorem IsList.link_ptrs {s : State} {head : Node} {l : List Nat} (hl : IsList s head l)
    {t : Nat} (ht : t ∈ l) :
    (s.prev (Node.link t)).isSome ∧ (s.next (Node.link t)).isSome :=
  ⟨Chain.isSome_of_mem hl.2 t (List.mem_reverse.2 ht), Chain.isSome_of_mem hl.1 t ht⟩

/-- The `prev` pointer of the head of a non-empty well-formed list is the link
of its last member. -/
theorem IsList.prev_head {s : State} {head : Node} {l : List Nat} (hl : IsList s head l)
    (hne : l ≠ []) : s.prev head = some (Node.link (l.getLast hne)) := by
  have h2 := hl.2
  obtain ⟨ini, hini⟩ : ∃ ini, l = ini ++ [l.getLast hne] :=
    ⟨l.dropLast, (List.dropLast_append_getLast hne).symm⟩
  rw [hini, List.reverse_append] at h2
  exact h2.1

/-- The result of `wl_list_remove` on a node with non-`NULL` pointers. -/
theorem wl_list_remove_eq (s : State) (elm p n : Node) (hp : s.prev elm = some p)
    (hn : s.next elm = some n) :
    wl_list_remove s elm =
      some ((((s.setNext p (some n)).setPrev n (some p)).setNext elm none).setPrev elm none) := by
  have h1 : (s.setNext p (some n)).next elm = some n := by
    by_cases h : elm = p <;> simp [State.setNext, upd, h, hn]
  have h2 : (s.setNext p (some n)).prev elm = some p := by simp [State.setNext, hp]
  simp only [wl_list_remove, hp, hn, h1, h2]

/-- The result of `wl_list_insert` after a node with a non-`NULL` `next`. -/
theorem wl_list_insert_eq (s : State) (list elm n : Node) (hne : elm ≠ list)
    (hn : s.next list = some n) :
    wl_list_insert s list elm =
      some ((((s.setPrev elm (some list)).setNext elm (some n)).setNext list (some elm)).setPrev
        n (some elm)) := by
  have h1 : (s.setPrev elm (some list)).next list = some n := by simp [State.setPrev, hn]
  have h2 : (((s.setPrev elm (some list)).setNext elm (some n)).setNext list (some elm)).next elm
      = some n := by
    simp [State.setNext, State.setPrev, upd, hne]
  simp only [wl_list_insert, h1, h2]

/-- Method `Toplevel::focus` on a linked window returns, and touches neither the active
windows nor the visibility nor the geometry. -/
theorem Toplevel.focus_frame (s : State) (t : Nat) (hp : (s.prev (Node.link t)).isSome)
    (hn : (s.next (Node.link t)).isSome) (hs : (s.next Node.srv).isSome) :
    ∃ s1, Toplevel.focus s t = some s1 ∧ s1.active_toplevel = s.active_toplevel ∧
      s1.hidden = s.hidden ∧ s1.geometry = s.geometry := by
  unfold Toplevel.focus
  by_cases hx : s.xdg_toplevel t = false
  · exact ⟨s, by simp [hx], rfl, rfl, rfl⟩
  by_cases hfo : s.focused_surface = some (Surface.toplevel t)
  · exact ⟨s, by simp [hx, hfo], rfl, rfl, rfl⟩
  obtain ⟨p, hp⟩ := Option.isSome_iff_exists.1 hp
  obtain ⟨n, hn⟩ := Option.isSome_iff_exists.1 hn
  obtain ⟨e, he⟩ := Option.isSome_iff_exists.1 hs
  have h1 := wl_list_remove_eq s (Node.link t) p n hp hn
  have hs1 : ∃ e1, ((((s.setNext p (some n)).setPrev n (some p)).setNext (Node.link t)
      none).setPrev (Node.link t) none).next Node.srv = some e1 := by
    by_cases h : Node.srv = p
    · subst h
      exact ⟨n, by simp [State.setNext, State.setPrev, upd]⟩
    · exact ⟨e, by simp [State.setNext, State.setPrev, upd, h, he]⟩
  obtain ⟨e1, he1⟩ := hs1
  have h2 := wl_list_insert_eq _ Node.srv (Node.link t) e1 (by simp) he1
  rw [if_neg hx, if_neg hfo, h1]
  simp only [h2]
  split
  · exact ⟨_, rfl, rfl, rfl, rfl⟩
  · exact ⟨_, rfl, rfl, rfl, rfl⟩

/-- Making a member of a well-formed list the active window and focusing it, as
the focus operations of `Workspace` do, returns with that window active. -/
theorem focus_member {s : State} {w : Nat} {l : List Nat} (hl : IsList s (Node.ws w) l)
    (hs : (s.next Node.srv).isSome) {t : Nat} (ht : t ∈ l) :
    ∃ s1, Toplevel.focus
        { s with active_toplevel := upd s.active_toplevel w (some t) } t = some s1 ∧
      s1.active_toplevel w = some t ∧ s1.hidden = s.hidden ∧ s1.geometry = s.geometry := by
  obtain ⟨hp, hn⟩ := hl.link_ptrs ht
  obtain ⟨s1, h1, ha, hh, hg⟩ :=
    Toplevel.focus_frame { s with active_toplevel := upd s.active_toplevel w (some t) } t hp hn hs
  exact ⟨s1, h1, by rw [ha]; simp [upd], hh, hg⟩

/-- The table `hidden_after` holds the flag for the visited windows and the old
value for the others. -/
theorem hidden_after_apply (b : Bool) :
    ∀ (l : List Nat) (h : Nat → Bool) (t : Nat),
      hidden_after b h l t = if t ∈ l then b else h t
  | [], h, t => by simp [hidden_after]
  | a :: ts, h, t => by
    rw [hidden_after, hidden_after_apply b ts]
    by_cases h1 : t ∈ ts
    · simp [h1]
    · by_cases h2 : t = a
      · simp [h2, upd]
      · simp [h1, h2, upd]

/-- The loop of `Workspace::set_hidden` over a chain. -/
theorem set_hidden_loop_chain (head : Node) (hh : ∀ t, Node.link t ≠ head) (b : Bool) :
    ∀ (l : List Nat) (t : Nat) (tmp : Node) (fuel : Nat) (s : State),
      Chain s.next head (Node.link t) l → s.next (Node.link t) = some tmp →
      (s.next head).isSome → l.length + 1 < fuel →
      Workspace.set_hidden_loop head b fuel s (Node.link t) tmp =
        some { s with hidden := hidden_after b s.hidden (t :: l) }
  | [], t, tmp, fuel, s, h, htmp, hhead, hf => by
    have h2 : s.next (Node.link t) = some head := h
    obtain ⟨k, rfl⟩ : ∃ k, fuel = k + 2 := ⟨fuel - 2, by simp at hf; omega⟩
    obtain ⟨e, he⟩ := Option.isSome_iff_exists.1 hhead
    have ht : tmp = head := by rw [h2] at htmp; exact (Option.some.inj htmp).symm
    subst ht
    simp [Workspace.set_hidden_loop, hh t, Toplevel.set_hidden, he, hidden_after]
  | a :: ts, t, tmp, fuel, s, h, htmp, hhead, hf => by
    have h2 : s.next (Node.link t) = some (Node.link a) := h.1
    obtain ⟨k, rfl⟩ : ∃ k, fuel = k + 1 := ⟨fuel - 1, by simp at hf; omega⟩
    have ht : tmp = Node.link a := by rw [h2] at htmp; exact (Option.some.inj htmp).symm
    subst ht
    obtain ⟨e, he⟩ := Option.isSome_iff_exists.1 (Chain.isSome_start h.2)
    have ih := set_hidden_loop_chain head hh b ts a e k (Toplevel.set_hidden s t b) h.2 he hhead
      (by simp at hf; omega)
    have he2 : (Toplevel.set_hidden s t b).next (Node.link a) = some e := he
    simp only [Workspace.set_hidden_loop, hh t, if_false, he2, ih]
    rfl

/-- Method `Workspace::set_hidden` on a well-formed list. -/
theorem set_hidden_isList (s : State) (w : Nat) (l : List Nat) (b : Bool) (fuel : Nat)
    (h : Chain s.next (Node.ws w) (Node.ws w) l) (hf : l.length < fuel) :
    Workspace.set_hidden fuel s w b = some { s with hidden := hidden_after b s.hidden l } := by
  cases l with
  | nil =>
    have h2 : s.next (Node.ws w) = some (Node.ws w) := h
    obtain ⟨k, rfl⟩ : ∃ k, fuel = k + 1 := ⟨fuel - 1, by simp at hf; omega⟩
    simp [Workspace.set_hidden, h2, Workspace.set_hidden_loop, hidden_after]
  | cons a ts =>
    have h2 : s.next (Node.ws w) = some (Node.link a) := h.1
    obtain ⟨e, he⟩ := Option.isSome_iff_exists.1 (Chain.isSome_start h.2)
    have := set_hidden_loop_chain (Node.ws w) (by intro t; simp) b ts a e fuel s h.2 he
      (by simp [h2]) (by simpa using hf)
    simp only [Workspace.set_hidden, h2, he, this]

/-- The table `tile_geometry` leaves the windows it does not visit alone. -/
theorem tile_geometry_not_mem (box : Box) (cols : Nat) (width height : Int) :
    ∀ (l : List Nat) (g : Nat → Option Box) (i t : Nat), t ∉ l →
      tile_geometry box cols width height g l i t = g t
  | [], g, i, t, _ => rfl
  | a :: ts, g, i, t, h => by
    have h1 : t ≠ a := fun e => h (by simp [e])
    have h2 : t ∉ ts := fun e => h (by simp [e])
    rw [tile_geometry, tile_geometry_not_mem box cols width height ts _ _ t h2]
    simp [upd, h1]

/-- The table `tile_geometry` holds, for the window at position `k` of a list
without repetition, the cell of step `i + k`. -/
theorem tile_geometry_get (box : Box) (cols : Nat) (width height : Int) :
    ∀ (l : List Nat) (g : Nat → Option Box) (i : Nat), l.Nodup →
      ∀ (k : Nat) (hk : k < l.length),
        tile_geometry box cols width height g l i (l.get ⟨k, hk⟩) =
          some (tile_cell box cols width height (i + k))
  | [], _, _, _, k, hk => by simp at hk
  | a :: ts, g, i, hnd, k, hk => by
    have hnd2 := List.nodup_cons.1 hnd
    cases k with
    | zero =>
      rw [tile_geometry]
      simp only [List.get_eq_getElem, List.getElem_cons_zero]
      rw [tile_geometry_not_mem box cols width height ts _ _ a hnd2.1]
      simp [upd]
    | succ j =>
      have hj : j < ts.length := by simpa using hk
      have := tile_geometry_get box cols width height ts
        (upd g a (some (tile_cell box cols width height i))) (i + 1) hnd2.2 j hj
      rw [tile_geometry]
      simp only [List.get_eq_getElem, List.getElem_cons_succ] at this ⊢
      rw [this]
      congr 2
      omega

/-- The loop of `Workspace::tile` over a chain. -/
theorem tile_loop_chain (head : Node) (hh : ∀ t, Node.link t ≠ head) (box : Box) (cols : Nat)
    (width height : Int) :
    ∀ (l : List Nat) (t : Nat) (tmp : Node) (fuel : Nat) (s : State) (i : Nat),
      Chain s.next head (Node.link t) l → s.next (Node.link t) = some tmp →
      (s.next head).isSome → l.length + 1 < fuel →
      Workspace.tile_loop head box cols width height fuel s (Node.link t) tmp i =
        some { s with geometry := tile_geometry box cols width height s.geometry (t :: l) i }
  | [], t, tmp, fuel, s, i, h, htmp, hhead, hf => by
    have h2 : s.next (Node.link t) = some head := h
    obtain ⟨k, rfl⟩ : ∃ k, fuel = k + 2 := ⟨fuel - 2, by simp at hf; omega⟩
    obtain ⟨e, he⟩ := Option.isSome_iff_exists.1 hhead
    have ht : tmp = head := by rw [h2] at htmp; exact (Option.some.inj htmp).symm
    subst ht
    simp [Workspace.tile_loop, hh t, Toplevel.set_position_size, he, tile_geometry, tile_cell]
  | a :: ts, t, tmp, fuel, s, i, h, htmp, hhead, hf => by
    have h2 : s.next (Node.link t) = some (Node.link a) := h.1
    obtain ⟨k, rfl⟩ : ∃ k, fuel = k + 1 := ⟨fuel - 1, by simp at hf; omega⟩
    have ht : tmp = Node.link a := by rw [h2] at htmp; exact (Option.some.inj htmp).symm
    subst ht
    obtain ⟨e, he⟩ := Option.isSome_iff_exists.1 (Chain.isSome_start h.2)
    have ih := tile_loop_chain head hh box cols width height ts a e k
      (Toplevel.set_position_size s t (tile_cell box cols width height i).x
        (tile_cell box cols width height i).y (tile_cell box cols width height i).width
        (tile_cell box cols width height i).height) (i + 1) h.2 he hhead
      (by simp at hf; omega)
    have he2 : (Toplevel.set_position_size s t (tile_cell box cols width height i).x
        (tile_cell box cols width height i).y (tile_cell box cols width height i).width
        (tile_cell box cols width height i).height).next (Node.link a) = some e := he
    simp only [Workspace.tile_loop, hh t, if_false, he2, ih]
    rfl

/-- Method `Workspace::tile` on a non-empty well-formed list: every member gets the cell
of its position in link order. -/
theorem tile_isList (s : State) (w : Nat) (l : List Nat) (box : Box) (fuel : Nat)
    (h : Chain s.next (Node.ws w) (Node.ws w) l) (hne : l ≠ []) (hf : l.length < fuel) :
    Workspace.tile fuel s w box = some (tile_state s box l) := by
  have hlen := wl_list_length_isList s w l fuel h hf
  have hemp : wl_list_empty s (Node.ws w) = false := by
    rw [wl_list_empty_isList s w l h]; simp [hne]
  cases l with
  | nil => exact absurd rfl hne
  | cons a ts =>
    have h2 : s.next (Node.ws w) = some (Node.link a) := h.1
    obtain ⟨e, he⟩ := Option.isSome_iff_exists.1 (Chain.isSome_start h.2)
    have := tile_loop_chain (Node.ws w) (by intro t; simp) box (round_sqrt (a :: ts).length)
      (Int.tdiv box.width (round_sqrt (a :: ts).length : Int))
      (Int.tdiv box.height
        ((((a :: ts).length + round_sqrt (a :: ts).length - 1) /
          round_sqrt (a :: ts).length : Nat) : Int))
      ts a e fuel s 0 h.2 he (by simp [h2]) (by simpa using hf)
    simp only [Workspace.tile, hemp, hlen, h2, he, Bool.false_eq_true, if_false]
    exact this

/-! ## Insertion at the head -/

/-- A chain only depends on the pointer of its start and of its members. -/
theorem Chain.congr {f g : Node → Option Node} {head : Node} :
    ∀ {l : List Nat} {p q : Node}, Chain f head p l → g q = f p →
      (∀ x ∈ l, g (Node.link x) = f (Node.link x)) → Chain g head q l
  | [], _, _, h, hq, _ => by
    have e : f _ = some head := h
    exact hq.trans e
  | a :: ts, _, _, h, hq, hag => by
    have e : f _ = some (Node.link a) := h.1
    exact ⟨hq.trans e, Chain.congr h.2 (hag a (by simp))
      (fun x hx => hag x (List.mem_cons_of_mem a hx))⟩

/-- A chain ending in `a` is extended by `t` when `a` is made to point to `t`
and `t` to `head`. -/
theorem Chain.snoc {f g : Node → Option Node} {head : Node} {a t : Nat}
    (ha : g (Node.link a) = some (Node.link t)) (ht : g (Node.link t) = some head) :
    ∀ {m : List Nat} {p : Node}, Chain f head p (m ++ [a]) → g p = f p →
      (∀ x ∈ m, g (Node.link x) = f (Node.link x)) → Chain g head p (m ++ [a, t])
  | [], _, h, hp, _ => by
    have e : f _ = some (Node.link a) := h.1
    exact ⟨hp.trans e, ha, ht⟩
  | b :: m, _, h, hp, hag => by
    have e : f _ = some (Node.link b) := h.1
    exact ⟨hp.trans e, Chain.snoc ha ht h.2 (hag b (by simp))
      (fun x hx => hag x (List.mem_cons_of_mem b hx))⟩

/-- Function `wl_list_insert` at the head of a well-formed list puts a window that is not
yet in it at the front. -/
theorem wl_list_insert_isList (s : State) (w t : Nat) (l : List Nat)
    (hl : IsList s (Node.ws w) l) (ht : t ∉ l) :
    ∃ s1, wl_list_insert s (Node.ws w) (Node.link t) = some s1 ∧
      IsList s1 (Node.ws w) (t :: l) ∧ s1.active_toplevel = s.active_toplevel ∧
      s1.focused_surface = s.focused_surface ∧ s1.xdg_toplevel = s.xdg_toplevel ∧
      s1.next Node.srv = s.next Node.srv := by
  have hnd : l.Nodup := Chain.nodup (by intro x; simp) hl.1
  cases l with
  | nil =>
    have hn : s.next (Node.ws w) = some (Node.ws w) := hl.1
    refine ⟨_, wl_list_insert_eq s (Node.ws w) (Node.link t) (Node.ws w) (by simp) hn,
      ⟨?_, ?_⟩, rfl, rfl, rfl, ?_⟩
    · simp [Chain, State.setNext, State.setPrev, upd]
    · simp [Chain, State.setNext, State.setPrev, upd]
    · simp [State.setNext, State.setPrev, upd]
  | cons a ts =>
    have hn : s.next (Node.ws w) = some (Node.link a) := hl.1.1
    have hta : t ≠ a := fun e => ht (by simp [e])
    have hat : a ≠ t := fun e => hta e.symm
    refine ⟨_, wl_list_insert_eq s (Node.ws w) (Node.link t) (Node.link a) (by simp) hn,
      ⟨⟨?_, ?_⟩, ?_⟩, rfl, rfl, rfl, ?_⟩
    · simp [State.setNext, State.setPrev, upd]
    · refine Chain.congr hl.1 ?_ ?_
      · simp [State.setNext, State.setPrev, upd, hn]
      · intro x hx
        have hxt : x ≠ t := fun e => ht (e ▸ hx)
        simp [State.setNext, State.setPrev, upd, hxt]
    · have h2 : Chain s.prev (Node.ws w) (Node.ws w) (ts.reverse ++ [a]) := by
        have := hl.2
        rwa [List.reverse_cons] at this
      have : (t :: a :: ts).reverse = ts.reverse ++ [a, t] := by simp
      rw [this]
      refine Chain.snoc ?_ ?_ h2 ?_ ?_
      · simp [State.setNext, State.setPrev, upd]
      · simp [State.setNext, State.setPrev, upd, hta]
      · simp [State.setNext, State.setPrev, upd]
      · intro x hx
        have hx2 : x ∈ ts := List.mem_reverse.1 hx
        have hxt : x ≠ t := fun e => ht (by simp [← e, hx2])
        have hxa : x ≠ a := fun e => (List.nodup_cons.1 hnd).1 (e ▸ hx2)
        simp [State.setNext, State.setPrev, upd, hxt, hxa]
    · simp [State.setNext, State.setPrev, upd]

/-- Added to a well-formed list while it holds the keyboard focus, a window that
is not yet a member goes to the front and becomes the active window. -/
theorem add_focused_isList (s : State) (w t : Nat) (l : List Nat)
    (hl : IsList s (Node.ws w) l) (ht : t ∉ l) :
    ∃ s1, add_focused s w t = some s1 ∧ IsList s1 (Node.ws w) (t :: l) ∧
      s1.active_toplevel w = some t ∧ s1.next Node.srv = s.next Node.srv := by
  have hl2 : IsList (s.with_focus (some (Surface.toplevel t))) (Node.ws w) l := hl
  obtain ⟨s1, h1, h2, _, h4, _, h6⟩ := wl_list_insert_isList _ w t l hl2 ht
  have h4b : s1.focused_surface = some (Surface.toplevel t) := h4
  refine ⟨{ s1 with active_toplevel := upd s1.active_toplevel w (some t) }, ?_, h2, ?_, h6⟩
  · simp only [add_focused, Workspace.add_toplevel, h1, Toplevel.focus, h4b]
    simp
  · simp [upd]

/-- Windows added one after the other end up in the list in reverse order of
insertion: the last one added is at the front. -/
theorem add_all_isList (w : Nat) :
    ∀ (ts : List Nat) (s : State) (l : List Nat), IsList s (Node.ws w) l → ts.Nodup →
      (∀ t ∈ ts, t ∉ l) →
      ∃ s1, add_all w ts s = some s1 ∧ IsList s1 (Node.ws w) (ts.reverse ++ l) ∧
        (∀ hne : ts ≠ [], s1.active_toplevel w = some (ts.getLast hne))
  | [], s, l, hl, _, _ => ⟨s, rfl, by simpa using hl, fun h => absurd rfl h⟩
  | t :: ts, s, l, hl, hnd, hdis => by
    have hnd2 := List.nodup_cons.1 hnd
    obtain ⟨s1, h1, h2, h3, _⟩ := add_focused_isList s w t l hl (hdis t (by simp))
    obtain ⟨s2, k1, k2, k3⟩ := add_all_isList w ts s1 (t :: l) h2 hnd2.2 (by
      intro x hx hmem
      rcases List.mem_cons.1 hmem with e | e
      · exact hnd2.1 (e ▸ hx)
      · exact hdis x (List.mem_cons_of_mem t hx) e)
    refine ⟨s2, ?_, ?_, ?_⟩
    · simp only [add_all, h1, k1]
    · simpa using k2
    · intro _
      by_cases hts : ts = []
      · subst hts
        simp only [add_all] at k1
        cases k1
        simpa using h3
      · rw [k3 hts, List.getLast_cons hts]

/-! ## The grid of `Workspace::tile` -/

/-- The linear search stops at the integer part of the square root. -/
theorem isqrt_loop_spec (n : Nat) :
    ∀ (fuel r : Nat), r * r ≤ n → n ≤ fuel + r →
      isqrt_loop n fuel r * isqrt_loop n fuel r ≤ n ∧
        n < (isqrt_loop n fuel r + 1) * (isqrt_loop n fuel r + 1)
  | 0, r, h1, h2 => by
    simp only [isqrt_loop]
    refine ⟨h1, ?_⟩
    nlinarith
  | fuel + 1, r, h1, h2 => by
    simp only [isqrt_loop]
    split
    · rename_i h
      exact isqrt_loop_spec n fuel (r + 1) h (by omega)
    · rename_i h
      exact ⟨h1, by omega⟩

/-- The value `isqrt n` is the integer part of the square root of `n`. -/
theorem isqrt_spec (n : Nat) : isqrt n * isqrt n ≤ n ∧ n < (isqrt n + 1) * (isqrt n + 1) :=
  isqrt_loop_spec n n 0 (by simp) (by simp)

/-- The function `isqrt` is `Nat.sqrt`. -/
theorem isqrt_eq_sqrt (n : Nat) : isqrt n = Nat.sqrt n :=
  Nat.eq_sqrt.2 (isqrt_spec n)

/-- The count `cols` is the integer nearest to the square root of the window count: it is
at least 1 and `cols * (cols - 1) < n ≤ cols * (cols + 1)`, that is
`(cols - 1/2)^2 < n < (cols + 1/2)^2`. -/
theorem grid_cols_spec (n : Nat) (h : 1 ≤ n) :
    1 ≤ grid_cols n ∧ grid_cols n * (grid_cols n - 1) < n ∧
      n ≤ grid_cols n * (grid_cols n + 1) := by
  obtain ⟨h1, h2⟩ := isqrt_spec n
  have hpos : 1 ≤ isqrt n := by
    by_contra hc
    have : isqrt n = 0 := by omega
    rw [this] at h2
    omega
  unfold grid_cols round_sqrt
  obtain ⟨r, hr⟩ : ∃ r, isqrt n = r + 1 := ⟨isqrt n - 1, by omega⟩
  split
  · rename_i hle
    rw [hr] at hle h1 h2 ⊢
    refine ⟨by omega, ?_, ?_⟩
    · simp only [Nat.add_sub_cancel]
      nlinarith
    · nlinarith [Nat.sub_le n ((r+1)*(r+1)), Nat.sub_add_cancel h1]
  · rename_i hle
    rw [hr] at hle h1 h2 ⊢
    refine ⟨by omega, ?_, ?_⟩
    · simp only [Nat.add_sub_cancel]
      have : (r + 1) * (r + 1) + (r + 1) < n := by omega
      nlinarith
    · nlinarith

/-- The count `rows` is `n / cols` rounded up: `(rows - 1) * cols < n ≤ rows * cols`. -/
theorem grid_rows_spec (n : Nat) (h : 1 ≤ n) :
    1 ≤ grid_rows n ∧ (grid_rows n - 1) * grid_cols n < n ∧ n ≤ grid_rows n * grid_cols n := by
  obtain ⟨hc, _, _⟩ := grid_cols_spec n h
  unfold grid_rows
  generalize grid_cols n = c at hc ⊢
  have hd := Nat.div_add_mod (n + c - 1) c
  have hm := Nat.mod_lt (n + c - 1) hc
  generalize (n + c - 1) / c = q at hd ⊢
  have hq : 1 ≤ q := by
    by_contra hq
    have : q = 0 := by omega
    subst this
    simp at hd
    omega
  obtain ⟨q1, rfl⟩ : ∃ q1, q = q1 + 1 := ⟨q - 1, by omega⟩
  refine ⟨hq, ?_, ?_⟩
  · simp only [Nat.add_sub_cancel]
    have : c * (q1 + 1) = c * q1 + c := by ring
    have e : q1 * c = c * q1 := Nat.mul_comm _ _
    omega
  · have : c * (q1 + 1) = (q1 + 1) * c := Nat.mul_comm _ _
    omega


/-- Truncating division of a non-negative length into `c` parts. -/
theorem tdiv_cell (a : Int) (c : Nat) (hc : 1 ≤ c) (ha : 0 ≤ a) :
    0 ≤ Int.tdiv a (c : Int) ∧ (c : Int) * Int.tdiv a (c : Int) ≤ a ∧
      a < (c : Int) * Int.tdiv a (c : Int) + c := by
  have hc0 : (0 : Int) < c := by exact_mod_cast hc
  rw [Int.tdiv_eq_ediv ha (le_of_lt hc0)]
  exact ⟨Int.ediv_nonneg ha (le_of_lt hc0), Int.mul_ediv_self_le (ne_of_gt hc0),
    Int.lt_mul_ediv_self_add hc0⟩

/-- The cell width times `cols` falls short of the box width by less than `cols`. -/
theorem cell_width_spec (box : Box) (n : Nat) (hn : 1 ≤ n) (hW : 0 ≤ box.width) :
    0 ≤ cell_width box n ∧ (grid_cols n : Int) * cell_width box n ≤ box.width ∧
      box.width < (grid_cols n : Int) * cell_width box n + grid_cols n :=
  tdiv_cell box.width (grid_cols n) (grid_cols_spec n hn).1 hW

/-- The cell height times `rows` falls short of the box height by less than `rows`. -/
theorem cell_height_spec (box : Box) (n : Nat) (hn : 1 ≤ n) (hH : 0 ≤ box.height) :
    0 ≤ cell_height box n ∧ (grid_rows n : Int) * cell_height box n ≤ box.height ∧
      box.height < (grid_rows n : Int) * cell_height box n + grid_rows n :=
  tdiv_cell box.height (grid_rows n) (grid_rows_spec n hn).1 hH

/-- After `tile` the member at position `k` in link order has the cell of step `k`. -/
theorem tile_state_geometry (s : State) (w : Nat) (box : Box) (l : List Nat)
    (h : Chain s.next (Node.ws w) (Node.ws w) l) (k : Nat) (hk : k < l.length) :
    (tile_state s box l).geometry (l.get ⟨k, hk⟩) =
      some (tile_cell box (grid_cols l.length) (cell_width box l.length)
        (cell_height box l.length) k) := by
  have hnd : l.Nodup := Chain.nodup (by intro t; simp) h
  have := tile_geometry_get box (grid_cols l.length) (cell_width box l.length)
    (cell_height box l.length) l s.geometry 0 hnd k hk
  rw [Nat.zero_add] at this
  exact this

/-- Method `tile` leaves the geometry of the windows outside the list alone. -/
theorem tile_state_geometry_other (s : State) (box : Box) (l : List Nat) (t : Nat)
    (ht : t ∉ l) : (tile_state s box l).geometry t = s.geometry t :=
  tile_geometry_not_mem box _ _ _ l s.geometry 0 t ht

/-- The cell of a step below the window count lies inside the output box. -/
theorem tile_cell_inside (box : Box) (n : Nat) (hn : 1 ≤ n) (hW : 0 ≤ box.width)
    (hH : 0 ≤ box.height) (k : Nat) (hk : k < n) :
    (tile_cell box (grid_cols n) (cell_width box n) (cell_height box n) k).inside box := by
  obtain ⟨hc, _, _⟩ := grid_cols_spec n hn
  obtain ⟨hr, _, hr2⟩ := grid_rows_spec n hn
  obtain ⟨w0, w1, _⟩ := cell_width_spec box n hn hW
  obtain ⟨h0, h1, _⟩ := cell_height_spec box n hn hH
  have hcol : k % grid_cols n + 1 ≤ grid_cols n := Nat.mod_lt k hc
  have hrow : k / grid_cols n + 1 ≤ grid_rows n := by
    have : k / grid_cols n < grid_rows n := by
      rw [Nat.div_lt_iff_lt_mul hc]; omega
    omega
  have hcolZ : ((k % grid_cols n : Nat) : Int) + 1 ≤ (grid_cols n : Int) := by exact_mod_cast hcol
  have hrowZ : ((k / grid_cols n : Nat) : Int) + 1 ≤ (grid_rows n : Int) := by exact_mod_cast hrow
  have c0 : (0 : Int) ≤ ((k % grid_cols n : Nat) : Int) := Int.ofNat_nonneg _
  have r0 : (0 : Int) ≤ ((k / grid_cols n : Nat) : Int) := Int.ofNat_nonneg _
  have e1 := mul_le_mul_of_nonneg_right hcolZ w0
  have e2 := mul_nonneg c0 w0
  have e3 := mul_le_mul_of_nonneg_right hrowZ h0
  have e4 := mul_nonneg r0 h0
  rw [add_mul, one_mul] at e1 e3
  simp only [Box.inside, tile_cell]
  refine ⟨?_, ?_, ?_, ?_⟩ <;> linarith

/-- The cells of two different steps share no pixel. -/
theorem tile_cell_disjoint (box : Box) (cols : Nat) (width height : Int)
    (hw : 0 ≤ width) (hh : 0 ≤ height) (j k : Nat) (hjk : j ≠ k) (px py : Int) :
    ¬ ((tile_cell box cols width height j).covers px py ∧
      (tile_cell box cols width height k).covers px py) := by
  rintro ⟨⟨a1, a2, a3, a4⟩, ⟨b1, b2, b3, b4⟩⟩
  simp only [tile_cell] at a1 a2 a3 a4 b1 b2 b3 b4
  have key : j % cols ≠ k % cols ∨ j / cols ≠ k / cols := by
    by_contra hcon
    push_neg at hcon
    have e1 := Nat.div_add_mod j cols
    have e2 := Nat.div_add_mod k cols
    rw [hcon.1, hcon.2] at e1
    omega
  rcases key with hne | hne
  · rcases Nat.lt_or_gt_of_ne hne with hlt | hlt
    · have : ((j % cols : Nat) : Int) + 1 ≤ ((k % cols : Nat) : Int) := by exact_mod_cast hlt
      nlinarith
    · have : ((k % cols : Nat) : Int) + 1 ≤ ((j % cols : Nat) : Int) := by exact_mod_cast hlt
      nlinarith
  · rcases Nat.lt_or_gt_of_ne hne with hlt | hlt
    · have : ((j / cols : Nat) : Int) + 1 ≤ ((k / cols : Nat) : Int) := by exact_mod_cast hlt
      nlinarith
    · have : ((k / cols : Nat) : Int) + 1 ≤ ((j / cols : Nat) : Int) := by exact_mod_cast hlt
      nlinarith


/-- A pixel of the grid area lies in the cell of a step below the window count,
or in the part of the last row that has no window. -/
theorem tile_cell_covers (box : Box) (n : Nat) (hn : 1 ≤ n) (px py : Int)
    (hx0 : box.x ≤ px) (hx1 : px < box.x + (grid_cols n : Int) * cell_width box n)
    (hy0 : box.y ≤ py) (hy1 : py < box.y + (grid_rows n : Int) * cell_height box n) :
    (∃ k, k < n ∧
      (tile_cell box (grid_cols n) (cell_width box n) (cell_height box n) k).covers px py) ∨
    (box.y + ((grid_rows n - 1 : Nat) : Int) * cell_height box n ≤ py ∧
      box.x + ((n - (grid_rows n - 1) * grid_cols n : Nat) : Int) * cell_width box n ≤ px) := by
  have hr2 := (grid_rows_spec n hn).2.1
  generalize grid_cols n = c at *
  generalize grid_rows n = r at *
  generalize cell_width box n = cw at *
  generalize cell_height box n = ch at *
  have hcw : 0 < cw := by
    by_contra hcon
    have : (c : Int) * cw ≤ 0 := mul_nonpos_of_nonneg_of_nonpos (Int.ofNat_nonneg c) (by linarith)
    linarith
  have hch : 0 < ch := by
    by_contra hcon
    have : (r : Int) * ch ≤ 0 := mul_nonpos_of_nonneg_of_nonpos (Int.ofNat_nonneg r) (by linarith)
    linarith
  have qc0 : 0 ≤ (px - box.x) / cw := Int.ediv_nonneg (by linarith) (le_of_lt hcw)
  have qc1 : (px - box.x) / cw * cw ≤ px - box.x := Int.ediv_mul_le _ (ne_of_gt hcw)
  have qc2 : px - box.x < ((px - box.x) / cw + 1) * cw := Int.lt_ediv_add_one_mul_self _ hcw
  have qc3 : (px - box.x) / cw < c := Int.ediv_lt_of_lt_mul hcw (by linarith)
  have qr0 : 0 ≤ (py - box.y) / ch := Int.ediv_nonneg (by linarith) (le_of_lt hch)
  have qr1 : (py - box.y) / ch * ch ≤ py - box.y := Int.ediv_mul_le _ (ne_of_gt hch)
  have qr2 : py - box.y < ((py - box.y) / ch + 1) * ch := Int.lt_ediv_add_one_mul_self _ hch
  have qr3 : (py - box.y) / ch < r := Int.ediv_lt_of_lt_mul hch (by linarith)
  obtain ⟨col, hcol⟩ := Int.eq_ofNat_of_zero_le qc0
  obtain ⟨row, hrow⟩ := Int.eq_ofNat_of_zero_le qr0
  rw [hcol] at qc1 qc2 qc3
  rw [hrow] at qr1 qr2 qr3
  have hcolc : col < c := by exact_mod_cast qc3
  have hrowr : row < r := by exact_mod_cast qr3
  have hmod : (col + row * c) % c = col := by
    rw [Nat.add_mul_mod_self_right, Nat.mod_eq_of_lt hcolc]
  have hdiv : (col + row * c) / c = row := by
    rw [Nat.add_mul_div_right _ _ (by omega), Nat.div_eq_of_lt hcolc, Nat.zero_add]
  by_cases hk : col + row * c < n
  · left
    refine ⟨col + row * c, hk, ?_⟩
    simp only [Box.covers, tile_cell, hmod, hdiv]
    rw [add_mul, one_mul] at qc2 qr2
    refine ⟨?_, ?_, ?_, ?_⟩ <;> linarith
  · right
    have hrow1 : row = r - 1 := by
      by_contra hcon
      have h1 : row + 1 ≤ r - 1 := by omega
      have h2 : (row + 1) * c ≤ (r - 1) * c := Nat.mul_le_mul_right c h1
      have h3 : (row + 1) * c = row * c + c := by ring
      omega
    subst hrow1
    refine ⟨by linarith, ?_⟩
    have h4 : n - (r - 1) * c ≤ col := by omega
    have h5 : ((n - (r - 1) * c : Nat) : Int) ≤ (col : Int) := by exact_mod_cast h4
    have h6 := mul_le_mul_of_nonneg_right h5 (le_of_lt hcw)
    linarith

/-- For a box that fits 32-bit `int`s and fewer than `2 ^ 30` windows, no
intermediate value of `Workspace::tile` leaves the range of `int`: the
unbounded integers of the model agree with the machine arithmetic. -/
theorem tile_no_overflow (box : Box) (n k : Nat) (hn : 1 ≤ n) (hk : k < n)
    (hn2 : 2 * n ≤ 2147483647) (hW : 0 ≤ box.width) (hH : 0 ≤ box.height)
    (hx : in_int_range box.x) (hy : in_int_range box.y)
    (hw : in_int_range box.width) (hh : in_int_range box.height)
    (hx2 : in_int_range (box.x + box.width)) (hy2 : in_int_range (box.y + box.height)) :
    in_int_range ((n + grid_cols n - 1 : Nat) : Int) ∧
    in_int_range (cell_width box n) ∧ in_int_range (cell_height box n) ∧
    in_int_range (((k % grid_cols n : Nat) : Int) * cell_width box n) ∧
    in_int_range (((k / grid_cols n : Nat) : Int) * cell_height box n) ∧
    in_int_range (box.x + ((k % grid_cols n : Nat) : Int) * cell_width box n) ∧
    in_int_range (box.y + ((k / grid_cols n : Nat) : Int) * cell_height box n) := by
  obtain ⟨hc, hc1, _⟩ := grid_cols_spec n hn
  obtain ⟨hr, _, hr2⟩ := grid_rows_spec n hn
  obtain ⟨w0, w1, _⟩ := cell_width_spec box n hn hW
  obtain ⟨h0, h1, _⟩ := cell_height_spec box n hn hH
  have hcn : grid_cols n ≤ n := by
    by_contra hcon
    have : n ≤ grid_cols n - 1 := by omega
    have := Nat.mul_le_mul_left (grid_cols n) this
    nlinarith
  have hcol : k % grid_cols n + 1 ≤ grid_cols n := Nat.mod_lt k hc
  have hrow : k / grid_cols n + 1 ≤ grid_rows n := by
    have : k / grid_cols n < grid_rows n := by
      rw [Nat.div_lt_iff_lt_mul hc]; omega
    omega
  have hcolZ : ((k % grid_cols n : Nat) : Int) + 1 ≤ (grid_cols n : Int) := by exact_mod_cast hcol
  have hrowZ : ((k / grid_cols n : Nat) : Int) + 1 ≤ (grid_rows n : Int) := by exact_mod_cast hrow
  have c0 : (0 : Int) ≤ ((k % grid_cols n : Nat) : Int) := Int.ofNat_nonneg _
  have r0 : (0 : Int) ≤ ((k / grid_cols n : Nat) : Int) := Int.ofNat_nonneg _
  have e1 := mul_le_mul_of_nonneg_right hcolZ w0
  have e2 := mul_nonneg c0 w0
  have e3 := mul_le_mul_of_nonneg_right hrowZ h0
  have e4 := mul_nonneg r0 h0
  rw [add_mul, one_mul] at e1 e3
  have hcZ : (1 : Int) ≤ (grid_cols n : Int) := by exact_mod_cast hc
  have hrZ : (1 : Int) ≤ (grid_rows n : Int) := by exact_mod_cast hr
  have e5 := mul_le_mul_of_nonneg_right hcZ w0
  have e6 := mul_le_mul_of_nonneg_right hrZ h0
  rw [one_mul] at e5 e6
  obtain ⟨x1, x2⟩ := hx
  obtain ⟨y1, y2⟩ := hy
  obtain ⟨x3, x4⟩ := hx2
  obtain ⟨y3, y4⟩ := hy2
  obtain ⟨_, w4⟩ := hw
  obtain ⟨_, h4⟩ := hh
  have hsum : ((n + grid_cols n - 1 : Nat) : Int) ≤ 2147483647 := by
    have : n + grid_cols n - 1 ≤ 2147483647 := by omega
    exact_mod_cast this
  refine ⟨⟨by linarith [Int.ofNat_nonneg (n + grid_cols n - 1)], hsum⟩, ⟨by linarith, by linarith⟩,
    ⟨by linarith, by linarith⟩, ⟨by linarith, by linarith⟩, ⟨by linarith, by linarith⟩,
    ⟨by linarith, by linarith⟩, ⟨by linarith, by linarith⟩⟩

/-! # Workspace::move_to -/

/-- C2: when the target is the workspace itself, or the toplevel (possibly
`nullptr`) is not among the members of the workspace's well-formed list,
`move_to` returns `false` and the whole memory, hence the member sequence and
the active toplevel of both workspaces, is left as it was. -/
theorem move_to_rejects (fuel : Nat) (s : State) (this target : Nat) (toplevel : Option Nat)
    (l : List Nat)
    (h : target = this ∨
      (IsList s (Node.ws this) l ∧ l.length < fuel ∧ toplevel ∉ l.map some)) :
    Workspace.move_to fuel s this toplevel target = some (false, s) := by
  rcases h with h | ⟨hl, hf, hx⟩
  · simp [Workspace.move_to, h]
  · by_cases ht : target = this
    · simp [Workspace.move_to, ht]
    · have hc := contains_isList s this l toplevel fuel hl.1 hf
      simp only [Workspace.move_to, ht, if_false, hc, decide_eq_false hx]

/-- C2 at a concrete input: window 7 is not on workspace 0, which holds C, B, A. -/
theorem move_to_rejects_witness :
    (IsList state_ABC (Node.ws 0) [3, 2, 1] ∧ [3, 2, 1].length < 10 ∧
      some 7 ∉ [3, 2, 1].map some) ∧
    Workspace.move_to 10 state_ABC 0 (some 7) 1 = some (false, state_ABC) :=
  ⟨by decide, move_to_rejects 10 state_ABC 0 1 (some 7) [3, 2, 1] (Or.inr (by decide))⟩

/-- C1 at a failing input: workspace 0 holds C, B, A with the keyboard focus on
C, workspace 1 is empty. `move_to(A, workspace 1)` returns `true` and A leaves
workspace 0, but `Toplevel::focus`, called by `add_toplevel`, takes A's link out
of workspace 1 again and puts it on the server's list: afterwards neither
workspace contains A, although A is the active window of workspace 1. -/
theorem move_to_target_lacks_toplevel :
    Workspace.contains 10 state_ABC 0 (some 1) = some true ∧
    (Workspace.move_to 10 state_ABC 0 (some 1) 1).map Prod.fst = some true ∧
    (Workspace.move_to 10 state_ABC 0 (some 1) 1).map
      (fun r => Workspace.contains 10 r.2 0 (some 1)) = some (some false) ∧
    (Workspace.move_to 10 state_ABC 0 (some 1) 1).map
      (fun r => Workspace.contains 10 r.2 1 (some 1)) = some (some false) ∧
    (Workspace.move_to 10 state_ABC 0 (some 1) 1).map
      (fun r => members 10 r.2 (Node.ws 1)) = some (some []) ∧
    (Workspace.move_to 10 state_ABC 0 (some 1) 1).map
      (fun r => members 10 r.2 Node.srv) = some (some [1]) ∧
    (Workspace.move_to 10 state_ABC 0 (some 1) 1).map
      (fun r => r.2.active_toplevel 1) = some (some 1) := by
  refine ⟨?_, ?_, ?_, ?_, ?_, ?_, ?_⟩ <;> decide

/-! # The active window -/

/-- C3 at two failing runs from the initial state (every list empty, no active
window). After `add_toplevel(window 1)` on workspace 0 the window is the
active one while `Toplevel::focus` has moved its link to the server's list: it
is not a member. A second `add_toplevel` of the same window (which now holds
the keyboard focus) leaves it in the list; when it is then unmapped it leaves
the list and stays the active window. -/
theorem active_toplevel_not_member :
    State.init.active_toplevel 0 = none ∧ members 10 State.init (Node.ws 0) = some [] ∧
    (run 10 [Op.add_toplevel 0 1] State.init).map (fun s => s.active_toplevel 0) =
      some (some 1) ∧
    (run 10 [Op.add_toplevel 0 1] State.init).map
      (fun s => Workspace.contains 10 s 0 (some 1)) = some (some false) ∧
    (run 10 [Op.add_toplevel 0 1] State.init).map (fun s => members 10 s Node.srv) =
      some (some [1]) ∧
    (run 10 [Op.add_toplevel 0 1, Op.add_toplevel 0 1] State.init).map
      (fun s => Workspace.contains 10 s 0 (some 1)) = some (some true) ∧
    (run 10 [Op.add_toplevel 0 1, Op.add_toplevel 0 1, Op.unmap 1] State.init).map
      (fun s => s.active_toplevel 0) = some (some 1) ∧
    (run 10 [Op.add_toplevel 0 1, Op.add_toplevel 0 1, Op.unmap 1] State.init).map
      (fun s => Workspace.contains 10 s 0 (some 1)) = some (some false) ∧
    (run 10 [Op.add_toplevel 0 1, Op.add_toplevel 0 1, Op.unmap 1] State.init).map
      (fun s => members 10 s (Node.ws 0)) = some (some []) := by
  refine ⟨?_, ?_, ?_, ?_, ?_, ?_, ?_, ?_, ?_⟩ <;> decide

/-! # Workspace::focus_next and Workspace::focus_prev -/

/-- C4 at two failing inputs. Workspace 0 holds B, A, active and focused B: the
first `focus_next` makes A active and `Toplevel::focus` moves A's link to the
server's list, so the second call finds one member and returns at once; after
N = 2 calls the active window is A, not B. With C, B, A and C active, the first
call makes B active and unlinks it from the workspace; the second call then
follows B's `next` to the head of the server's list and calls `focus` on it. -/
theorem focus_next_cycle_broken :
    state_AB.active_toplevel 0 = some 2 ∧ members 10 state_AB (Node.ws 0) = some [2, 1] ∧
    (iterate (fun s => Workspace.focus_next 10 s 0) 2 state_AB).map
      (fun s => s.active_toplevel 0) = some (some 1) ∧
    (iterate (fun s => Workspace.focus_next 10 s 0) 2 state_AB).map
      (fun s => members 10 s (Node.ws 0)) = some (some [2]) ∧
    state_ABC.active_toplevel 0 = some 3 ∧ members 10 state_ABC (Node.ws 0) = some [3, 2, 1] ∧
    (iterate (fun s => Workspace.focus_next 10 s 0) 1 state_ABC).map
      (fun s => s.active_toplevel 0) = some (some 2) ∧
    (iterate (fun s => Workspace.focus_next 10 s 0) 1 state_ABC).map
      (fun s => members 10 s (Node.ws 0)) = some (some [3, 1]) ∧
    (iterate (fun s => Workspace.focus_next 10 s 0) 1 state_ABC).map
      (fun s => members 10 s Node.srv) = some (some [2]) ∧
    (iterate (fun s => Workspace.focus_next 10 s 0) 3 state_ABC).map
      (fun s => s.active_toplevel 0) = none := by
  refine ⟨?_, ?_, ?_, ?_, ?_, ?_, ?_, ?_, ?_, ?_⟩ <;> decide

/-- C5 at a failing input. Workspace 0 holds B, A, active and focused B. After
`focus_next` then `focus_prev` the active window is A and the list holds only
B; the same after `focus_prev` then `focus_next`: the first call focuses A,
which moves A's link to the server's list, and the second call finds fewer
than two members and does nothing. -/
theorem focus_prev_not_inverse :
    state_AB.active_toplevel 0 = some 2 ∧ members 10 state_AB (Node.ws 0) = some [2, 1] ∧
    ((Workspace.focus_next 10 state_AB 0).bind (fun s => Workspace.focus_prev 10 s 0)).map
      (fun s => s.active_toplevel 0) = some (some 1) ∧
    ((Workspace.focus_next 10 state_AB 0).bind (fun s => Workspace.focus_prev 10 s 0)).map
      (fun s => members 10 s (Node.ws 0)) = some (some [2]) ∧
    ((Workspace.focus_prev 10 state_AB 0).bind (fun s => Workspace.focus_next 10 s 0)).map
      (fun s => s.active_toplevel 0) = some (some 1) ∧
    ((Workspace.focus_prev 10 state_AB 0).bind (fun s => Workspace.focus_next 10 s 0)).map
      (fun s => members 10 s (Node.ws 0)) = some (some [2]) := by
  refine ⟨?_, ?_, ?_, ?_, ?_, ?_⟩ <;> decide

/-- C6 fails as stated: with A, B, C added in that order and C active,
`focus_next` makes B the active window, not A. -/
theorem focus_next_not_insertion_order :
    add_all 0 [1, 2, 3] State.init = some state_ABC ∧
    state_ABC.active_toplevel 0 = some 3 ∧
    (Workspace.focus_next 10 state_ABC 0).map (fun s => s.active_toplevel 0) = some (some 2) ∧
    ¬ (Workspace.focus_next 10 state_ABC 0).map (fun s => s.active_toplevel 0) =
      some (some 1) := by
  refine ⟨rfl, ?_, ?_, ?_⟩ <;> decide

/-- C6 as amended: `focus_next` advances the active window along the link order
of the list (front first; `wl_list_insert` puts a window at the front, so this
is most recently inserted first) with wrap-around. If the well-formed list of
the workspace holds `l` with at least two members and the active window is the
one at position `i`, `focus_next` returns and the active window is the one at
position `(i + 1) mod N`. -/
theorem focus_next_link_order (fuel : Nat) (s : State) (w : Nat) (l : List Nat) (i : Nat)
    (hl : IsList s (Node.ws w) l) (hs : (s.next Node.srv).isSome) (hN : 2 ≤ l.length)
    (hf : l.length < fuel) (hi : i < l.length)
    (ha : s.active_toplevel w = some (l.get ⟨i, hi⟩)) :
    ∃ s1, Workspace.focus_next fuel s w = some s1 ∧
      s1.active_toplevel w =
        some (l.get ⟨(i + 1) % l.length, Nat.mod_lt _ (Nat.lt_of_le_of_lt (Nat.zero_le i) hi)⟩) := by
  have hlen := wl_list_length_isList s w l fuel hl.1 hf
  have hne : l ≠ [] := by intro h; simp [h] at hN
  have hemp : wl_list_empty s (Node.ws w) = false := by
    rw [wl_list_empty_isList s w l hl.1]; simp [hne]
  have hnext := Chain.get_succ hl.1 i hi
  have hcond : ¬ (l.length < 2 ∨ wl_list_empty s (Node.ws w) = true) := by
    simp [hemp]; omega
  by_cases hlast : i + 1 < l.length
  · obtain ⟨s1, h1, h2, _⟩ := focus_member hl hs (List.get_mem l (i + 1) hlast)
    refine ⟨s1, ?_, ?_⟩
    · simp only [Workspace.focus_next, hlen, hcond, if_false, ha, hnext, dif_pos hlast]
      simpa [toplevel_of] using h1
    · rw [h2]
      simp [Nat.mod_eq_of_lt hlast]
  · have hi1 : i + 1 = l.length := by omega
    have h0 : 0 < l.length := by omega
    have hfirst : s.next (Node.ws w) = some (Node.link (l.get ⟨0, h0⟩)) := by
      cases l with
      | nil => simp at h0
      | cons a ts => exact hl.1.1
    obtain ⟨s1, h1, h2, _⟩ := focus_member hl hs (List.get_mem l 0 h0)
    refine ⟨s1, ?_, ?_⟩
    · simp only [Workspace.focus_next, hlen, hcond, if_false, ha, hnext, dif_neg hlast]
      simpa [toplevel_of, hfirst] using h1
    · rw [h2]
      simp [hi1]

/-- C6 as amended, at A, B, C added in that order (link order C, B, A): from C
the next is B, and from A, the last in link order, it wraps to C. -/
theorem focus_next_link_order_witness :
    (IsList state_ABC (Node.ws 0) [3, 2, 1] ∧ state_ABC.active_toplevel 0 = some 3 ∧
      state_ABC_active_A.active_toplevel 0 = some 1) ∧
    (∃ s1, Workspace.focus_next 10 state_ABC 0 = some s1 ∧ s1.active_toplevel 0 = some 2) ∧
    (∃ s1, Workspace.focus_next 10 state_ABC_active_A 0 = some s1 ∧
      s1.active_toplevel 0 = some 3) :=
  ⟨by decide,
    focus_next_link_order 10 state_ABC 0 [3, 2, 1] 0 (by decide) (by decide)
      (by decide) (by decide) (by decide) (by decide),
    focus_next_link_order 10 state_ABC_active_A 0 [3, 2, 1] 2 (by decide) (by decide)
      (by decide) (by decide) (by decide) (by decide)⟩

/-! # Workspace::focus -/

/-- C7 fails as stated: with A, B added in that order, `Workspace::focus` makes
A, the first inserted, the active window, not B, the most recently inserted. -/
theorem focus_not_most_recent :
    add_all 0 [1, 2] State.init = some state_AB ∧
    (Workspace.focus 10 state_AB 0).map (fun s => s.active_toplevel 0) = some (some 1) ∧
    ¬ (Workspace.focus 10 state_AB 0).map (fun s => s.active_toplevel 0) = some (some 2) := by
  refine ⟨rfl, ?_, ?_⟩ <;> decide

/-- C7 as amended: on a well-formed list `Workspace::focus` returns, un-hides
every member, and makes the member at the tail of the list the active window
(`toplevels.prev`: with front insertion, the earliest inserted member still in
the list); on an empty list the active window is left as it was. -/
theorem focus_takes_tail (fuel : Nat) (s : State) (w : Nat) (l : List Nat)
    (hl : IsList s (Node.ws w) l) (hs : (s.next Node.srv).isSome) (hf : l.length < fuel) :
    ∃ s1, Workspace.focus fuel s w = some s1 ∧ (∀ t ∈ l, s1.hidden t = false) ∧
      (∀ hne : l ≠ [], s1.active_toplevel w = some (l.getLast hne)) ∧
      (l = [] → s1.active_toplevel w = s.active_toplevel w) := by
  have hsh := set_hidden_isList s w l false fuel hl.1 hf
  have hl2 : IsList { s with hidden := hidden_after false s.hidden l } (Node.ws w) l := hl
  have hemp := wl_list_empty_isList { s with hidden := hidden_after false s.hidden l } w l hl2.1
  by_cases hne : l = []
  · refine ⟨{ s with hidden := hidden_after false s.hidden l }, ?_, ?_, ?_, ?_⟩
    · rw [hne] at hemp hsh
      simp only [Workspace.focus, hne, hsh, hemp]
      simp
    · intro t ht; simp [hne] at ht
    · intro h; exact absurd hne h
    · intro _; rfl
  · have hprev : s.prev (Node.ws w) = some (Node.link (l.getLast hne)) := hl.prev_head hne
    obtain ⟨s1, h1, h2, h3, _⟩ := focus_member hl2 hs (List.getLast_mem hne)
    refine ⟨s1, ?_, ?_, ?_, ?_⟩
    · simp only [Workspace.focus, hsh, hemp, hne, hprev]
      simpa [toplevel_of] using h1
    · intro t ht
      rw [h3]
      simp [hidden_after_apply, ht]
    · intro _; exact h2
    · intro h; exact absurd h hne

/-- C7 as amended, at A, B added in that order (link order B, A): A, at the
tail, becomes the active window and both are un-hidden. -/
theorem focus_takes_tail_witness :
    IsList state_AB (Node.ws 0) [2, 1] ∧
    ∃ s1, Workspace.focus 10 state_AB 0 = some s1 ∧ (∀ t ∈ [2, 1], s1.hidden t = false) ∧
      (∀ hne : [2, 1] ≠ [], s1.active_toplevel 0 = some ([2, 1].getLast hne)) ∧
      ([2, 1] = [] → s1.active_toplevel 0 = state_AB.active_toplevel 0) :=
  ⟨by decide, focus_takes_tail 10 state_AB 0 [2, 1] (by decide) (by decide) (by decide)⟩

/-! # Workspace::tile -/

/-- C8 fails as stated: with five windows 0..4 added in that order and the box
1920x1080 at the origin, `tile` puts window 4 (the last inserted) at (0, 0) and
window 0 (the first inserted) at (0, 720); window 4 is not at (0, 720). -/
theorem tile_not_insertion_order :
    add_all 0 [0, 1, 2, 3, 4] State.init = some state_five ∧
    (Workspace.tile 10 state_five 0 ⟨0, 0, 1920, 1080⟩).map (fun s => s.geometry 4) =
      some (some ⟨0, 0, 960, 360⟩) ∧
    (Workspace.tile 10 state_five 0 ⟨0, 0, 1920, 1080⟩).map (fun s => s.geometry 0) =
      some (some ⟨0, 720, 960, 360⟩) ∧
    ¬ (Workspace.tile 10 state_five 0 ⟨0, 0, 1920, 1080⟩).map (fun s => s.geometry 4) =
      some (some ⟨0, 720, 960, 360⟩) := by
  refine ⟨rfl, ?_, ?_, ?_⟩ <;> decide

/-- C8 as amended: for a workspace whose well-formed list holds the windows of
`l` in link order (front first, so most recently inserted first), `N ≥ 1` of
them, and every box, `tile` returns and gives the window at position `k` of
the link order the position `(x0 + (k mod cols) * cw, y0 + (k div cols) * ch)`
and the size `(cw, ch)`, where `cols` is the integer nearest to `sqrt N`,
`rows` is `N / cols` rounded up, `cw = W / cols` and `ch = H / rows`
(truncating). -/
theorem tile_link_order (fuel : Nat) (s : State) (w : Nat) (box : Box) (l : List Nat)
    (hl : IsList s (Node.ws w) l) (hN : 1 ≤ l.length) (hf : l.length < fuel) :
    ∃ s1, Workspace.tile fuel s w box = some s1 ∧
      (∀ (k : Nat) (hk : k < l.length),
        s1.geometry (l.get ⟨k, hk⟩) =
          some ⟨box.x + ((k % grid_cols l.length : Nat) : Int) * cell_width box l.length,
            box.y + ((k / grid_cols l.length : Nat) : Int) * cell_height box l.length,
            cell_width box l.length, cell_height box l.length⟩) ∧
      (grid_cols l.length * (grid_cols l.length - 1) < l.length ∧
        l.length ≤ grid_cols l.length * (grid_cols l.length + 1)) ∧
      ((grid_rows l.length - 1) * grid_cols l.length < l.length ∧
        l.length ≤ grid_rows l.length * grid_cols l.length) ∧
      cell_width box l.length = Int.tdiv box.width (grid_cols l.length : Int) ∧
      cell_height box l.length = Int.tdiv box.height (grid_rows l.length : Int) := by
  have hne : l ≠ [] := by intro h; simp [h] at hN
  refine ⟨tile_state s box l, tile_isList s w l box fuel hl.1 hne hf, ?_,
    (grid_cols_spec _ hN).2, (grid_rows_spec _ hN).2, rfl, rfl⟩
  intro k hk
  exact tile_state_geometry s w box l hl.1 k hk

/-- C8 as amended, at five windows 0..4 added in that order (link order 4, 3, 2,
1, 0) and the box 1920x1080 at the origin. -/
theorem tile_link_order_witness :
    (IsList state_five (Node.ws 0) [4, 3, 2, 1, 0] ∧ grid_cols 5 = 2 ∧ grid_rows 5 = 3 ∧
      cell_width ⟨0, 0, 1920, 1080⟩ 5 = 960 ∧ cell_height ⟨0, 0, 1920, 1080⟩ 5 = 360) ∧
    ∃ s1, Workspace.tile 10 state_five 0 ⟨0, 0, 1920, 1080⟩ = some s1 ∧
      (∀ (k : Nat) (hk : k < [4, 3, 2, 1, 0].length),
        s1.geometry ([4, 3, 2, 1, 0].get ⟨k, hk⟩) =
          some ⟨(0 : Int) + ((k % grid_cols [4, 3, 2, 1, 0].length : Nat) : Int) *
              cell_width ⟨0, 0, 1920, 1080⟩ [4, 3, 2, 1, 0].length,
            (0 : Int) + ((k / grid_cols [4, 3, 2, 1, 0].length : Nat) : Int) *
              cell_height ⟨0, 0, 1920, 1080⟩ [4, 3, 2, 1, 0].length,
            cell_width ⟨0, 0, 1920, 1080⟩ [4, 3, 2, 1, 0].length,
            cell_height ⟨0, 0, 1920, 1080⟩ [4, 3, 2, 1, 0].length⟩) ∧
      (grid_cols [4, 3, 2, 1, 0].length * (grid_cols [4, 3, 2, 1, 0].length - 1) <
          [4, 3, 2, 1, 0].length ∧
        [4, 3, 2, 1, 0].length ≤
          grid_cols [4, 3, 2, 1, 0].length * (grid_cols [4, 3, 2, 1, 0].length + 1)) ∧
      ((grid_rows [4, 3, 2, 1, 0].length - 1) * grid_cols [4, 3, 2, 1, 0].length <
          [4, 3, 2, 1, 0].length ∧
        [4, 3, 2, 1, 0].length ≤
          grid_rows [4, 3, 2, 1, 0].length * grid_cols [4, 3, 2, 1, 0].length) ∧
      cell_width ⟨0, 0, 1920, 1080⟩ [4, 3, 2, 1, 0].length =
        Int.tdiv (1920 : Int) (grid_cols [4, 3, 2, 1, 0].length : Int) ∧
      cell_height ⟨0, 0, 1920, 1080⟩ [4, 3, 2, 1, 0].length =
        Int.tdiv (1080 : Int) (grid_rows [4, 3, 2, 1, 0].length : Int) :=
  ⟨by decide, tile_link_order 10 state_five 0 ⟨0, 0, 1920, 1080⟩ [4, 3, 2, 1, 0] (by decide)
    (by decide) (by decide)⟩

/-- C9 fails as stated: with three windows and the box 100x100 at the origin,
`cols = rows = 2` and the three rectangles are the cells (0,0), (50,0) and
(0,50) of size 50x50. The pixel (75, 75) lies in the box, 25 pixels from the
right and from the bottom edge (not within a strip narrower than 2), and in
none of the three rectangles. -/
theorem tile_leaves_cell_uncovered :
    (Workspace.tile 10 state_ABC 0 ⟨0, 0, 100, 100⟩).map
      (fun s => [3, 2, 1].map s.geometry) =
      some [some ⟨0, 0, 50, 50⟩, some ⟨50, 0, 50, 50⟩, some ⟨0, 50, 50, 50⟩] ∧
    (Workspace.tile 10 state_ABC 0 ⟨0, 0, 100, 100⟩).map
      (fun s => (List.range 10).filter (fun t => (s.geometry t).isSome)) = some [1, 2, 3] ∧
    grid_cols 3 = 2 ∧ grid_rows 3 = 2 ∧
    (⟨0, 0, 100, 100⟩ : Box).covers 75 75 ∧
    (75 : Int) < 0 + 100 - grid_cols 3 ∧ (75 : Int) < 0 + 100 - grid_rows 3 ∧
    ∀ b ∈ [(⟨0, 0, 50, 50⟩ : Box), ⟨50, 0, 50, 50⟩, ⟨0, 50, 50, 50⟩], ¬ b.covers 75 75 := by
  refine ⟨?_, ?_, ?_, ?_, ?_, ?_, ?_, ?_⟩ <;> decide

/-- C9 as amended: for a well-formed list of `N ≥ 1` windows and a box of width
`W ≥ 0` and height `H ≥ 0`, `tile` returns; the grid of `cols * rows` cells
falls short of the box by a strip narrower than `cols` at the right edge and a
strip shorter than `rows` at the bottom edge, the grid has fewer than `cols`
cells more than there are windows, and every pixel of the grid lies in the
rectangle of a member or in the part of the last row, from cell
`N - (rows - 1) * cols` on, that has no window. -/
theorem tile_covers_grid (fuel : Nat) (s : State) (w : Nat) (box : Box) (l : List Nat)
    (hl : IsList s (Node.ws w) l) (hN : 1 ≤ l.length) (hf : l.length < fuel)
    (hW : 0 ≤ box.width) (hH : 0 ≤ box.height) :
    ∃ s1, Workspace.tile fuel s w box = some s1 ∧
      (0 ≤ box.width - (grid_cols l.length : Int) * cell_width box l.length ∧
        box.width - (grid_cols l.length : Int) * cell_width box l.length <
          grid_cols l.length) ∧
      (0 ≤ box.height - (grid_rows l.length : Int) * cell_height box l.length ∧
        box.height - (grid_rows l.length : Int) * cell_height box l.length <
          grid_rows l.length) ∧
      grid_rows l.length * grid_cols l.length - l.length < grid_cols l.length ∧
      ∀ px py : Int, box.x ≤ px →
        px < box.x + (grid_cols l.length : Int) * cell_width box l.length → box.y ≤ py →
        py < box.y + (grid_rows l.length : Int) * cell_height box l.length →
        (∃ t ∈ l, ∃ b, s1.geometry t = some b ∧ b.covers px py) ∨
        (box.y + ((grid_rows l.length - 1 : Nat) : Int) * cell_height box l.length ≤ py ∧
          box.x + ((l.length - (grid_rows l.length - 1) * grid_cols l.length : Nat) : Int) *
            cell_width box l.length ≤ px) := by
  have hne : l ≠ [] := by intro h; simp [h] at hN
  obtain ⟨_, w1, w2⟩ := cell_width_spec box l.length hN hW
  obtain ⟨_, h1, h2⟩ := cell_height_spec box l.length hN hH
  obtain ⟨hr, hr1, hr2⟩ := grid_rows_spec l.length hN
  refine ⟨tile_state s box l, tile_isList s w l box fuel hl.1 hne hf, ⟨by linarith, by linarith⟩,
    ⟨by linarith, by linarith⟩, ?_, ?_⟩
  · have e : (grid_rows l.length - 1) * grid_cols l.length + grid_cols l.length =
        grid_rows l.length * grid_cols l.length := by
      rw [← Nat.succ_mul, Nat.succ_eq_add_one, Nat.sub_add_cancel hr]
    omega
  · intro px py hx0 hx1 hy0 hy1
    rcases tile_cell_covers box l.length hN px py hx0 hx1 hy0 hy1 with ⟨k, hk, hcov⟩ | hout
    · exact Or.inl ⟨l.get ⟨k, hk⟩, List.get_mem l k hk, _,
        tile_state_geometry s w box l hl.1 k hk, hcov⟩
    · exact Or.inr hout

/-- C9 as amended, at workspace 0 holding C, B, A and the box 100x100 at the
origin. -/
theorem tile_covers_grid_witness :
    (IsList state_ABC (Node.ws 0) [3, 2, 1] ∧ (0 : Int) ≤ 100) ∧
    ∃ s1, Workspace.tile 10 state_ABC 0 ⟨0, 0, 100, 100⟩ = some s1 ∧
      ∀ px py : Int, (0 : Int) ≤ px →
        px < (0 : Int) + (grid_cols [3, 2, 1].length : Int) *
          cell_width ⟨0, 0, 100, 100⟩ [3, 2, 1].length → (0 : Int) ≤ py →
        py < (0 : Int) + (grid_rows [3, 2, 1].length : Int) *
          cell_height ⟨0, 0, 100, 100⟩ [3, 2, 1].length →
        (∃ t ∈ [3, 2, 1], ∃ b, s1.geometry t = some b ∧ b.covers px py) ∨
        ((0 : Int) + ((grid_rows [3, 2, 1].length - 1 : Nat) : Int) *
            cell_height ⟨0, 0, 100, 100⟩ [3, 2, 1].length ≤ py ∧
          (0 : Int) + (([3, 2, 1].length -
              (grid_rows [3, 2, 1].length - 1) * grid_cols [3, 2, 1].length : Nat) : Int) *
            cell_width ⟨0, 0, 100, 100⟩ [3, 2, 1].length ≤ px) :=
  ⟨by decide,
    let ⟨s1, h1, _, _, _, h5⟩ := tile_covers_grid 10 state_ABC 0 ⟨0, 0, 100, 100⟩ [3, 2, 1]
      (by decide) (by decide) (by decide) (by decide) (by decide)
    ⟨s1, h1, h5⟩⟩

/-- C10: for a well-formed list of `N ≥ 1` windows and an output box (width and
height not negative), `tile` returns and assigns exactly `N` rectangles, one
to each of the `N` distinct members and none to any other window; the
rectangles of two different members share no pixel, and every rectangle lies
inside the box. -/
theorem tile_rectangles (fuel : Nat) (s : State) (w : Nat) (box : Box) (l : List Nat)
    (hl : IsList s (Node.ws w) l) (hN : 1 ≤ l.length) (hf : l.length < fuel)
    (hW : 0 ≤ box.width) (hH : 0 ≤ box.height) :
    ∃ s1, Workspace.tile fuel s w box = some s1 ∧ l.Nodup ∧
      (∀ (k : Nat) (hk : k < l.length),
        ∃ b, s1.geometry (l.get ⟨k, hk⟩) = some b ∧ b.inside box) ∧
      (∀ t, t ∉ l → s1.geometry t = s.geometry t) ∧
      (∀ (j k : Nat) (hj : j < l.length) (hk : k < l.length), j ≠ k →
        ∀ bj bk, s1.geometry (l.get ⟨j, hj⟩) = some bj →
          s1.geometry (l.get ⟨k, hk⟩) = some bk →
          ∀ px py : Int, ¬ (bj.covers px py ∧ bk.covers px py)) := by
  have hne : l ≠ [] := by intro h; simp [h] at hN
  obtain ⟨w0, _, _⟩ := cell_width_spec box l.length hN hW
  obtain ⟨h0, _, _⟩ := cell_height_spec box l.length hN hH
  refine ⟨tile_state s box l, tile_isList s w l box fuel hl.1 hne hf,
    Chain.nodup (by intro t; simp) hl.1, ?_, ?_, ?_⟩
  · intro k hk
    exact ⟨_, tile_state_geometry s w box l hl.1 k hk,
      tile_cell_inside box l.length hN hW hH k hk⟩
  · intro t ht
    exact tile_state_geometry_other s box l t ht
  · intro j k hj hk hjk bj bk ej ek px py
    rw [tile_state_geometry s w box l hl.1 j hj] at ej
    rw [tile_state_geometry s w box l hl.1 k hk] at ek
    rw [← Option.some.inj ej, ← Option.some.inj ek]
    exact tile_cell_disjoint box _ _ _ w0 h0 j k hjk px py

/-- C10 at workspace 0 holding C, B, A and the box 100x100 at the origin. -/
theorem tile_rectangles_witness :
    (IsList state_ABC (Node.ws 0) [3, 2, 1] ∧ (0 : Int) ≤ 100) ∧
    ∃ s1, Workspace.tile 10 state_ABC 0 ⟨0, 0, 100, 100⟩ = some s1 ∧ [3, 2, 1].Nodup ∧
      (∀ (k : Nat) (hk : k < [3, 2, 1].length),
        ∃ b, s1.geometry ([3, 2, 1].get ⟨k, hk⟩) = some b ∧ b.inside ⟨0, 0, 100, 100⟩) ∧
      (∀ t, t ∉ [3, 2, 1] → s1.geometry t = state_ABC.geometry t) ∧
      (∀ (j k : Nat) (hj : j < [3, 2, 1].length) (hk : k < [3, 2, 1].length), j ≠ k →
        ∀ bj bk, s1.geometry ([3, 2, 1].get ⟨j, hj⟩) = some bj →
          s1.geometry ([3, 2, 1].get ⟨k, hk⟩) = some bk →
          ∀ px py : Int, ¬ (bj.covers px py ∧ bk.covers px py)) :=
  ⟨by decide, tile_rectangles 10 state_ABC 0 ⟨0, 0, 100, 100⟩ [3, 2, 1] (by decide) (by decide)
    (by decide) (by decide) (by decide)⟩


/-! # Removal from a list, and moving a focused window -/

/-- The pointer of the start of a chain. -/
theorem Chain.start_eq {f : Node → Option Node} {head p : Node} {l : List Nat}
    (h : Chain f head p l) : f p = some (first_node head l) := by
  cases l with
  | nil => exact h
  | cons a ts => exact h.1

/-- The node before the place where a list is extended at its end. -/
theorem first_node_reverse_cons (p : Node) (a : Nat) (l : List Nat) :
    first_node p (a :: l).reverse = first_node (Node.link a) l.reverse := by
  rw [List.reverse_cons]
  cases l.reverse with
  | nil => rfl
  | cons b bs => rfl

/-- The first node of a non-empty list is the link of a member. -/
theorem first_node_mem (p : Node) (l : List Nat) :
    first_node p l = p ∨ ∃ x ∈ l, first_node p l = Node.link x := by
  cases l with
  | nil => exact Or.inl rfl
  | cons a ts => exact Or.inr ⟨a, by simp, rfl⟩

/-- Taking a member out of a chain: the node before it is made to point where
the member pointed. -/
theorem Chain.splice {f g : Node → Option Node} {head : Node} {w : Nat} {l2 : List Nat} :
    ∀ {l1 : List Nat} {p : Node}, Chain f head p (l1 ++ w :: l2) →
      (∀ x ∈ l1 ++ w :: l2, Node.link x ≠ p) → (l1 ++ w :: l2).Nodup →
      g (first_node p l1.reverse) = f (Node.link w) →
      (∀ node, node ≠ first_node p l1.reverse → node ≠ Node.link w → g node = f node) →
      Chain g head p (l1 ++ l2)
  | [], p, h, hp, hnd, hq, hag => by
    have hnd2 := List.nodup_cons.1 hnd
    refine Chain.congr h.2 hq ?_
    intro x hx
    have hx2 : x ∈ l2 := by simpa using hx
    apply hag
    · exact hp x (by simp [hx2])
    · intro e
      have : x = w := by simpa using e
      exact hnd2.1 (this ▸ hx2)
  | a :: l1, p, h, hp, hnd, hq, hag => by
    have e : f p = some (Node.link a) := h.1
    have hnd2 := List.nodup_cons.1 hnd
    rw [first_node_reverse_cons] at hq hag
    have hpq : p ≠ first_node (Node.link a) l1.reverse := by
      rcases first_node_mem (Node.link a) l1.reverse with h1 | ⟨x, hx, h1⟩
      · rw [h1]; exact fun e => hp a (by simp) e.symm
      · rw [h1]; exact fun e => hp x (by simp [List.mem_reverse.1 hx]) e.symm
    have hpw : p ≠ Node.link w := fun e => hp w (by simp) e.symm
    refine ⟨(hag p hpq hpw).trans e, Chain.splice h.2 ?_ hnd2.2 hq hag⟩
    intro x hx e2
    have : x = a := by simpa using e2
    exact hnd2.1 (this ▸ hx)

/-- The memory after `wl_list_remove`, field by field. -/
theorem wl_list_remove_fields (s : State) (elm p n : Node) (hp : s.prev elm = some p)
    (hn : s.next elm = some n) :
    ∃ s1, wl_list_remove s elm = some s1 ∧
      (∀ node, s1.next node = if node = elm then none else if node = p then some n
        else s.next node) ∧
      (∀ node, s1.prev node = if node = elm then none else if node = n then some p
        else s.prev node) ∧
      s1.active_toplevel = s.active_toplevel ∧ s1.focused_surface = s.focused_surface ∧
      s1.xdg_toplevel = s.xdg_toplevel ∧ s1.keyboard = s.keyboard := by
  refine ⟨_, wl_list_remove_eq s elm p n hp hn, ?_, ?_, rfl, rfl, rfl, rfl⟩
  · intro node
    simp [State.setNext, State.setPrev, upd]
  · intro node
    simp [State.setNext, State.setPrev, upd]

/-- Function `wl_list_remove` on a member of a well-formed list takes it out of
the list and leaves the pointers of every node outside the list alone. -/
theorem wl_list_remove_isList (s : State) (a w : Nat) (l : List Nat)
    (hl : IsList s (Node.ws a) l) (hw : w ∈ l) :
    ∃ s1, wl_list_remove s (Node.link w) = some s1 ∧ IsList s1 (Node.ws a) (l.erase w) ∧
      (∀ node, node ≠ Node.ws a → (∀ x ∈ l, node ≠ Node.link x) →
        s1.next node = s.next node ∧ s1.prev node = s.prev node) ∧
      s1.active_toplevel = s.active_toplevel ∧ s1.focused_surface = s.focused_surface ∧
      s1.xdg_toplevel = s.xdg_toplevel ∧ s1.keyboard = s.keyboard := by
  have hnd : l.Nodup := Chain.nodup (by intro x; simp) hl.1
  obtain ⟨l1, l2, rfl⟩ := List.append_of_mem hw
  have hw1 : w ∉ l1 := by
    intro h
    have := List.nodup_append.1 hnd
    exact this.2.2 h (by simp)
  have hnext : s.next (Node.link w) = some (first_node (Node.ws a) l2) :=
    Chain.start_eq (Chain.suffix hl.1)
  have hrev : (l1 ++ w :: l2).reverse = l2.reverse ++ w :: l1.reverse := by simp
  have hprevc : Chain s.prev (Node.ws a) (Node.ws a) (l2.reverse ++ w :: l1.reverse) := by
    have := hl.2
    rwa [hrev] at this
  have hprev : s.prev (Node.link w) = some (first_node (Node.ws a) l1.reverse) :=
    Chain.start_eq (Chain.suffix hprevc)
  obtain ⟨s1, h1, hnx, hpv, ha, hf, hx, hk⟩ :=
    wl_list_remove_fields s (Node.link w) _ _ hprev hnext
  have herase : (l1 ++ w :: l2).erase w = l1 ++ l2 := by
    rw [List.erase_append_right _ hw1, List.erase_cons_head]
  have hpn : first_node (Node.ws a) l1.reverse ≠ Node.link w := by
    rcases first_node_mem (Node.ws a) l1.reverse with h | ⟨x, hx, h⟩
    · rw [h]; simp
    · rw [h]
      intro e
      have : x = w := by simpa using e
      exact hw1 (this ▸ List.mem_reverse.1 hx)
  have hnn : first_node (Node.ws a) l2 ≠ Node.link w := by
    rcases first_node_mem (Node.ws a) l2 with h | ⟨x, hx, h⟩
    · rw [h]; simp
    · rw [h]
      intro e
      have : x = w := by simpa using e
      have := List.nodup_append.1 hnd
      exact (List.nodup_cons.1 this.2.1).1 (by rwa [← ‹x = w›])
  refine ⟨s1, h1, ⟨?_, ?_⟩, ?_, ha, hf, hx, hk⟩
  · rw [herase]
    refine Chain.splice hl.1 (by intro x _; simp) hnd ?_ ?_
    · rw [hnx, if_neg hpn, if_pos rfl, hnext]
    · intro node h1 h2
      rw [hnx, if_neg h2, if_neg h1]
  · rw [herase, List.reverse_append]
    have hnd2 : (l2.reverse ++ w :: l1.reverse).Nodup := by
      rw [← hrev]; exact List.nodup_reverse.2 hnd
    refine Chain.splice hprevc (by intro x _; simp) hnd2 ?_ ?_
    · rw [List.reverse_reverse, hpv, if_neg hnn, if_pos rfl, hprev]
    · intro node h1 h2
      rw [List.reverse_reverse] at h1
      rw [hpv, if_neg h2, if_neg h1]
  · intro node hne hmem
    have hne1 : node ≠ first_node (Node.ws a) l1.reverse := by
      rcases first_node_mem (Node.ws a) l1.reverse with h | ⟨x, hx, h⟩
      · rw [h]; exact hne
      · rw [h]; exact hmem x (by simp [List.mem_reverse.1 hx])
    have hne2 : node ≠ first_node (Node.ws a) l2 := by
      rcases first_node_mem (Node.ws a) l2 with h | ⟨x, hx, h⟩
      · rw [h]; exact hne
      · rw [h]; exact hmem x (by simp [hx])
    have hne3 : node ≠ Node.link w := hmem w (by simp)
    exact ⟨by rw [hnx, if_neg hne3, if_neg hne1], by rw [hpv, if_neg hne3, if_neg hne2]⟩

/-- Two chains from the same node end at the same head. -/
theorem Chain.same_head {f : Node → Option Node} {h1 h2 : Node}
    (hh1 : ∀ t, Node.link t ≠ h1) (hh2 : ∀ t, Node.link t ≠ h2) :
    ∀ {l1 l2 : List Nat} {p : Node}, Chain f h1 p l1 → Chain f h2 p l2 → h1 = h2
  | [], [], _, c1, c2 => by
    have e1 : f _ = some h1 := c1
    have e2 : f _ = some h2 := c2
    rw [e1] at e2
    exact Option.some.inj e2
  | [], b :: _, _, c1, c2 => by
    have e1 : f _ = some h1 := c1
    have e2 : f _ = some (Node.link b) := c2.1
    rw [e1] at e2
    exact absurd (Option.some.inj e2).symm (hh1 b)
  | a :: _, [], _, c1, c2 => by
    have e1 : f _ = some (Node.link a) := c1.1
    have e2 : f _ = some h2 := c2
    rw [e1] at e2
    exact absurd (Option.some.inj e2) (hh2 a)
  | a :: ts, b :: ts2, _, c1, c2 => by
    have e1 : f _ = some (Node.link a) := c1.1
    have e2 : f _ = some (Node.link b) := c2.1
    rw [e1] at e2
    have hab : a = b := by simpa using e2
    subst hab
    exact Chain.same_head hh1 hh2 c1.2 c2.2

/-- The well-formed lists of two different workspaces share no member. -/
theorem IsList.disjoint {s : State} {a b : Nat} {l lt : List Nat}
    (hl : IsList s (Node.ws a) l) (hlt : IsList s (Node.ws b) lt) (hab : a ≠ b) :
    ∀ x ∈ l, x ∉ lt := by
  intro x hx hx2
  obtain ⟨l1, l2, rfl⟩ := List.append_of_mem hx
  obtain ⟨m1, m2, rfl⟩ := List.append_of_mem hx2
  have := Chain.same_head (by intro t; simp) (by intro t; simp)
    (Chain.suffix hl.1) (Chain.suffix hlt.1)
  exact hab (by simpa using this)

/-- A well-formed list stays one when the pointers of its head and of its
members are left alone. -/
theorem IsList.frame {s s1 : State} {b : Nat} {lt : List Nat}
    (hlt : IsList s (Node.ws b) lt)
    (hhead : s1.next (Node.ws b) = s.next (Node.ws b) ∧ s1.prev (Node.ws b) = s.prev (Node.ws b))
    (hmem : ∀ x ∈ lt, s1.next (Node.link x) = s.next (Node.link x) ∧
      s1.prev (Node.link x) = s.prev (Node.link x)) :
    IsList s1 (Node.ws b) lt :=
  ⟨Chain.congr hlt.1 hhead.1 (fun x hx => (hmem x hx).1),
    Chain.congr hlt.2 hhead.2 (fun x hx => (hmem x (List.mem_reverse.1 hx)).2)⟩

/-- The memory after `wl_list_insert`, field by field. -/
theorem wl_list_insert_fields (s : State) (list elm n : Node) (hne : elm ≠ list)
    (hn : s.next list = some n) :
    ∃ s1, wl_list_insert s list elm = some s1 ∧
      (∀ node, s1.next node = if node = list then some elm else if node = elm then some n
        else s.next node) ∧
      (∀ node, s1.prev node = if node = n then some elm else if node = elm then some list
        else s.prev node) := by
  refine ⟨_, wl_list_insert_eq s list elm n hne hn, ?_, ?_⟩
  · intro node
    simp [State.setNext, State.setPrev, upd]
  · intro node
    simp [State.setNext, State.setPrev, upd]

/-- Function `wl_list_insert` at the head of one workspace's list leaves the
well-formed list of another workspace alone, when the inserted window is not
on it. -/
theorem wl_list_insert_other (s s1 : State) (a b t : Nat) (l lt : List Nat)
    (hl : IsList s (Node.ws a) l) (hlt : IsList s (Node.ws b) lt) (hab : a ≠ b)
    (ht : t ∉ l) (h1 : wl_list_insert s (Node.ws b) (Node.link t) = some s1) :
    IsList s1 (Node.ws a) l := by
  have hn := Chain.start_eq hlt.1
  obtain ⟨s2, h2, hnx, hpv⟩ :=
    wl_list_insert_fields s (Node.ws b) (Node.link t) _ (by simp) hn
  rw [h1] at h2
  cases h2
  have hdis := IsList.disjoint hl hlt hab
  have hnode : ∀ node, node ≠ Node.ws b → node ≠ Node.link t → (∀ x ∈ lt, node ≠ Node.link x) →
      s1.next node = s.next node ∧ s1.prev node = s.prev node := by
    intro node n1 n2 n3
    have n4 : node ≠ first_node (Node.ws b) lt := by
      rcases first_node_mem (Node.ws b) lt with h | ⟨x, hx, h⟩
      · rw [h]; exact n1
      · rw [h]; exact n3 x hx
    exact ⟨by rw [hnx, if_neg n1, if_neg n2], by rw [hpv, if_neg n4, if_neg n2]⟩
  refine IsList.frame hl (hnode _ (by simpa using hab) (by simp) (by intro x _; simp)) ?_
  intro x hx
  refine hnode _ (by simp) ?_ ?_
  · intro e
    have : x = t := by simpa using e
    exact ht (this ▸ hx)
  · intro y hy e
    have : x = y := by simpa using e
    exact hdis x hx (this ▸ hy)

/-- Method `Workspace::move_to` of a member that holds the keyboard focus: the
window leaves the workspace, is put at the front of the target and becomes the
target's active window. -/
theorem move_to_focused (fuel : Nat) (s : State) (cur target w : Nat) (l lt : List Nat)
    (hct : target ≠ cur) (hl : IsList s (Node.ws cur) l) (hlt : IsList s (Node.ws target) lt)
    (hf : l.length < fuel) (hw : w ∈ l)
    (hfoc : s.focused_surface = some (Surface.toplevel w)) :
    ∃ s1, Workspace.move_to fuel s cur (some w) target = some (true, s1) ∧
      IsList s1 (Node.ws target) (w :: lt) ∧ IsList s1 (Node.ws cur) (l.erase w) ∧
      s1.active_toplevel target = some w ∧
      (∀ other, other ≠ target → s1.active_toplevel other = s.active_toplevel other) := by
  have hnd : l.Nodup := Chain.nodup (by intro x; simp) hl.1
  have hdis := IsList.disjoint hl hlt (fun e => hct e.symm)
  have hc := contains_isList s cur l (some w) fuel hl.1 hf
  have hmem : (some w) ∈ l.map some := by simpa using hw
  rw [decide_eq_true hmem] at hc
  obtain ⟨sr, hr, hrl, hrframe, hra, hrf, _, _⟩ := wl_list_remove_isList s cur w l hl hw
  have hrt : IsList sr (Node.ws target) lt := by
    refine IsList.frame hlt (hrframe _ (by simpa using hct) (by intro x _; simp)) ?_
    intro x hx
    refine hrframe _ (by simp) ?_
    intro y hy e
    have : x = y := by simpa using e
    exact hdis y hy (this ▸ hx)
  have hwlt : w ∉ lt := hdis w hw
  obtain ⟨si, hi, hil, hia, hif, _, _⟩ := wl_list_insert_isList sr target w lt hrt hwlt
  have hwe : w ∉ l.erase w := fun h => (List.Nodup.mem_erase_iff hnd).1 h |>.1 rfl
  have hic : IsList si (Node.ws cur) (l.erase w) :=
    wl_list_insert_other sr si cur target w (l.erase w) lt hrl hrt (fun e => hct e.symm) hwe hi
  have hifoc : si.focused_surface = some (Surface.toplevel w) := by rw [hif, hrf, hfoc]
  refine ⟨{ si with active_toplevel := upd si.active_toplevel target (some w) }, ?_, hil, hic,
    by simp [upd], ?_⟩
  · simp only [Workspace.move_to, if_neg hct, hc, hr, Workspace.add_toplevel, hi,
      Toplevel.focus, hifoc]
    simp
  · intro other ho
    simp [upd, ho, hia, hra]


/-- Method `Workspace::move_to` refuses, leaving the memory alone, when the
target is the workspace itself or the toplevel is not on its well-formed list. -/
theorem move_to_refused (fuel : Nat) (s : State) (this target : Nat) (toplevel : Option Nat)
    (l : List Nat)
    (h : target = this ∨
      (IsList s (Node.ws this) l ∧ l.length < fuel ∧ toplevel ∉ l.map some)) :
    Workspace.move_to fuel s this toplevel target = some (false, s) := by
  rcases h with h | ⟨hl, hf, hx⟩
  · simp [Workspace.move_to, h]
  · by_cases ht : target = this
    · simp [Workspace.move_to, ht]
    · have hc := contains_isList s this l toplevel fuel hl.1 hf
      simp only [Workspace.move_to, ht, if_false, hc, decide_eq_false hx]

/-- Method `Toplevel::focus` returns on a window that is on a well-formed
workspace list, when the head of the server's list has a `next` pointer. -/
theorem toplevel_focus_returns (s : State) (a w : Nat) (l : List Nat)
    (hl : IsList s (Node.ws a) l) (hw : w ∈ l) (hsrv : (s.next Node.srv).isSome = true) :
    ∃ s1, Toplevel.focus s w = some s1 := by
  simp only [Toplevel.focus]
  split
  · exact ⟨_, rfl⟩
  · split
    · exact ⟨_, rfl⟩
    · obtain ⟨sr, hr, _, hframe, _⟩ := wl_list_remove_isList s a w l hl hw
      obtain ⟨n, hn⟩ := Option.isSome_iff_exists.1 hsrv
      have hn2 : sr.next Node.srv = some n := by
        rw [(hframe Node.srv (by simp) (by intro x _; simp)).1, hn]
      obtain ⟨si, hi, _⟩ := wl_list_insert_fields sr Node.srv (Node.link w) n (by simp) hn2
      simp only [hr, hi]
      split
      · exact ⟨_, rfl⟩
      · exact ⟨_, rfl⟩

/-- Method `Workspace::move_to` returns whenever the lists of the workspace and
of the target are well-formed and the head of the server's list has a `next`
pointer, whatever the toplevel. -/
theorem move_to_returns (fuel : Nat) (s : State) (cur target : Nat) (toplevel : Option Nat)
    (l lt : List Nat) (hl : IsList s (Node.ws cur) l) (hlt : IsList s (Node.ws target) lt)
    (hf : l.length < fuel) (hsrv : (s.next Node.srv).isSome = true) :
    ∃ r, Workspace.move_to fuel s cur toplevel target = some r := by
  by_cases hct : target = cur
  · exact ⟨_, move_to_refused fuel s cur target toplevel l (Or.inl hct)⟩
  · by_cases hmem : toplevel ∈ l.map some
    · obtain ⟨w, hw, rfl⟩ := List.mem_map.1 hmem
      have hdis := IsList.disjoint hl hlt (fun e => hct e.symm)
      have hc := contains_isList s cur l (some w) fuel hl.1 hf
      rw [decide_eq_true hmem] at hc
      obtain ⟨sr, hr, hrl, hrframe, _⟩ := wl_list_remove_isList s cur w l hl hw
      have hrt : IsList sr (Node.ws target) lt := by
        refine IsList.frame hlt (hrframe _ (by simpa using hct) (by intro x _; simp)) ?_
        intro x hx
        refine hrframe _ (by simp) ?_
        intro y hy e
        have : x = y := by simpa using e
        exact hdis y hy (this ▸ hx)
      have hrs : sr.next Node.srv = s.next Node.srv :=
        (hrframe Node.srv (by simp) (by intro x _; simp)).1
      obtain ⟨si, hi, hil, _, _, _, his⟩ := wl_list_insert_isList sr target w lt hrt (hdis w hw)
      have hsrv2 : (si.next Node.srv).isSome = true := by rw [his, hrs]; exact hsrv
      obtain ⟨s2, h2⟩ := toplevel_focus_returns
        { si with active_toplevel := upd si.active_toplevel target (some w) } target w (w :: lt)
        hil (by simp) hsrv2
      refine ⟨(true, s2), ?_⟩
      simp only [Workspace.move_to, if_neg hct, hc, hr, Workspace.add_toplevel, hi, h2]
    · exact ⟨_, move_to_refused fuel s cur target toplevel l (Or.inr ⟨hl, hf, hmem⟩)⟩

/-! ## The key bindings leave the termination flag set -/

/-- The termination flag is left as it was by `wl_list_remove`. -/
theorem wl_list_remove_terminated {s s1 : State} {elm : Node}
    (h : wl_list_remove s elm = some s1) : s1.terminated = s.terminated := by
  simp only [wl_list_remove] at h
  split at h
  · cases h
  · split at h
    · cases h
    · cases h; rfl

/-- The termination flag is left as it was by `wl_list_insert`. -/
theorem wl_list_insert_terminated {s s1 : State} {list elm : Node}
    (h : wl_list_insert s list elm = some s1) : s1.terminated = s.terminated := by
  simp only [wl_list_insert] at h
  split at h
  · cases h
  · cases h; rfl

/-- The termination flag is left as it was by `Toplevel::focus`. -/
theorem toplevel_focus_terminated {s s1 : State} {t : Nat}
    (h : Toplevel.focus s t = some s1) : s1.terminated = s.terminated := by
  simp only [Toplevel.focus] at h
  split at h
  · cases h; rfl
  · split at h
    · cases h; rfl
    · split at h
      · cases h
      · rename_i sr hr
        split at h
        · cases h
        · rename_i si hi
          have e1 := wl_list_remove_terminated hr
          have e2 := wl_list_insert_terminated hi
          split at h <;> cases h <;> simp [e1, e2]

/-- The termination flag is left as it was by `set_hidden_loop`. -/
theorem set_hidden_loop_terminated (head : Node) (b : Bool) :
    ∀ (fuel : Nat) (s s1 : State) (pos tmp : Node),
      Workspace.set_hidden_loop head b fuel s pos tmp = some s1 → s1.terminated = s.terminated
  | 0, _, _, _, _, h => by simp [Workspace.set_hidden_loop] at h
  | fuel + 1, s, s1, pos, tmp, h => by
    simp only [Workspace.set_hidden_loop] at h
    split at h
    · cases h; rfl
    · split at h
      · split at h
        · cases h
        · have := set_hidden_loop_terminated head b fuel _ s1 _ _ h
          exact this
      · cases h

/-- The termination flag is left as it was by `Workspace::set_hidden`. -/
theorem workspace_set_hidden_terminated {fuel : Nat} {s s1 : State} {w : Nat} {b : Bool}
    (h : Workspace.set_hidden fuel s w b = some s1) : s1.terminated = s.terminated := by
  simp only [Workspace.set_hidden] at h
  split at h
  · cases h
  · split at h
    · cases h
    · exact set_hidden_loop_terminated _ _ _ _ _ _ _ h

/-- The termination flag is left as it was by `Workspace::focus`. -/
theorem workspace_focus_terminated {fuel : Nat} {s s1 : State} {w : Nat}
    (h : Workspace.focus fuel s w = some s1) : s1.terminated = s.terminated := by
  simp only [Workspace.focus] at h
  split at h
  · cases h
  · rename_i sh hh
    have e := workspace_set_hidden_terminated hh
    split at h
    · cases h; exact e
    · split at h
      · cases h
      · have := toplevel_focus_terminated h
        exact this.trans e

/-- The termination flag is left as it was by `Workspace::focus_next`. -/
theorem focus_next_terminated {fuel : Nat} {s s1 : State} {w : Nat}
    (h : Workspace.focus_next fuel s w = some s1) : s1.terminated = s.terminated := by
  simp only [Workspace.focus_next] at h
  split at h
  · cases h
  · split at h
    · cases h; rfl
    · split at h
      · split at h
        · cases h
        · have := toplevel_focus_terminated h
          exact this
      · split at h
        · cases h
        · split at h
          · cases h
          · have := toplevel_focus_terminated h
            exact this

/-- The termination flag is left as it was by `Workspace::focus_prev`. -/
theorem focus_prev_terminated {fuel : Nat} {s s1 : State} {w : Nat}
    (h : Workspace.focus_prev fuel s w = some s1) : s1.terminated = s.terminated := by
  simp only [Workspace.focus_prev] at h
  split at h
  · cases h
  · split at h
    · cases h; rfl
    · split at h
      · split at h
        · cases h
        · have := toplevel_focus_terminated h
          exact this
      · split at h
        · cases h
        · split at h
          · cases h
          · have := toplevel_focus_terminated h
            exact this

/-- The termination flag is left as it was by `tile_loop`. -/
theorem tile_loop_terminated (head : Node) (box : Box) (cols : Nat) (width height : Int) :
    ∀ (fuel : Nat) (s s1 : State) (pos tmp : Node) (i : Nat),
      Workspace.tile_loop head box cols width height fuel s pos tmp i = some s1 →
      s1.terminated = s.terminated
  | 0, _, _, _, _, _, h => by simp [Workspace.tile_loop] at h
  | fuel + 1, s, s1, pos, tmp, i, h => by
    simp only [Workspace.tile_loop] at h
    split at h
    · cases h; rfl
    · split at h
      · split at h
        · cases h
        · have := tile_loop_terminated head box cols width height fuel _ s1 _ _ _ h
          exact this
      · cases h

/-- The termination flag is left as it was by `Workspace::tile`. -/
theorem tile_terminated {fuel : Nat} {s s1 : State} {w : Nat} {box : Box}
    (h : Workspace.tile fuel s w box = some s1) : s1.terminated = s.terminated := by
  simp only [Workspace.tile] at h
  split at h
  · cases h; rfl
  · split at h
    · cases h
    · split at h
      · cases h
      · split at h
        · cases h
        · exact tile_loop_terminated _ _ _ _ _ _ _ _ _ _ _ h

/-- The termination flag is left as it was by `Output::set_workspace`. -/
theorem set_workspace_terminated {fuel : Nat} {s : State} {output n : Nat}
    {r : Bool × State} (h : Output.set_workspace fuel s output n = some r) :
    r.2.terminated = s.terminated := by
  simp only [Output.set_workspace] at h
  split at h
  · cases h; rfl
  · split at h
    · cases h
    · rename_i s1 h1
      have e1 : s1.terminated = s.terminated := by
        split at h1
        · cases h1; rfl
        · exact workspace_set_hidden_terminated h1
      split at h
      · cases h
      · rename_i sf hf
        cases h
        have e2 := workspace_focus_terminated hf
        simp only at e2 ⊢
        rw [e2, e1]

/-- The Escape binding: `wl_display_terminate` and `true`, whatever the output. -/
theorem handle_keybinding_escape (fuel : Nat) (s : State) :
    Keyboard.handle_keybinding fuel s XKB_KEY_Escape = some (true, { s with terminated := true }) := by
  simp [Keyboard.handle_keybinding]

/-- No plain binding takes a termination request back. -/
theorem handle_keybinding_terminated {fuel : Nat} {s : State} {sym : Nat} {r : Bool × State}
    (h : Keyboard.handle_keybinding fuel s sym = some r) (ht : s.terminated = true) :
    r.2.terminated = true := by
  simp only [Keyboard.handle_keybinding] at h
  split at h
  · cases h; rfl
  · split at h
    · cases h; exact ht
    · split at h
      · exact (set_workspace_terminated h).trans ht
      · split at h
        · cases h; exact ht
        · split at h
          · cases h; exact ht
          · split at h
            · split at h
              · cases h
              · obtain ⟨s1, h1, rfl⟩ := Option.map_eq_some'.1 h
                exact (focus_prev_terminated h1).trans ht
            · split at h
              · split at h
                · cases h
                · obtain ⟨s1, h1, rfl⟩ := Option.map_eq_some'.1 h
                  exact (focus_next_terminated h1).trans ht
              · split at h
                · split at h
                  · cases h
                  · obtain ⟨s1, h1, rfl⟩ := Option.map_eq_some'.1 h
                    exact (tile_terminated h1).trans ht
                · split at h
                  · cases h; exact ht
                  · split at h
                    · cases h; exact ht
                    · cases h; exact ht

/-- The loop over the keysyms of an event with the plain bindings: once Escape
has been met the termination flag is set at the end. -/
theorem run_handlers_terminated (fuel : Nat) :
    ∀ (syms : List Nat) (handled : Bool) (s : State) (r : Bool × State),
      Keyboard.run_handlers (fun s1 sym => Keyboard.handle_keybinding fuel s1 sym) syms handled s
        = some r →
      (s.terminated = true ∨ XKB_KEY_Escape ∈ syms) → r.2.terminated = true
  | [], handled, s, r, h, ht => by
    simp only [Keyboard.run_handlers] at h
    cases h
    rcases ht with ht | ht
    · exact ht
    · simp at ht
  | sym :: syms, handled, s, r, h, ht => by
    simp only [Keyboard.run_handlers] at h
    split at h
    · cases h
    · rename_i r1 h1
      refine run_handlers_terminated fuel syms r1.1 r1.2 r h ?_
      by_cases hs : s.terminated = true
      · exact Or.inl (handle_keybinding_terminated h1 hs)
      · rcases ht with ht | ht
        · exact absurd ht hs
        · rcases List.mem_cons.1 ht with e | e
          · rw [← e, handle_keybinding_escape] at h1
            cases h1
            exact Or.inl rfl
          · exact Or.inr e


/-! # Keyboard::handle_shift_keybinding -/

/-- C11 fails as stated: with workspace 0 visible on the output under the
pointer and C its active window, keycode 2 names workspace 0 itself. The
handler returns `true`, `move_to` having refused, and workspace 0, the
previously active workspace, still contains C. -/
theorem shift_keybinding_same_workspace :
    state_out.pointer_output = some 0 ∧ Output.get_active state_out 0 = some 0 ∧
    Output.get_workspace state_out 0 (2 - 2) = some 0 ∧
    state_out.active_toplevel 0 = some 3 ∧
    (Keyboard.handle_shift_keybinding 10 state_out 2 0).map Prod.fst = some true ∧
    (Keyboard.handle_shift_keybinding 10 state_out 2 0).map
      (fun r => Workspace.contains 10 r.2 0 (some 3)) = some (some true) ∧
    (Keyboard.handle_shift_keybinding 10 state_out 2 0).map
      (fun r => members 10 r.2 (Node.ws 0)) = some (some [3, 2, 1]) := by
  refine ⟨?_, ?_, ?_, ?_, ?_, ?_, ?_⟩ <;> decide

/-- C11 as amended. With an output under the pointer: a keycode outside
[2, 10] gives `false` and changes nothing; a keycode in [2, 10] whose workspace
`keycode - 2` the output does not have gives `false` and changes nothing; for a
keycode in [2, 10] whose workspace the output has, every result the handler
returns is `true`, whatever `move_to` answers, and the handler does return,
with `true`, whenever the output shows a workspace, the lists of that workspace
and of the target are well-formed and the head of the server's list has a
`next` pointer; a keycode in [2, 10] that names the active workspace itself, or
met when the active window is null or not a member, gives `true` and changes
nothing; and a keycode in [2, 10] that names another workspace, met when the
active window is a member of the active workspace and holds the keyboard
focus, gives `true` and moves the window: afterwards the target contains it (at
the front, as its active window) and the previously active workspace does
not. -/
theorem handle_shift_keybinding_moves (fuel : Nat) (s : State) (output keycode sym : Nat)
    (ho : s.pointer_output = some output) :
    (¬ (1 < keycode ∧ keycode < 11) →
      Keyboard.handle_shift_keybinding fuel s keycode sym = some (false, s)) ∧
    (1 < keycode → keycode < 11 → Output.get_workspace s output (keycode - 2) = none →
      Keyboard.handle_shift_keybinding fuel s keycode sym = some (false, s)) ∧
    (∀ target r, 1 < keycode → keycode < 11 →
      Output.get_workspace s output (keycode - 2) = some target →
      Keyboard.handle_shift_keybinding fuel s keycode sym = some r → r.1 = true) ∧
    (∀ cur target l lt, 1 < keycode → keycode < 11 → Output.get_active s output = some cur →
      Output.get_workspace s output (keycode - 2) = some target →
      IsList s (Node.ws cur) l → IsList s (Node.ws target) lt → l.length < fuel →
      (s.next Node.srv).isSome = true →
      ∃ s1, Keyboard.handle_shift_keybinding fuel s keycode sym = some (true, s1)) ∧
    (∀ cur, 1 < keycode → keycode < 11 → Output.get_active s output = some cur →
      Output.get_workspace s output (keycode - 2) = some cur →
      Keyboard.handle_shift_keybinding fuel s keycode sym = some (true, s)) ∧
    (∀ cur target l, 1 < keycode → keycode < 11 → Output.get_active s output = some cur →
      Output.get_workspace s output (keycode - 2) = some target →
      IsList s (Node.ws cur) l → l.length < fuel → s.active_toplevel cur ∉ l.map some →
      Keyboard.handle_shift_keybinding fuel s keycode sym = some (true, s)) ∧
    (∀ cur target l lt w, 1 < keycode → keycode < 11 →
      Output.get_active s output = some cur →
      Output.get_workspace s output (keycode - 2) = some target → target ≠ cur →
      IsList s (Node.ws cur) l → IsList s (Node.ws target) lt → l.length < fuel →
      lt.length + 1 < fuel → s.active_toplevel cur = some w → w ∈ l →
      s.focused_surface = some (Surface.toplevel w) →
      ∃ s1, Keyboard.handle_shift_keybinding fuel s keycode sym = some (true, s1) ∧
        Workspace.contains fuel s1 target (some w) = some true ∧
        Workspace.contains fuel s1 cur (some w) = some false ∧
        IsList s1 (Node.ws target) (w :: lt) ∧ IsList s1 (Node.ws cur) (l.erase w) ∧
        s1.active_toplevel target = some w) := by
  refine ⟨?_, ?_, ?_, ?_, ?_, ?_, ?_⟩
  · intro h
    simp only [Keyboard.handle_shift_keybinding, ho, if_neg h]
  · intro h1 h2 h3
    simp only [Keyboard.handle_shift_keybinding, ho, h1, h2, h3, and_self, if_true]
  · intro target r h1 h2 h4 hr
    simp only [Keyboard.handle_shift_keybinding, ho, h1, h2, h4, and_self, if_true] at hr
    split at hr
    · cases hr
    · split at hr
      · cases hr
      · cases hr
        rfl
  · intro cur target l lt h1 h2 h3 h4 hl hlt hf hsrv
    obtain ⟨r, hm⟩ := move_to_returns fuel s cur target (s.active_toplevel cur) l lt hl hlt hf hsrv
    exact ⟨r.2, by
      simp only [Keyboard.handle_shift_keybinding, ho, h1, h2, h3, h4, and_self, if_true, hm]⟩
  · intro cur h1 h2 h3 h4
    have hm := move_to_refused fuel s cur cur (s.active_toplevel cur) [] (Or.inl rfl)
    simp only [Keyboard.handle_shift_keybinding, ho, h1, h2, h3, h4, and_self, if_true, hm]
  · intro cur target l h1 h2 h3 h4 hl hf hnot
    have hm := move_to_refused fuel s cur target (s.active_toplevel cur) l
      (Or.inr ⟨hl, hf, hnot⟩)
    simp only [Keyboard.handle_shift_keybinding, ho, h1, h2, h3, h4, and_self, if_true, hm]
  · intro cur target l lt w h1 h2 h3 h4 hct hl hlt hf hft ha hw hfoc
    obtain ⟨s1, hm, ht, hc, hat, _⟩ := move_to_focused fuel s cur target w l lt hct hl hlt hf hw hfoc
    have hnd : l.Nodup := Chain.nodup (by intro x; simp) hl.1
    have hwe : w ∉ l.erase w := fun h => (List.Nodup.mem_erase_iff hnd).1 h |>.1 rfl
    refine ⟨s1, ?_, ?_, ?_, ht, hc, hat⟩
    · simp only [Keyboard.handle_shift_keybinding, ho, h1, h2, h3, h4, and_self, if_true, ha, hm]
    · rw [contains_isList s1 target (w :: lt) (some w) fuel ht.1 (by simpa using hft)]
      simp
    · rw [contains_isList s1 cur (l.erase w) (some w) fuel hc.1
        (lt_of_le_of_lt (List.length_erase_le w l) hf)]
      simp [hwe]

/-- C11 as amended, at workspace 0 (C, B, A) visible on output 0 under the
pointer: with C active and focused, keycode 3 moves C to workspace 1; with A
active, which does not hold the keyboard focus, keycode 3 is handled too. -/
theorem handle_shift_keybinding_moves_witness :
    (state_out.pointer_output = some 0 ∧
    ∃ s1, Keyboard.handle_shift_keybinding 10 state_out 3 0 = some (true, s1) ∧
      Workspace.contains 10 s1 1 (some 3) = some true ∧
      Workspace.contains 10 s1 0 (some 3) = some false ∧
      IsList s1 (Node.ws 1) (3 :: []) ∧ IsList s1 (Node.ws 0) ([3, 2, 1].erase 3) ∧
      s1.active_toplevel 1 = some 3) ∧
    (state_out_active_A.pointer_output = some 0 ∧
      state_out_active_A.active_toplevel 0 = some 1 ∧
      state_out_active_A.focused_surface = some (Surface.toplevel 3) ∧
      ∃ s1, Keyboard.handle_shift_keybinding 10 state_out_active_A 3 0 = some (true, s1)) :=
  ⟨⟨by decide,
    (handle_shift_keybinding_moves 10 state_out 0 3 0 (by decide)).2.2.2.2.2.2 0 1 [3, 2, 1] [] 3
      (by decide) (by decide) (by decide) (by decide) (by decide) (by decide) (by decide)
      (by decide) (by decide) (by decide) (by decide) (by decide)⟩,
    by decide, by decide, by decide,
    (handle_shift_keybinding_moves 10 state_out_active_A 0 3 0 (by decide)).2.2.2.1 0 1
      [3, 2, 1] [] (by decide) (by decide) (by decide) (by decide) (by decide) (by decide)
      (by decide) (by decide)⟩

/-! # The key listener -/

/-- C12 fails as stated: a press of Escape with no modifier held, and a press
of Escape with Alt and Shift held, do not terminate the session (the first is
forwarded to the client); a press with Alt alone does. -/
theorem escape_needs_alt_alone :
    (Keyboard.key 10 state_out ⟨0, 1, 1, [XKB_KEY_Escape], 0⟩).map
      (fun r => r.state.terminated) = some false ∧
    (Keyboard.key 10 state_out ⟨0, 1, 1, [XKB_KEY_Escape], 0⟩).map
      (fun r => r.notify_key) = some (some (0, 1, 1)) ∧
    (Keyboard.key 10 state_out ⟨0, 1, 1, [XKB_KEY_Escape], 9⟩).map
      (fun r => r.state.terminated) = some false ∧
    (Keyboard.key 10 state_out ⟨0, 1, 1, [XKB_KEY_Escape], 8⟩).map
      (fun r => r.state.terminated) = some true := by
  refine ⟨?_, ?_, ?_, ?_⟩ <;> decide

/-- C12 as amended: for every key-press event with Alt held and Shift not held
whose keysyms include Escape, the session is terminated when the key listener
returns; and when Escape is the only keysym of the event the listener does
return, with the event handled and not forwarded. -/
theorem escape_terminates (fuel : Nat) (s : State) (event : KeyEvent)
    (hp : event.state = WL_KEYBOARD_KEY_STATE_PRESSED)
    (ha : Nat.land event.modifiers WLR_MODIFIER_ALT ≠ 0)
    (hs : Nat.land event.modifiers WLR_MODIFIER_SHIFT = 0)
    (he : XKB_KEY_Escape ∈ event.syms) :
    (∀ r, Keyboard.key fuel s event = some r → r.state.terminated = true) ∧
    (event.syms = [XKB_KEY_Escape] →
      ∃ r, Keyboard.key fuel s event = some r ∧ r.state.terminated = true ∧
        r.handled = true ∧ r.notify_key = none) := by
  have hd : Keyboard.dispatch fuel s event =
      Keyboard.run_handlers (fun s1 sym => Keyboard.handle_keybinding fuel s1 sym)
        event.syms false s := by
    simp only [Keyboard.dispatch, hp, if_true, ha, hs, ne_eq, not_true_eq_false, not_false_eq_true,
      if_false]
  constructor
  · intro r hr
    simp only [Keyboard.key, hd] at hr
    split at hr
    · cases hr
    · rename_i handled s1 h1
      have ht := run_handlers_terminated fuel event.syms false s (handled, s1) h1 (Or.inr he)
      split at hr <;> cases hr <;> exact ht
  · intro hsyms
    refine ⟨⟨{ s with terminated := true }, true, none⟩, ?_, rfl, rfl, rfl⟩
    simp only [Keyboard.key, hd, hsyms, Keyboard.run_handlers, handle_keybinding_escape]
    simp

/-- C12 as amended, at a press of Escape with Alt held. -/
theorem escape_terminates_witness :
    ((1 : Nat) = WL_KEYBOARD_KEY_STATE_PRESSED ∧ Nat.land 8 WLR_MODIFIER_ALT ≠ 0 ∧
      Nat.land 8 WLR_MODIFIER_SHIFT = 0) ∧
    ∃ r, Keyboard.key 10 state_out ⟨0, 1, 1, [XKB_KEY_Escape], 8⟩ = some r ∧
      r.state.terminated = true ∧ r.handled = true ∧ r.notify_key = none :=
  ⟨by decide,
    (escape_terminates 10 state_out ⟨0, 1, 1, [XKB_KEY_Escape], 8⟩ (by decide) (by decide)
      (by decide) (by decide)).2 rfl⟩

/-- C13: for a key event that is not a press, or during which Alt is not held,
no handler runs (the dispatch gives `false` and the memory as it was), the
listener makes the keyboard the seat's keyboard, changes nothing else, and
forwards the raw event; and whatever the event, an outcome that is handled
carries no forwarded event, an outcome that is not handled carries one. -/
theorem key_not_shortcut (fuel : Nat) (s : State) (event : KeyEvent)
    (h : event.state ≠ WL_KEYBOARD_KEY_STATE_PRESSED ∨
      Nat.land event.modifiers WLR_MODIFIER_ALT = 0) :
    Keyboard.dispatch fuel s event = some (false, s) ∧
    Keyboard.key fuel s event =
      some ⟨{ s with keyboard := true }, false,
        some (event.time_msec, event.keycode, event.state)⟩ ∧
    (∀ (fuel2 : Nat) (s2 : State) (event2 : KeyEvent) (r : KeyOutcome),
      Keyboard.key fuel2 s2 event2 = some r →
      (r.handled = true → r.notify_key = none) ∧
      (r.handled = false →
        r.notify_key = some (event2.time_msec, event2.keycode, event2.state))) := by
  have hd : Keyboard.dispatch fuel s event = some (false, s) := by
    rcases h with h | h
    · simp only [Keyboard.dispatch, if_neg h]
    · by_cases hp : event.state = WL_KEYBOARD_KEY_STATE_PRESSED
      · simp only [Keyboard.dispatch, hp, if_true, h, ne_eq, not_true_eq_false, if_false]
      · simp only [Keyboard.dispatch, if_neg hp]
  refine ⟨hd, ?_, ?_⟩
  · simp only [Keyboard.key, hd]
    simp
  · intro fuel2 s2 event2 r hr
    simp only [Keyboard.key] at hr
    split at hr
    · cases hr
    · rename_i handled s1 h1
      split at hr
      · rename_i hh
        cases hr
        exact ⟨fun h => by simp [hh] at h, fun _ => rfl⟩
      · rename_i hh
        cases hr
        exact ⟨fun _ => rfl, fun h => absurd h hh⟩

/-- C13 at a release of the key `1` with Alt held, and at a press of it with no
modifier held. -/
theorem key_not_shortcut_witness :
    ((0 : Nat) ≠ WL_KEYBOARD_KEY_STATE_PRESSED ∧ Nat.land 0 WLR_MODIFIER_ALT = 0) ∧
    Keyboard.key 10 state_out ⟨7, 2, 0, [XKB_KEY_1], 8⟩ =
      some ⟨{ state_out with keyboard := true }, false, some (7, 2, 0)⟩ ∧
    Keyboard.key 10 state_out ⟨7, 2, 1, [XKB_KEY_1], 0⟩ =
      some ⟨{ state_out with keyboard := true }, false, some (7, 2, 1)⟩ :=
  ⟨by decide,
    (key_not_shortcut 10 state_out ⟨7, 2, 0, [XKB_KEY_1], 8⟩ (Or.inl (by decide))).2.1,
    (key_not_shortcut 10 state_out ⟨7, 2, 1, [XKB_KEY_1], 0⟩ (Or.inr (by decide))).2.1⟩

/-- C14: the dispatch of `handle_keybinding`. With an output under the pointer,
the digit `k` of 1..9 gives the request and the result of
`set_workspace(k - 1)` on that output; `o`, `p` and `t` give `focus_prev`,
`focus_next` and `tile` on the output's active workspace, and `true`; every
symbol outside Escape, 1..9, Left, Right, o, p, t, space, c gives `false` and
the memory as it was. With no output under the pointer every symbol other
than Escape gives `false` and the memory as it was. -/
theorem handle_keybinding_dispatch (fuel : Nat) (s : State) :
    (∀ output k, s.pointer_output = some output → 1 ≤ k → k ≤ 9 →
      Keyboard.handle_keybinding fuel s (XKB_KEY_1 + (k - 1)) =
        Output.set_workspace fuel s output (k - 1)) ∧
    (∀ output active, s.pointer_output = some output →
      Output.get_active s output = some active →
      Keyboard.handle_keybinding fuel s XKB_KEY_o =
        (Workspace.focus_prev fuel s active).map (fun s1 => (true, s1)) ∧
      Keyboard.handle_keybinding fuel s XKB_KEY_p =
        (Workspace.focus_next fuel s active).map (fun s1 => (true, s1)) ∧
      Keyboard.handle_keybinding fuel s XKB_KEY_t =
        (Workspace.tile fuel s active (s.output_box output)).map (fun s1 => (true, s1))) ∧
    (∀ output sym, s.pointer_output = some output → sym ≠ XKB_KEY_Escape →
      ¬ (XKB_KEY_1 ≤ sym ∧ sym ≤ XKB_KEY_9) → sym ≠ XKB_KEY_Left → sym ≠ XKB_KEY_Right →
      sym ≠ XKB_KEY_o → sym ≠ XKB_KEY_p → sym ≠ XKB_KEY_t → sym ≠ XKB_KEY_space →
      sym ≠ XKB_KEY_c → Keyboard.handle_keybinding fuel s sym = some (false, s)) ∧
    (∀ sym, s.pointer_output = none → sym ≠ XKB_KEY_Escape →
      Keyboard.handle_keybinding fuel s sym = some (false, s)) := by
  refine ⟨?_, ?_, ?_, ?_⟩
  · intro output k ho h1 h9
    have hne : XKB_KEY_1 + (k - 1) ≠ XKB_KEY_Escape := by
      simp only [XKB_KEY_1, XKB_KEY_Escape]; omega
    have hr : XKB_KEY_1 ≤ XKB_KEY_1 + (k - 1) ∧ XKB_KEY_1 + (k - 1) ≤ XKB_KEY_9 := by
      simp only [XKB_KEY_1, XKB_KEY_9]; omega
    simp only [Keyboard.handle_keybinding, if_neg hne, ho, hr, and_self, if_true,
      Nat.add_sub_cancel_left]
  · intro output active ho hact
    refine ⟨?_, ?_, ?_⟩
    · simp [Keyboard.handle_keybinding, ho, hact, XKB_KEY_o, XKB_KEY_Escape, XKB_KEY_1,
        XKB_KEY_9, XKB_KEY_Left, XKB_KEY_Right]
    · simp [Keyboard.handle_keybinding, ho, hact, XKB_KEY_o, XKB_KEY_p, XKB_KEY_Escape,
        XKB_KEY_1, XKB_KEY_9, XKB_KEY_Left, XKB_KEY_Right]
    · simp [Keyboard.handle_keybinding, ho, hact, XKB_KEY_o, XKB_KEY_p, XKB_KEY_t,
        XKB_KEY_Escape, XKB_KEY_1, XKB_KEY_9, XKB_KEY_Left, XKB_KEY_Right]
  · intro output sym ho h1 h2 h3 h4 h5 h6 h7 h8 h9
    simp only [Keyboard.handle_keybinding, if_neg h1, ho, if_neg h2, if_neg h3, if_neg h4,
      if_neg h5, if_neg h6, if_neg h7, if_neg h8, if_neg h9]
  · intro sym ho h1
    simp only [Keyboard.handle_keybinding, if_neg h1, ho]

/-- C14 at workspace 0 visible on output 0 under the pointer: the digit 2, the
symbol `p`, and the symbol `x`. -/
theorem handle_keybinding_dispatch_witness :
    (state_out.pointer_output = some 0 ∧ Output.get_active state_out 0 = some 0) ∧
    Keyboard.handle_keybinding 10 state_out (XKB_KEY_1 + (2 - 1)) =
      Output.set_workspace 10 state_out 0 (2 - 1) ∧
    Keyboard.handle_keybinding 10 state_out XKB_KEY_p =
      (Workspace.focus_next 10 state_out 0).map (fun s1 => (true, s1)) ∧
    Keyboard.handle_keybinding 10 state_out 0x78 = some (false, state_out) :=
  ⟨by decide,
    (handle_keybinding_dispatch 10 state_out).1 0 2 (by decide) (by decide) (by decide),
    ((handle_keybinding_dispatch 10 state_out).2.1 0 0 (by decide) (by decide)).2.1,
    (handle_keybinding_dispatch 10 state_out).2.2.1 0 0x78 (by decide) (by decide) (by decide)
      (by decide) (by decide) (by decide) (by decide) (by decide) (by decide) (by decide)⟩

/-! # The grab -/

/-- C15 at failing inputs. Window 1 of the initial state has not been mapped;
after a move request it is the grabbed window and the mode is Moving. Its
destroy listener, which only runs the destructor, leaves the mode Moving and
the grabbed-window reference on window 1. The same with a Moving or a
Resizing grab on C, a member of workspace 0. The grab is reset only when the
unmap event of the window comes before its destroy event. -/
theorem destroy_keeps_grab :
    state_moving_unmapped.cursor_mode = CursorMode.CURSORMODE_MOVE ∧
    state_moving_unmapped.grabbed_toplevel = some 1 ∧
    (Toplevel.destroy state_moving_unmapped 1).cursor_mode = CursorMode.CURSORMODE_MOVE ∧
    (Toplevel.destroy state_moving_unmapped 1).grabbed_toplevel = some 1 ∧
    state_moving.cursor_mode = CursorMode.CURSORMODE_MOVE ∧
    state_moving.grabbed_toplevel = some 3 ∧
    (Toplevel.destroy state_moving 3).cursor_mode = CursorMode.CURSORMODE_MOVE ∧
    (Toplevel.destroy state_moving 3).grabbed_toplevel = some 3 ∧
    state_resizing.cursor_mode = CursorMode.CURSORMODE_RESIZE ∧
    state_resizing.grabbed_toplevel = some 3 ∧
    (Toplevel.destroy state_resizing 3).cursor_mode = CursorMode.CURSORMODE_RESIZE ∧
    (Toplevel.destroy state_resizing 3).grabbed_toplevel = some 3 ∧
    (Toplevel.unmap state_moving 3).map (fun s => (Toplevel.destroy s 3).cursor_mode) =
      some CursorMode.CURSORMODE_PASSTHROUGH ∧
    (Toplevel.unmap state_moving 3).map (fun s => (Toplevel.destroy s 3).grabbed_toplevel) =
      some none := by
  refine ⟨?_, ?_, ?_, ?_, ?_, ?_, ?_, ?_, ?_, ?_, ?_, ?_, ?_, ?_⟩ <;> decide

/-- C16 fails as stated: in the initial state no window has been mapped, and a
move request of window 1 still starts the grab: the mode becomes Moving and
the grabbed window is window 1. -/
theorem begin_interactive_unmapped :
    State.init.cursor_mode = CursorMode.CURSORMODE_PASSTHROUGH ∧
    State.init.grabbed_toplevel = none ∧ members 10 State.init Node.srv = some [] ∧
    State.init.next (Node.link 1) = none ∧
    (Toplevel.begin_interactive State.init 1 CursorMode.CURSORMODE_MOVE 0).map
      (fun s => s.cursor_mode) = some CursorMode.CURSORMODE_MOVE ∧
    (Toplevel.begin_interactive State.init 1 CursorMode.CURSORMODE_MOVE 0).map
      (fun s => s.grabbed_toplevel) = some (some 1) := by
  refine ⟨?_, ?_, ?_, ?_, ?_, ?_⟩ <;> decide

/-- The memory after a move request. -/
theorem begin_interactive_move (s : State) (t edges : Nat) :
    Toplevel.begin_interactive s t CursorMode.CURSORMODE_MOVE edges =
      some { s with
        grabbed_toplevel := some t
        cursor_mode := CursorMode.CURSORMODE_MOVE
        grab_x := s.cursor_x - (s.node_x t : ℚ)
        grab_y := s.cursor_y - (s.node_y t : ℚ) } := by
  simp [Toplevel.begin_interactive]

/-- The memory after a resize request on a window with an `xdg_toplevel`. -/
theorem begin_interactive_resize (s : State) (t edges : Nat) (hx : s.xdg_toplevel t = true) :
    Toplevel.begin_interactive s t CursorMode.CURSORMODE_RESIZE edges =
      some { s with
        grabbed_toplevel := some t
        cursor_mode := CursorMode.CURSORMODE_RESIZE
        grab_x := s.cursor_x -
          (((s.node_x t + (s.xdg_geometry t).x) +
            (if Nat.land edges WLR_EDGE_RIGHT ≠ 0 then (s.xdg_geometry t).width else 0) : Int) : ℚ)
        grab_y := s.cursor_y -
          (((s.node_y t + (s.xdg_geometry t).y) +
            (if Nat.land edges WLR_EDGE_BOTTOM ≠ 0 then (s.xdg_geometry t).height else 0) : Int) : ℚ)
        grab_geobox :=
          ⟨(s.xdg_geometry t).x + s.node_x t, (s.xdg_geometry t).y + s.node_y t,
            (s.xdg_geometry t).width, (s.xdg_geometry t).height⟩
        resize_edges := edges } := by
  simp [Toplevel.begin_interactive, hx]

/-- C16 as amended: `begin_interactive` has no check and never refuses. For
every memory and every window, mapped or not, a move request returns with the
window grabbed and the mode Moving, and a resize request (the window having an
`xdg_toplevel`) returns with the window grabbed, the mode Resizing and the
edge mask stored. -/
theorem begin_interactive_always_grabs (s : State) (t edges : Nat) :
    (∃ s1, Toplevel.begin_interactive s t CursorMode.CURSORMODE_MOVE edges = some s1 ∧
      s1.grabbed_toplevel = some t ∧ s1.cursor_mode = CursorMode.CURSORMODE_MOVE) ∧
    (s.xdg_toplevel t = true →
      ∃ s1, Toplevel.begin_interactive s t CursorMode.CURSORMODE_RESIZE edges = some s1 ∧
        s1.grabbed_toplevel = some t ∧ s1.cursor_mode = CursorMode.CURSORMODE_RESIZE ∧
        s1.resize_edges = edges) := by
  constructor
  · exact ⟨_, begin_interactive_move s t edges, rfl, rfl⟩
  · intro hx
    exact ⟨_, begin_interactive_resize s t edges hx, rfl, rfl, rfl⟩

/-- C16 as amended, at window 1 of the initial state, which was never mapped. -/
theorem begin_interactive_always_grabs_witness :
    State.init.xdg_toplevel 1 = true ∧
    ∃ s1, Toplevel.begin_interactive State.init 1 CursorMode.CURSORMODE_RESIZE 10 = some s1 ∧
      s1.grabbed_toplevel = some 1 ∧ s1.cursor_mode = CursorMode.CURSORMODE_RESIZE ∧
      s1.resize_edges = 10 :=
  ⟨by decide, (begin_interactive_always_grabs State.init 1 10).2 (by decide)⟩

/-- C20: the unmap listener of a linked window returns. When the window is the
grabbed one, the grab is reset to Idle and the grabbed-window reference
dropped; when it is any other window, the mode, the grabbed window, the
anchor, the edge mask and the saved geometry box are all as they were. -/
theorem unmap_grab (s : State) (t : Nat) (hp : (s.prev (Node.link t)).isSome)
    (hn : (s.next (Node.link t)).isSome) :
    ∃ s1, Toplevel.unmap s t = some s1 ∧
      (s.grabbed_toplevel = some t →
        s1.cursor_mode = CursorMode.CURSORMODE_PASSTHROUGH ∧ s1.grabbed_toplevel = none) ∧
      (s.grabbed_toplevel ≠ some t →
        s1.cursor_mode = s.cursor_mode ∧ s1.grabbed_toplevel = s.grabbed_toplevel ∧
        s1.grab_x = s.grab_x ∧ s1.grab_y = s.grab_y ∧ s1.resize_edges = s.resize_edges ∧
        s1.grab_geobox = s.grab_geobox) := by
  obtain ⟨p, hp⟩ := Option.isSome_iff_exists.1 hp
  obtain ⟨n, hn⟩ := Option.isSome_iff_exists.1 hn
  by_cases hg : s.grabbed_toplevel = some t
  · have h1 := wl_list_remove_eq (Server.reset_cursor_mode s) (Node.link t) p n hp hn
    refine ⟨_, by simp only [Toplevel.unmap, hg, if_true]; exact h1, ?_, ?_⟩
    · intro _; exact ⟨rfl, rfl⟩
    · intro h; exact absurd hg h
  · have h1 := wl_list_remove_eq s (Node.link t) p n hp hn
    refine ⟨_, by simp only [Toplevel.unmap, hg, if_false]; exact h1, ?_, ?_⟩
    · intro h; exact absurd h hg
    · intro _; exact ⟨rfl, rfl, rfl, rfl, rfl, rfl⟩

/-- C20 at the Moving grab on C: unmapping C resets the grab, unmapping B leaves
it as it was. -/
theorem unmap_grab_witness :
    ((state_moving.prev (Node.link 3)).isSome ∧ (state_moving.next (Node.link 3)).isSome ∧
      (state_moving.prev (Node.link 2)).isSome ∧ (state_moving.next (Node.link 2)).isSome ∧
      state_moving.grabbed_toplevel = some 3) ∧
    (∃ s1, Toplevel.unmap state_moving 3 = some s1 ∧
      s1.cursor_mode = CursorMode.CURSORMODE_PASSTHROUGH ∧ s1.grabbed_toplevel = none) ∧
    (∃ s1, Toplevel.unmap state_moving 2 = some s1 ∧
      s1.cursor_mode = state_moving.cursor_mode ∧
      s1.grabbed_toplevel = state_moving.grabbed_toplevel ∧
      s1.grab_x = state_moving.grab_x ∧ s1.grab_y = state_moving.grab_y ∧
      s1.resize_edges = state_moving.resize_edges ∧
      s1.grab_geobox = state_moving.grab_geobox) :=
  ⟨by decide,
    let ⟨s1, h1, h2, _⟩ := unmap_grab state_moving 3 (by decide) (by decide)
    ⟨s1, h1, h2 (by decide)⟩,
    let ⟨s1, h1, _, h3⟩ := unmap_grab state_moving 2 (by decide) (by decide)
    ⟨s1, h1, h3 (by decide)⟩⟩

/-! # Workspace::add_toplevel, unmap, Workspace::get_toplevel -/

/-- C17 fails as stated: C is a member of workspace 0 (C, B, A) and holds the
keyboard focus. `add_toplevel(C)` on workspace 1 puts C on workspace 1 and
makes it the active window there, and the walk through workspace 0's list,
whose head still points to C, now leaves the list: its window sequence can no
longer be read off and `contains(B)` does not return. -/
theorem add_toplevel_of_member :
    members 10 state_ABC (Node.ws 0) = some [3, 2, 1] ∧
    members 10 state_ABC (Node.ws 1) = some [] ∧ state_ABC.active_toplevel 1 = none ∧
    (Workspace.add_toplevel state_ABC 1 3).map (fun s => members 10 s (Node.ws 1)) =
      some (some [3]) ∧
    (Workspace.add_toplevel state_ABC 1 3).map (fun s => s.active_toplevel 1) =
      some (some 3) ∧
    (Workspace.add_toplevel state_ABC 1 3).map (fun s => members 10 s (Node.ws 0)) =
      some none ∧
    (Workspace.add_toplevel state_ABC 1 3).map (fun s => s.next (Node.link 3)) =
      some (some (Node.ws 1)) ∧
    (Workspace.add_toplevel state_ABC 1 3).map (fun s => Workspace.contains 100 s 0 (some 2)) =
      some none := by
  refine ⟨?_, ?_, ?_, ?_, ?_, ?_, ?_, ?_⟩ <;> decide

/-- C17 as amended: `add_toplevel` has no membership check. For every
well-formed list `l` of a workspace and every window that is not on it (in
particular one that is a member of another workspace) and holds the keyboard
focus, `add_toplevel` returns with the window at the front of the list and
active; the active windows of the other workspaces are as they were. -/
theorem add_toplevel_inserts (s : State) (ws w : Nat) (l : List Nat)
    (hl : IsList s (Node.ws ws) l) (hw : w ∉ l)
    (hfoc : s.focused_surface = some (Surface.toplevel w)) :
    ∃ s1, Workspace.add_toplevel s ws w = some s1 ∧ IsList s1 (Node.ws ws) (w :: l) ∧
      s1.active_toplevel ws = some w ∧
      (∀ other, other ≠ ws → s1.active_toplevel other = s.active_toplevel other) := by
  obtain ⟨si, hi, hil, hia, hif, _, _⟩ := wl_list_insert_isList s ws w l hl hw
  have hifoc : si.focused_surface = some (Surface.toplevel w) := by rw [hif, hfoc]
  refine ⟨{ si with active_toplevel := upd si.active_toplevel ws (some w) }, ?_, hil,
    by simp [upd], ?_⟩
  · simp only [Workspace.add_toplevel, hi, Toplevel.focus, hifoc]
    simp
  · intro other ho
    simp [upd, ho, hia]

/-- C17 as amended, at C, a member of workspace 0 holding the keyboard focus,
added to the empty workspace 1. -/
theorem add_toplevel_inserts_witness :
    (IsList state_ABC (Node.ws 1) [] ∧ 3 ∉ ([] : List Nat) ∧
      state_ABC.focused_surface = some (Surface.toplevel 3) ∧
      Workspace.contains 10 state_ABC 0 (some 3) = some true) ∧
    ∃ s1, Workspace.add_toplevel state_ABC 1 3 = some s1 ∧ IsList s1 (Node.ws 1) [3] ∧
      s1.active_toplevel 1 = some 3 ∧
      (∀ other, other ≠ 1 → s1.active_toplevel other = state_ABC.active_toplevel other) :=
  ⟨by decide, add_toplevel_inserts state_ABC 1 3 [] (by decide) (by decide) (by decide)⟩

/-- C18 at a failing input: C is the active window of workspace 0 (C, B, A).
Its unmap listener takes it out of the list, and the active window of the
workspace is still C, not null. (Unmapping A, a member that is not active,
leaves the active window as it was.) -/
theorem unmap_keeps_active :
    state_ABC.active_toplevel 0 = some 3 ∧ members 10 state_ABC (Node.ws 0) = some [3, 2, 1] ∧
    (Toplevel.unmap state_ABC 3).map (fun s => members 10 s (Node.ws 0)) = some (some [2, 1]) ∧
    (Toplevel.unmap state_ABC 3).map (fun s => s.active_toplevel 0) = some (some 3) ∧
    (Toplevel.unmap state_ABC 1).map (fun s => members 10 s (Node.ws 0)) = some (some [3, 2]) ∧
    (Toplevel.unmap state_ABC 1).map (fun s => s.active_toplevel 0) = some (some 3) := by
  refine ⟨?_, ?_, ?_, ?_, ?_, ?_⟩ <;> decide

/-- C19 at a failing input: workspace 0 holds C, B, A, so the member at position
1 is B. `get_toplevel(1)` returns `nullptr` (the loop increments `n`, not
`current`, and `0 == n` never holds again), and `move_to(1, workspace 1)`
returns `false` and moves nothing. Only position 0 is resolved. -/
theorem get_toplevel_only_first :
    members 10 state_ABC (Node.ws 0) = some [3, 2, 1] ∧
    Workspace.get_toplevel 10 state_ABC 0 0 = some (some 3) ∧
    Workspace.get_toplevel 10 state_ABC 0 1 = some none ∧
    Workspace.get_toplevel 10 state_ABC 0 2 = some none ∧
    (Workspace.move_to_nth 10 state_ABC 0 1 1).map Prod.fst = some false ∧
    (Workspace.move_to_nth 10 state_ABC 0 1 1).map (fun r => members 10 r.2 (Node.ws 0)) =
      some (some [3, 2, 1]) ∧
    (Workspace.move_to_nth 10 state_ABC 0 1 1).map (fun r => members 10 r.2 (Node.ws 1)) =
      some (some []) := by
  refine ⟨?_, ?_, ?_, ?_, ?_, ?_, ?_⟩ <;> decide

/-! # The grab anchor, the keysyms of one key, and the grid -/

/-- The loop of the key listener gives the result of the call for the last
keysym, made on the memory the calls before it left. -/
theorem run_handlers_last (handler : State → Nat → Option (Bool × State)) (last : Nat) :
    ∀ (init : List Nat) (handled : Bool) (s : State),
      Keyboard.run_handlers handler (init ++ [last]) handled s =
        (Keyboard.run_in_order handler init s).bind (fun s1 => handler s1 last)
  | [], handled, s => by
    simp only [List.nil_append, Keyboard.run_handlers, Keyboard.run_in_order, Option.some_bind]
    cases handler s last <;> rfl
  | sym :: init, handled, s => by
    simp only [List.cons_append, Keyboard.run_handlers, Keyboard.run_in_order]
    cases h : handler s sym with
    | none => rfl
    | some r => exact run_handlers_last handler last init r.1 r.2

/-- The test `edges & WLR_EDGE_RIGHT` is the test of bit 3 of the mask. -/
theorem land_edge_right (edges : Nat) :
    Nat.land edges WLR_EDGE_RIGHT ≠ 0 ↔ edges.testBit 3 = true := by
  have h : Nat.land edges WLR_EDGE_RIGHT = edges &&& 2 ^ 3 := rfl
  rw [h, Nat.and_two_pow]
  cases edges.testBit 3 <;> simp

/-- The test `edges & WLR_EDGE_BOTTOM` is the test of bit 1 of the mask. -/
theorem land_edge_bottom (edges : Nat) :
    Nat.land edges WLR_EDGE_BOTTOM ≠ 0 ↔ edges.testBit 1 = true := by
  have h : Nat.land edges WLR_EDGE_BOTTOM = edges &&& 2 ^ 1 := rfl
  rw [h, Nat.and_two_pow]
  cases edges.testBit 1 <;> simp

/-- C21: what `begin_interactive` records. A move request returns with the
window grabbed, the mode Moving and the anchor equal to the pointer position
minus the window origin; the edge mask and the saved box are as they were. A
resize request with edge mask `edges` (on a window with an `xdg_toplevel`)
returns with the window grabbed, the mode Resizing, the anchor equal to the
pointer position minus the border point (origin plus geometry position, plus
the geometry width when the mask has the Right bit, plus the geometry height
when it has the Bottom bit), the saved box equal to the geometry box moved by
the window origin, and the stored mask equal to `edges`. -/
theorem begin_interactive_anchor (s : State) (t edges : Nat) :
    (∃ s1, Toplevel.begin_interactive s t CursorMode.CURSORMODE_MOVE edges = some s1 ∧
      s1.grabbed_toplevel = some t ∧ s1.cursor_mode = CursorMode.CURSORMODE_MOVE ∧
      s1.grab_x = s.cursor_x - (s.node_x t : ℚ) ∧
      s1.grab_y = s.cursor_y - (s.node_y t : ℚ) ∧
      s1.resize_edges = s.resize_edges ∧ s1.grab_geobox = s.grab_geobox) ∧
    (s.xdg_toplevel t = true →
      ∃ s1, Toplevel.begin_interactive s t CursorMode.CURSORMODE_RESIZE edges = some s1 ∧
        s1.grabbed_toplevel = some t ∧ s1.cursor_mode = CursorMode.CURSORMODE_RESIZE ∧
        s1.grab_x = s.cursor_x -
          ((s.node_x t : ℚ) + (s.xdg_geometry t).x +
            (if edges.testBit 3 = true then ((s.xdg_geometry t).width : ℚ) else 0)) ∧
        s1.grab_y = s.cursor_y -
          ((s.node_y t : ℚ) + (s.xdg_geometry t).y +
            (if edges.testBit 1 = true then ((s.xdg_geometry t).height : ℚ) else 0)) ∧
        s1.grab_geobox =
          ⟨(s.xdg_geometry t).x + s.node_x t, (s.xdg_geometry t).y + s.node_y t,
            (s.xdg_geometry t).width, (s.xdg_geometry t).height⟩ ∧
        s1.resize_edges = edges) := by
  constructor
  · exact ⟨_, begin_interactive_move s t edges, rfl, rfl, rfl, rfl, rfl, rfl⟩
  · intro hx
    refine ⟨_, begin_interactive_resize s t edges hx, rfl, rfl, ?_, ?_, rfl, rfl⟩
    · show s.cursor_x - _ = _
      by_cases h : edges.testBit 3 = true
      · rw [if_pos ((land_edge_right edges).2 h), if_pos h]
        push_cast
        ring
      · rw [if_neg (fun h2 => h ((land_edge_right edges).1 h2)), if_neg h]
        push_cast
        ring
    · show s.cursor_y - _ = _
      by_cases h : edges.testBit 1 = true
      · rw [if_pos ((land_edge_bottom edges).2 h), if_pos h]
        push_cast
        ring
      · rw [if_neg (fun h2 => h ((land_edge_bottom edges).1 h2)), if_neg h]
        push_cast
        ring

/-- C21 at a resize of C by its right and bottom edges (mask 10), the pointer at
(500.5, 300), the window origin at (100, 50) and the geometry box
(10, 20, 640, 480): the anchor is (500.5 - 750, 300 - 550) and the saved box
(110, 70, 640, 480). -/
theorem begin_interactive_anchor_witness :
    state_pointer.xdg_toplevel 3 = true ∧
    ∃ s1, Toplevel.begin_interactive state_pointer 3 CursorMode.CURSORMODE_RESIZE 10 = some s1 ∧
      s1.grabbed_toplevel = some 3 ∧ s1.cursor_mode = CursorMode.CURSORMODE_RESIZE ∧
      s1.grab_x = -499 / 2 ∧ s1.grab_y = -250 ∧
      s1.grab_geobox = ⟨110, 70, 640, 480⟩ ∧ s1.resize_edges = 10 := by
  refine ⟨by decide, ?_⟩
  obtain ⟨s1, h, h1, h2, h3, h4, h5, h6⟩ :=
    (begin_interactive_anchor state_pointer 3 10).2 (by decide)
  refine ⟨s1, h, h1, h2, ?_, ?_, ?_, h6⟩
  · rw [h3, if_pos (by decide)]
    simp [state_pointer, upd]
    norm_num
  · rw [h4, if_pos (by decide)]
    simp [state_pointer, upd]
    norm_num
  · rw [h5]
    simp [state_pointer, upd]

/-- C22: the key listener at a press with Alt held. With no keysym no handler
runs, the event is unhandled and forwarded. With the keysyms `init ++ [last]`
the handlers of one tier (`handle_shift_keybinding` when Shift is held,
`handle_keybinding` when it is not) are called on every keysym in order, each
on the memory the call before left, and the local `handled` and the memory are
those of the call for `last`; the results for the keysyms of `init` are
dropped. -/
theorem key_last_result_wins (fuel : Nat) (s : State) (event : KeyEvent)
    (hp : event.state = WL_KEYBOARD_KEY_STATE_PRESSED)
    (ha : Nat.land event.modifiers WLR_MODIFIER_ALT ≠ 0) :
    (event.syms = [] →
      Keyboard.dispatch fuel s event = some (false, s) ∧
      Keyboard.key fuel s event =
        some ⟨{ s with keyboard := true }, false,
          some (event.time_msec, event.keycode, event.state)⟩) ∧
    (∀ init last, event.syms = init ++ [last] →
      (Nat.land event.modifiers WLR_MODIFIER_SHIFT ≠ 0 →
        Keyboard.dispatch fuel s event =
          (Keyboard.run_in_order
            (fun s1 sym => Keyboard.handle_shift_keybinding fuel s1 event.keycode sym)
            init s).bind
            (fun s1 => Keyboard.handle_shift_keybinding fuel s1 event.keycode last)) ∧
      (Nat.land event.modifiers WLR_MODIFIER_SHIFT = 0 →
        Keyboard.dispatch fuel s event =
          (Keyboard.run_in_order (fun s1 sym => Keyboard.handle_keybinding fuel s1 sym)
            init s).bind
            (fun s1 => Keyboard.handle_keybinding fuel s1 last))) := by
  have hd : event.syms = [] → Keyboard.dispatch fuel s event = some (false, s) := by
    intro h0
    simp only [Keyboard.dispatch, hp, if_true, ha, ne_eq, not_false_eq_true, h0]
    split <;> rfl
  refine ⟨fun h0 => ⟨hd h0, ?_⟩, ?_⟩
  · simp [Keyboard.key, hd h0]
  · intro init last hs
    constructor
    · intro hsh
      simp only [Keyboard.dispatch, hp, if_true, ha, ne_eq, not_false_eq_true, hsh, hs]
      exact run_handlers_last _ last init false s
    · intro hsh
      simp only [Keyboard.dispatch, hp, if_true, ha, ne_eq, not_false_eq_true, hsh,
        not_true_eq_false, if_false, hs]
      exact run_handlers_last _ last init false s

/-- C22 at a press with Alt held that gives the keysyms `space` and `a` on
`state_out`: the launcher is spawned for `space`, and the event is unhandled
and forwarded because `a` has no binding. With the keysyms the other way
round the event is handled. With no keysym the event is forwarded. -/
theorem key_last_result_wins_witness :
    ((1 : Nat) = WL_KEYBOARD_KEY_STATE_PRESSED ∧ Nat.land 8 WLR_MODIFIER_ALT ≠ 0) ∧
    Keyboard.dispatch 10 state_out ⟨7, 30, 1, [XKB_KEY_space, 0x61], 8⟩ =
      (Keyboard.run_in_order (fun s1 sym => Keyboard.handle_keybinding 10 s1 sym)
        [XKB_KEY_space] state_out).bind
        (fun s1 => Keyboard.handle_keybinding 10 s1 0x61) ∧
    (Keyboard.dispatch 10 state_out ⟨7, 30, 1, [XKB_KEY_space, 0x61], 8⟩).map
      (fun r => (r.1, r.2.spawned)) = some (false, [Spawn.rofi]) ∧
    (Keyboard.dispatch 10 state_out ⟨7, 30, 1, [0x61, XKB_KEY_space], 8⟩).map
      (fun r => (r.1, r.2.spawned)) = some (true, [Spawn.rofi]) ∧
    Keyboard.key 10 state_out ⟨7, 30, 1, [], 8⟩ =
      some ⟨{ state_out with keyboard := true }, false, some (7, 30, 1)⟩ :=
  ⟨by decide,
    ((key_last_result_wins 10 state_out ⟨7, 30, 1, [XKB_KEY_space, 0x61], 8⟩
      (by decide) (by decide)).2 [XKB_KEY_space] 0x61 rfl).2 (by decide),
    by decide, by decide,
    ((key_last_result_wins 10 state_out ⟨7, 30, 1, [], 8⟩ (by decide) (by decide)).1 rfl).2⟩

/-- The integer nearest to the real square root of the window count is
`grid_cols`: the structural `round_sqrt` is `round (sqrt n)`. -/
theorem grid_cols_eq_round (n : Nat) (h : 1 ≤ n) :
    round (Real.sqrt (n : ℝ)) = (grid_cols n : Int) := by
  obtain ⟨hc, h1, h2⟩ := grid_cols_spec n h
  obtain ⟨c, hcc⟩ : ∃ c, grid_cols n = c + 1 := ⟨grid_cols n - 1, by omega⟩
  rw [hcc] at h1 h2 ⊢
  simp only [Nat.add_sub_cancel] at h1
  have h1r : ((c : ℝ) + 1) * c + 1 ≤ n := by exact_mod_cast h1
  have h2r : (n : ℝ) ≤ ((c : ℝ) + 1) * (c + 1 + 1) := by exact_mod_cast h2
  have hc0 : (0 : ℝ) ≤ c := Nat.cast_nonneg c
  rw [round_eq, Int.floor_eq_iff]
  push_cast
  constructor
  · have : (c : ℝ) + 1 / 2 ≤ Real.sqrt n := by
      apply Real.le_sqrt_of_sq_le
      nlinarith
    linarith
  · have : Real.sqrt n < (c : ℝ) + 1 + 1 / 2 := by
      rw [Real.sqrt_lt' (by positivity)]
      nlinarith
    linarith

/-- C23: the grid of `Workspace::tile` for `n ≥ 1` windows. The count `cols` is
the integer nearest to the square root of `n`; `cols` and `rows` are at least
1; `cols * cols - cols + 1 ≤ n ≤ cols * cols + cols`; `rows` is `cols` or
`cols + 1`; the grid has room for all the windows and fewer than `cols` cells
left over, so that its last row is not empty; every index below `n` has a row
below `rows`. -/
theorem grid_near_square (n : Nat) (h : 1 ≤ n) :
    round (Real.sqrt (n : ℝ)) = (grid_cols n : Int) ∧
    1 ≤ grid_cols n ∧ 1 ≤ grid_rows n ∧
    grid_cols n * grid_cols n - grid_cols n + 1 ≤ n ∧
    n ≤ grid_cols n * grid_cols n + grid_cols n ∧
    (grid_rows n = grid_cols n ∨ grid_rows n = grid_cols n + 1) ∧
    n ≤ grid_rows n * grid_cols n ∧
    grid_rows n * grid_cols n - n < grid_cols n ∧
    (grid_rows n - 1) * grid_cols n < n ∧
    (∀ i, i < n → i / grid_cols n < grid_rows n) := by
  obtain ⟨hc, h1, h2⟩ := grid_cols_spec n h
  obtain ⟨hr, h3, h4⟩ := grid_rows_spec n h
  refine ⟨grid_cols_eq_round n h, hc, hr, ?_, ?_, ?_, h4, ?_, h3, ?_⟩
  · generalize grid_cols n = c at *
    obtain ⟨c1, rfl⟩ : ∃ c1, c = c1 + 1 := ⟨c - 1, by omega⟩
    simp only [Nat.add_sub_cancel] at h1
    have : (c1 + 1) * (c1 + 1) = (c1 + 1) * c1 + (c1 + 1) := by ring
    omega
  · have : grid_cols n * (grid_cols n + 1) = grid_cols n * grid_cols n + grid_cols n := by ring
    omega
  · generalize grid_cols n = c at *
    generalize grid_rows n = r at *
    obtain ⟨c1, rfl⟩ : ∃ c1, c = c1 + 1 := ⟨c - 1, by omega⟩
    obtain ⟨r1, rfl⟩ : ∃ r1, r = r1 + 1 := ⟨r - 1, by omega⟩
    simp only [Nat.add_sub_cancel] at h1 h3
    have hlo : c1 ≤ r1 := by
      by_contra hlt
      have : r1 + 1 ≤ c1 := by omega
      have : (r1 + 1) * (c1 + 1) ≤ c1 * (c1 + 1) := Nat.mul_le_mul_right _ this
      have : (c1 + 1) * c1 = c1 * (c1 + 1) := Nat.mul_comm _ _
      omega
    have hhi : r1 ≤ c1 + 1 := by
      by_contra hlt
      have : c1 + 2 ≤ r1 := by omega
      have : (c1 + 2) * (c1 + 1) ≤ r1 * (c1 + 1) := Nat.mul_le_mul_right _ this
      have : (c1 + 1) * (c1 + 1 + 1) = (c1 + 2) * (c1 + 1) := by ring
      omega
    omega
  · generalize grid_cols n = c at *
    generalize grid_rows n = r at *
    obtain ⟨r1, rfl⟩ : ∃ r1, r = r1 + 1 := ⟨r - 1, by omega⟩
    simp only [Nat.add_sub_cancel] at h3
    have : (r1 + 1) * c = r1 * c + c := by ring
    omega
  · intro i hi
    rw [Nat.div_lt_iff_lt_mul hc]
    omega

/-- C23 at seven windows: three columns and three rows, two cells left over. -/
theorem grid_near_square_witness :
    1 ≤ 7 ∧ grid_cols 7 = 3 ∧ grid_rows 7 = 3 ∧
    (round (Real.sqrt ((7 : Nat) : ℝ)) = (grid_cols 7 : Int) ∧
    1 ≤ grid_cols 7 ∧ 1 ≤ grid_rows 7 ∧
    grid_cols 7 * grid_cols 7 - grid_cols 7 + 1 ≤ 7 ∧
    7 ≤ grid_cols 7 * grid_cols 7 + grid_cols 7 ∧
    (grid_rows 7 = grid_cols 7 ∨ grid_rows 7 = grid_cols 7 + 1) ∧
    7 ≤ grid_rows 7 * grid_cols 7 ∧
    grid_rows 7 * grid_cols 7 - 7 < grid_cols 7 ∧
    (grid_rows 7 - 1) * grid_cols 7 < 7 ∧
    (∀ i, i < 7 → i / grid_cols 7 < grid_rows 7)) :=
  ⟨by decide, by decide, by decide, grid_near_square 7 (by decide)⟩

end Awm
